import Mathlib

/-!
# Metrics evaluation core: approx accumulator and `mode_eval_metrics`

Shallow embedding of `catboost/libs/algo/approx_updater_helpers.h` and
`catboost/app/mode_eval_metrics.cpp`.

Conventions of the embedding
* `double` / `float` values are elements of an arbitrary carrier `α`; the
  arithmetic used by a function is taken from the instances `Add α`, `Mul α`,
  `Zero α`, `One α`.  A theorem that needs a law of the arithmetic names the
  law in its instance arguments (for example `AddZeroClass α`) or in a
  hypothesis on the values concerned.
* `TDouble` and `TFloat` are the carriers with the rounded addition of the
  hardware (IEEE 754 binary64 and binary32, round to nearest, ties to even);
  they are used where a statement depends on rounding.
* `TVector<T>` is `List T`, `TString` is `List Char`.
* `ui32` fields hold naturals below `2 ^ 32`; a store into such a field reduces
  modulo `2 ^ 32`.
* `Y_ASSERT` and `CB_ENSURE` failures are explicit (`Option` / `Except`).
-/

namespace CatBoost

/-! ## `approx_updater_helpers.h` -/

section Scalar

variable {α : Type}

/-- The scalar `UpdateApprox<StoreExpApprox>(approx, approxDelta)`. -/
def UpdateApprox [Add α] [Mul α] (StoreExpApprox : Bool) (approx approxDelta : α) : α :=
  if StoreExpApprox then approx * approxDelta else approx + approxDelta

/-- The template `GetNeutralApprox<StoreExpApprox>()`: `1.0` or `0.0`. -/
def GetNeutralApprox [Zero α] [One α] (StoreExpApprox : Bool) : α :=
  if StoreExpApprox then 1 else 0

/-- The function `ApplyLearningRate<StoreExpApprox>(approxDelta, learningRate)`.  The library
functions `fast_exp` and `FastLogf` (with the `double`/`float` conversions around
`FastLogf`) are parameters. -/
def ApplyLearningRate [Mul α] (fast_exp FastLogf : α → α) (StoreExpApprox : Bool)
    (approxDelta learningRate : α) : α :=
  if StoreExpApprox then fast_exp (FastLogf approxDelta * learningRate)
  else approxDelta * learningRate

/-- The runtime overload `GetNeutralApprox(bool storeExpApproxes)`. -/
def GetNeutralApproxOfFlag [Zero α] [One α] (storeExpApproxes : Bool) : α :=
  if storeExpApproxes then GetNeutralApprox true else GetNeutralApprox false

end Scalar

/-! ## Floating-point addition -/

section Floating

/-- The position of the leading one bit of `magnitude` (`0` for `0` and `1`), found by
bisection; right for magnitudes below `2 ^ 4096`. -/
def leadingBit (magnitude : Nat) : Nat :=
  [2048, 1024, 512, 256, 128, 64, 32, 16, 8, 4, 2, 1].foldl
    (fun position step =>
      if magnitude >>> (position + step) = 0 then position else position + step) 0

/-- Rounding of a whole number to `precision` significant bits, to the nearest such number
and, halfway between two, to the one whose last kept bit is `0`. -/
def roundToNearestEven (precision : Nat) (magnitude : Nat) : Nat :=
  let shift := leadingBit magnitude + 1 - precision
  let kept := magnitude >>> shift
  let dropped := magnitude - kept <<< shift
  let half := 1 <<< (shift - 1)
  if shift = 0 then magnitude
  else if dropped < half ∨ (dropped = half ∧ kept % 2 = 0) then kept <<< shift
  else (kept + 1) <<< shift

/-- The values of an IEEE 754 binary format with `precision` significant bits and largest
exponent `emax`.  A finite value is a whole number of `units`, one unit being the smallest
positive value of the format, `2 ^ (2 - emax - precision)`; it belongs to the format when
its magnitude has at most `precision` significant bits and lies below
`2 ^ (2 * emax + precision - 1)` units, which is `2 ^ (emax + 1)`.  The two zeros, which
compare equal, are one value, and so are all NaNs. -/
inductive TFloating (precision emax : Nat) where
  | finite (units : Int)
  | infinite (negative : Bool)
  | nan
deriving DecidableEq, Repr

variable {precision emax : Nat}

/-- The value of the format that a real number of `units` units rounds to: the nearest
one, and an infinity from `2 ^ (emax + 1)` on. -/
def TFloating.round (units : Int) : TFloating precision emax :=
  let magnitude := roundToNearestEven precision units.natAbs
  if magnitude >>> (2 * emax + precision - 1) = 0 then
    .finite (if units < 0 then -(magnitude : Int) else magnitude)
  else .infinite (decide (units < 0))

/-- The operator `+` of the hardware: the exact sum, rounded. -/
def TFloating.add :
    TFloating precision emax → TFloating precision emax → TFloating precision emax
  | .finite a, .finite b => TFloating.round (a + b)
  | .finite _, .infinite negative => .infinite negative
  | .infinite negative, .finite _ => .infinite negative
  | .infinite negative, .infinite other =>
    if negative = other then .infinite negative else .nan
  | .nan, _ => .nan
  | _, .nan => .nan

instance : Add (TFloating precision emax) := ⟨TFloating.add⟩

instance : Zero (TFloating precision emax) := ⟨.finite 0⟩

/-- The conversion of a whole number to the format. -/
def TFloating.ofInt (n : Int) : TFloating precision emax :=
  TFloating.round (n * ((1 <<< (emax + precision - 2) : Nat) : Int))

/-- The exact value of a finite number, in units; `0` for the infinities and NaN. -/
def TFloating.units : TFloating precision emax → Int
  | .finite units => units
  | _ => 0

/-- The type `double`: binary64. -/
abbrev TDouble : Type := TFloating 53 1023

/-- The type `float`: binary32. -/
abbrev TFloat : Type := TFloating 24 127

end Floating

section Vector

variable {α : Type}

/-- The `NPar::TLocalExecutor` seen through `ParallelFor`: for the index range
`[first, last)` it fixes the order in which the loop body is run on the indices. -/
structure TLocalExecutor where
  schedule : Nat → Nat → List Nat

/-- An executor runs the body once on every index of the range and on nothing else. -/
def TLocalExecutor.Valid (localExecutor : TLocalExecutor) : Prop :=
  ∀ first last, (localExecutor.schedule first last).Perm (List.range' first (last - first))

/-- The executor that visits the indices in increasing order. -/
def sequentialExecutor : TLocalExecutor :=
  ⟨fun first last => List.range' first (last - first)⟩

/-- The executor that visits the indices in decreasing order. -/
def reverseExecutor : TLocalExecutor :=
  ⟨fun first last => (List.range' first (last - first)).reverse⟩

/-- `NPar::ParallelFor(executor, first, last, body)` on an explicit state. -/
def ParallelFor {σ : Type} (localExecutor : TLocalExecutor) (first last : Nat)
    (body : Nat → σ → σ) (s : σ) : σ :=
  (localExecutor.schedule first last).foldl (fun s idx => body idx s) s

/-- `for (idx : xrange(n)) body(idx)` on an explicit state. -/
def forXRange {σ : Type} (n : Nat) (body : Nat → σ → σ) (s : σ) : σ :=
  (List.range n).foldl (fun s idx => body idx s) s

/-- The vector overload `UpdateApprox(updateFunc, delta, approx, localExecutor)`.
`updateFunc deltaDim approxDim idx` is the new content of the `approxDim` view after
the call `updateFunc(deltaDim, approxDim, idx)`.  `Y_ASSERT(delta.size() == approx->size())`
failing gives `none`. -/
def UpdateApproxVector (updateFunc : List α → List α → Nat → List α)
    (delta approx : List (List α)) (localExecutor : TLocalExecutor) : Option (List (List α)) :=
  if delta.length = approx.length then
    some (forXRange delta.length (fun dimensionIdx approx =>
      match delta[dimensionIdx]?, approx[dimensionIdx]? with
      | some deltaDim, some approxDim =>
        approx.set dimensionIdx
          (ParallelFor localExecutor 0 approxDim.length
            (fun idx approxDim => updateFunc deltaDim approxDim idx) approxDim)
      | _, _ => approx) approx)
  else none

/-- Modelled from the spec: the update function that the callers of the vector `UpdateApprox`
(not among the sources) pass for a delta with one entry per document,
`approx[idx] = UpdateApprox<StoreExpApprox>(approx[idx], delta[idx])`.
An index outside either view leaves the view as it is. -/
def updateFuncPerDocument [Add α] [Mul α] (StoreExpApprox : Bool)
    (delta approx : List α) (idx : Nat) : List α :=
  match approx[idx]?, delta[idx]? with
  | some a, some d => approx.set idx (UpdateApprox StoreExpApprox a d)
  | _, _ => approx

/-- Advancing an approx by a sequence of per-tree deltas: the vector `UpdateApprox` is run
once per tree, in tree order; a failing update stops the run. -/
def advanceApprox (updateFunc : List α → List α → Nat → List α)
    (localExecutor : TLocalExecutor) :
    List (List (List α)) → List (List α) → Option (List (List α))
  | [], approx => some approx
  | delta :: deltas, approx =>
    (UpdateApproxVector updateFunc delta approx localExecutor).bind
      (advanceApprox updateFunc localExecutor deltas)

/-- The specialization `AddElementwise<double>(value, accumulator)`: the new accumulator.
`Y_ASSERT(value.size() == accumulator->size())` failing gives `none`. -/
def AddElementwise [Add α] (value accumulator : List α) : Option (List α) :=
  if value.length = accumulator.length then
    some (forXRange value.length (fun idx accumulator =>
      match accumulator[idx]?, value[idx]? with
      | some a, some v => accumulator.set idx (a + v)
      | _, _ => accumulator) accumulator)
  else none

/-- The generic template `AddElementwise<TElementType>(value, accumulator)`: the new
accumulator, where `addElement v a` is the new content of `(*accumulator)[idx]` after the
call `AddElementwise(value[idx], &(*accumulator)[idx])`.  A failing assertion, here or in
an element, gives `none`. -/
def AddElementwiseNested {β : Type} (addElement : β → β → Option β)
    (value accumulator : List β) : Option (List β) :=
  if value.length = accumulator.length then
    (List.range value.length).foldlM (fun accumulator idx =>
      match value[idx]?, accumulator[idx]? with
      | some v, some a => (addElement v a).map (accumulator.set idx)
      | _, _ => some accumulator) accumulator
  else none

/-- The instance `AddElementwise<TVector<double>>` of the template, on vectors of vectors:
its elements are added by the specialization for `double`. -/
def AddElementwise2 [Add α] (value accumulator : List (List α)) : Option (List (List α)) :=
  AddElementwiseNested AddElementwise value accumulator

/-- The part of a `TCompetitor` that `CalcPairwiseWeights` reads: the index `Id` of the
competitor inside its query and the `Weight` of the pair. -/
structure TCompetitor (α : Type) where
  Id : Nat
  Weight : α
deriving DecidableEq, Repr

/-- The part of a `TQueryInfo` that `CalcPairwiseWeights` reads: the index `Begin` of the
first document of the query and, for every document of the query, its competitors. -/
structure TQueryInfo (α : Type) where
  Begin : Nat
  Competitors : List (List (TCompetitor α))
deriving DecidableEq, Repr

/-- The statement `weights[i] += w` on a vector; an index outside the vector gives `none`. -/
def addAt [Add α] (weights : List α) (i : Nat) (w : α) : Option (List α) :=
  match weights[i]? with
  | some x => some (weights.set i (x + w))
  | none => none

/-- The body of the loop of `CalcPairwiseWeights` over the queries: the two inner loops on
one query. -/
def CalcPairwiseWeightsQuery [Add α] (queryInfo : TQueryInfo α) (pairwiseWeights : List α) :
    Option (List α) :=
  (List.range queryInfo.Competitors.length).foldlM (fun pairwiseWeights docId =>
    match queryInfo.Competitors[docId]? with
    | none => none
    | some competitors =>
      competitors.foldlM (fun pairwiseWeights competitor =>
        (addAt pairwiseWeights (queryInfo.Begin + docId) competitor.Weight).bind
          fun pairwiseWeights =>
            addAt pairwiseWeights (queryInfo.Begin + competitor.Id) competitor.Weight)
        pairwiseWeights) pairwiseWeights

/-- The function `CalcPairwiseWeights(queriesInfo, queriesCount, pairwiseWeights)`: the new
content of `pairwiseWeights`.  An access outside a vector gives `none`. -/
def CalcPairwiseWeights [Zero α] [Add α] (queriesInfo : List (TQueryInfo α))
    (queriesCount : Int) (pairwiseWeights : List α) : Option (List α) :=
  (List.range queriesCount.toNat).foldlM (fun pairwiseWeights queryIndex =>
    match queriesInfo[queryIndex]? with
    | none => none
    | some queryInfo => CalcPairwiseWeightsQuery queryInfo pairwiseWeights)
    (List.replicate pairwiseWeights.length 0)

/-- The function `SumLeafWeights(leafCount, leafIndices, learnPermutation, learnWeights)`;
a `float` weight is taken as its `double` value. -/
def SumLeafWeights [Zero α] [Add α] (leafCount : Nat) (leafIndices learnPermutation : List Nat)
    (learnWeights : List α) : Option (List α) :=
  (List.range learnWeights.length).foldlM (fun weightSum docIdx =>
    match learnWeights[docIdx]?, learnPermutation[docIdx]? with
    | some weight, some permuted =>
      match leafIndices[permuted]? with
      | some leaf => addAt weightSum leaf weight
      | none => none
    | _, _ => none) (List.replicate leafCount 0)

/-- The competitor pairs of one query in the order of the loops of `CalcPairwiseWeights`,
each as the index of the owning document, the index of the competitor and the weight. -/
def queryPairs (queryInfo : TQueryInfo α) : List (Nat × Nat × α) :=
  ((List.range queryInfo.Competitors.length).map fun docId =>
    match queryInfo.Competitors[docId]? with
    | none => []
    | some competitors =>
      competitors.map fun competitor =>
        (queryInfo.Begin + docId, queryInfo.Begin + competitor.Id, competitor.Weight)).flatten

/-- The competitor pairs of the first `queriesCount` queries, query after query. -/
def competitorPairs (queriesInfo : List (TQueryInfo α)) (queriesCount : Int) :
    List (Nat × Nat × α) :=
  ((List.range queriesCount.toNat).map fun queryIndex =>
    match queriesInfo[queryIndex]? with
    | none => []
    | some queryInfo => queryPairs queryInfo).flatten

/-- The leaf of the document at position `docIdx` of the permuted learn set. -/
def leafOfDocument (leafIndices learnPermutation : List Nat) (docIdx : Nat) : Option Nat :=
  (learnPermutation[docIdx]?).bind fun permuted => leafIndices[permuted]?

/-- The sum of `values` as a loop of `+=` statements computes it: from `0`, one value after
the other is added, each addition with the rounding of the carrier. -/
def accumulate [Zero α] [Add α] (values : List α) : α :=
  values.foldl (· + ·) 0

/-- The weights that `CalcPairwiseWeights` adds to entry `i`, in the order of its loops:
for each pair its weight if `i` is the owning document, then its weight if `i` is the
competitor. -/
def weightsAddedTo (pairs : List (Nat × Nat × α)) (i : Nat) : List α :=
  (pairs.map fun pair =>
    (if pair.1 = i then [pair.2.2] else []) ++ (if pair.2.1 = i then [pair.2.2] else [])).flatten

/-- The weights that `SumLeafWeights` adds to the entry of `leaf`, in the order of its
loop: those of the documents `docIdx` with `leafIndices[learnPermutation[docIdx]] = leaf`. -/
def weightsOfLeaf [Zero α] (leafIndices learnPermutation : List Nat) (learnWeights : List α)
    (leaf : Nat) : List α :=
  ((List.range learnWeights.length).filter fun docIdx =>
    decide (leafOfDocument leafIndices learnPermutation docIdx = some leaf)).map
      fun docIdx => learnWeights.getD docIdx 0

end Vector

/-! ## `mode_eval_metrics.cpp` -/

section Tokens

/-- Modelled from the spec: `StringSplitter(s).Split(delim)` of `util/string/iterator.h`, which
is not among the sources.  The tokens are the pieces of `s` between consecutive delimiters,
empty pieces included, from left to right. -/
def Split (delim : Char) : List Char → List (List Char)
  | [] => [[]]
  | c :: cs =>
    if c = delim then [] :: Split delim cs
    else
      match Split delim cs with
      | [] => [[c]]
      | token :: tokens => (c :: token) :: tokens

/-- Modelled from the spec: `.SkipEmpty()` of `util/string/iterator.h`, which is not among the
sources.  The empty tokens are dropped, the order of the others is kept. -/
def SkipEmpty (tokens : List (List Char)) : List (List Char) :=
  tokens.filter (fun token => !token.isEmpty)

/-- The loop of `CreateMetrics` that fills `metricsDescription` from the description string. -/
def metricsDescriptionOf (MetricsDescription : String) : List String :=
  (SkipEmpty (Split ',' MetricsDescription.toList)).map String.mk

end Tokens

section Run

/-- The struct `TModeEvalMetricsParams`; the three `ui32` fields hold values below `2 ^ 32`. -/
structure TModeEvalMetricsParams where
  Step : Nat := 1
  FirstIteration : Nat := 0
  EndIteration : Nat := 0
  ReadBlockSize : Int
  MetricsDescription : String
  ResultDirectory : String
  TmpDir : String
deriving DecidableEq, Repr

/-- The part of `TFullModel::ObliviousTrees` that `mode_eval_metrics` reads. -/
structure TObliviousTrees where
  TreeSizes : List Int
  ApproxDimension : Int
deriving DecidableEq, Repr

/-- The part of `TFullModel` that `mode_eval_metrics` reads; `UsedCatFeaturesCount` is the
value of `GetUsedCatFeaturesCount()`. -/
structure TFullModel where
  ObliviousTrees : TObliviousTrees
  UsedCatFeaturesCount : Nat
deriving DecidableEq, Repr

/-- A metric as far as the run depends on it: its description and `IsAdditiveMetric()`. -/
structure TMetric where
  Description : String
  IsAdditive : Bool
deriving DecidableEq, Repr

/-- The part of a `TPool` block that the run touches: `Docs.Target`, `Docs.QueryId` and the
rest of the block (`Features`), over a carrier `τ` of `float`. -/
structure TPool (τ : Type) where
  Target : List τ
  QueryId : List Nat
  Features : List (List τ)
deriving DecidableEq, Repr

/-- A `TLabelConverter`: `IsInitialized()` and the map `PrepareTargetCompressed` applies to a
target vector. -/
structure TLabelConverter (τ : Type) where
  IsInitialized : Bool
  PrepareTargetCompressed : List τ → List τ

/-- The values the option parser leaves behind: the fields of `params` the run reads,
`plotParams` and the three flags. -/
structure TArguments where
  CdFilePathInited : Bool
  OutputPath : String
  plotParams : TModeEvalMetricsParams
  verbose : Bool := false
  saveStats : Bool := false
  calcOnParts : Bool := false
deriving DecidableEq, Repr

/-- The calls a run makes on its collaborators, with the arguments it passes. -/
inductive TEvent (τ : Type) where
  | ReadModel
  | CreateMetricsFromDescription (metricsDescription : List String) (approxDim : Int)
  | CreateMetricCalcer (FirstIteration EndIteration Step processedIterationsStep : Nat)
      (TmpDir : String) (metrics : List TMetric)
  | ReadAndProceedPoolInBlocks (blockSize : Int)
  | BlockRead (poolPart : TPool τ)
  | ProceedDataSetForAdditiveMetrics (poolPart : TPool τ) (isProcessBoundaryGroups : Bool)
  | FinishProceedDataSetForAdditiveMetrics
  | ProceedDataSetForNonAdditiveMetrics (poolPart : TPool τ)
  | FinishProceedDataSetForNonAdditiveMetrics
  | ComputeNonAdditiveMetrics (datasetParts : List (TPool τ))
  | SaveResult (ResultDirectory OutputPath : String) (saveMetrics saveStats : Bool)
  | ClearTempFiles
deriving DecidableEq, Repr

/-- What a run leaves: the calls made so far and either a value, the message of the exception
that ended it, or nothing when the `while` loop did not end within the given number of
rounds. -/
inductive TOutcome (ε α : Type) where
  | ok (trace : List ε) (value : α)
  | failed (trace : List ε) (message : String)
  | unfinished (trace : List ε)
deriving DecidableEq, Repr

/-- The calls made by a run. -/
def TOutcome.trace {ε α : Type} : TOutcome ε α → List ε
  | .ok trace _ => trace
  | .failed trace _ => trace
  | .unfinished trace => trace

/-- The message of the exception that ended a run, if one did. -/
def TOutcome.message {ε α : Type} : TOutcome ε α → Option String
  | .failed _ message => some message
  | _ => none

/-- A computation that extends the list of calls made so far. -/
def TRun (ε α : Type) : Type := List ε → TOutcome ε α

/-- Returning a value. -/
def TRun.pure {ε α : Type} (value : α) : TRun ε α := fun trace => .ok trace value

/-- Sequencing: an exception in the first part skips the second. -/
def TRun.bind {ε α β : Type} (m : TRun ε α) (f : α → TRun ε β) : TRun ε β := fun trace =>
  match m trace with
  | .ok trace value => f value trace
  | .failed trace message => .failed trace message
  | .unfinished trace => .unfinished trace

instance (ε : Type) : Monad (TRun ε) where
  pure := TRun.pure
  bind := TRun.bind

/-- Throwing an exception with the given message. -/
def TRun.throw {ε α : Type} (message : String) : TRun ε α := fun trace => .failed trace message

/-- The `CB_ENSURE(condition, message)` statement. -/
def CB_ENSURE {ε : Type} (condition : Bool) (message : String) : TRun ε Unit :=
  if condition then TRun.pure () else TRun.throw message

/-- The collaborators of a run.  `ReadModel` is the result of reading the model file,
`TTempDirName` the name `TTempDir().Name()` gives, `Blocks blockSize` the blocks of the
dataset for a block size.  `Throws` tells, from the calls made so far (the last one is
the call being made), whether that call throws and with which message;
`AreAllIterationsProcessed` is the answer of the plot calcer after the calls made so far;
`Rounds` bounds the number of rounds of the `while` loop that are followed. -/
structure TEnvironment (τ : Type) where
  ReadModel : Except String TFullModel
  TTempDirName : String
  CreateMetricsFromDescription : List String → Int → Except String (List TMetric)
  BuildLabelsHelper : TFullModel → TLabelConverter τ
  Blocks : Int → List (TPool τ)
  Throws : List (TEvent τ) → Option String
  AreAllIterationsProcessed : List (TEvent τ) → Bool
  Rounds : Nat

variable {τ : Type}

/-- Recording a call whose result the environment gives as a value. -/
def record (event : TEvent τ) : TRun (TEvent τ) Unit := fun trace => .ok (trace ++ [event]) ()

/-- A call on a collaborator that returns nothing to the run: it is recorded, then it either
throws or returns. -/
def call (env : TEnvironment τ) (event : TEvent τ) : TRun (TEvent τ) Unit := fun trace =>
  match env.Throws (trace ++ [event]) with
  | some message => .failed (trace ++ [event]) message
  | none => .ok (trace ++ [event]) ()

/-- Modelled from the spec: `TMetricsPlotCalcer::HasAdditiveMetric()` of `plot.h`, which is not
among the sources: the metric set has at least one additive metric. -/
def HasAdditiveMetric (metrics : List TMetric) : Bool :=
  metrics.any (fun metric => metric.IsAdditive)

/-- Modelled from the spec: `TMetricsPlotCalcer::HasNonAdditiveMetric()` of `plot.h`, which is
not among the sources: the metric set has at least one non-additive metric. -/
def HasNonAdditiveMetric (metrics : List TMetric) : Bool :=
  metrics.any (fun metric => !metric.IsAdditive)

/-- The function `PreprocessTarget(labelConverter, targets)`: the new content of `targets`. -/
def PreprocessTarget (labelConverter : TLabelConverter τ) (targets : List τ) : List τ :=
  if labelConverter.IsInitialized then labelConverter.PrepareTargetCompressed targets
  else targets

/-- Modelled from the spec: `ReadAndProceedPoolInBlocks(params, blockSize, callback, executor)`
of `proceed_pool_in_blocks.h`, which is not among the sources: the callback is invoked once
per block, in dataset order.  The callback works on a state `σ`. -/
def ReadAndProceedPoolInBlocks {σ : Type} (env : TEnvironment τ) (blockSize : Int)
    (callback : TPool τ → σ → TRun (TEvent τ) σ) (s : σ) : TRun (TEvent τ) σ := do
  call env (.ReadAndProceedPoolInBlocks blockSize)
  (env.Blocks blockSize).foldlM (fun s poolPart => do
    call env (.BlockRead poolPart)
    callback poolPart s) s

/-- The function `ReadDatasetParts`: the new content of `datasetParts`. -/
def ReadDatasetParts (env : TEnvironment τ) (blockSize : Int)
    (labelConverter : TLabelConverter τ) (datasetParts : List (TPool τ)) :
    TRun (TEvent τ) (List (TPool τ)) :=
  ReadAndProceedPoolInBlocks env blockSize (fun poolPart datasetParts =>
    let poolPart := { poolPart with Target := PreprocessTarget labelConverter poolPart.Target }
    TRun.pure (datasetParts ++ [poolPart])) datasetParts

/-- The function `CreateMetrics(plotParams, approxDim)`. -/
def CreateMetrics (env : TEnvironment τ) (plotParams : TModeEvalMetricsParams)
    (approxDim : Int) : TRun (TEvent τ) (List TMetric) := do
  let metricsDescription := metricsDescriptionOf plotParams.MetricsDescription
  CB_ENSURE (!metricsDescription.isEmpty)
    ("No metric in metrics description " ++ plotParams.MetricsDescription)
  record (.CreateMetricsFromDescription metricsDescription approxDim)
  match env.CreateMetricsFromDescription metricsDescription approxDim with
  | .ok metrics => TRun.pure metrics
  | .error message => TRun.throw message

/-- The statements of `mode_eval_metrics` that fix `plotParams` after the model is read:
lines 125 to 130. -/
def resolvePlotParams (env : TEnvironment τ) (model : TFullModel)
    (plotParams : TModeEvalMetricsParams) : TModeEvalMetricsParams :=
  let plotParams :=
    if plotParams.EndIteration = 0 then
      { plotParams with EndIteration := model.ObliviousTrees.TreeSizes.length % 2 ^ 32 }
    else plotParams
  if plotParams.TmpDir = "-" then { plotParams with TmpDir := env.TTempDirName }
  else plotParams

/-- The additive pass of `mode_eval_metrics` (lines 151 to 161): the new `datasetParts`. -/
def additivePass (env : TEnvironment τ) (plotParams : TModeEvalMetricsParams)
    (calcOnParts : Bool) (metrics : List TMetric) (labelConverter : TLabelConverter τ)
    (datasetParts : List (TPool τ)) : TRun (TEvent τ) (List (TPool τ)) :=
  if HasAdditiveMetric metrics then do
    let datasetParts ← ReadAndProceedPoolInBlocks env plotParams.ReadBlockSize
      (fun poolPart datasetParts => do
        let poolPart :=
          { poolPart with Target := PreprocessTarget labelConverter poolPart.Target }
        call env (.ProceedDataSetForAdditiveMetrics poolPart (!poolPart.QueryId.isEmpty))
        if HasNonAdditiveMetric metrics && !calcOnParts then
          TRun.pure (datasetParts ++ [poolPart])
        else TRun.pure datasetParts) datasetParts
    call env .FinishProceedDataSetForAdditiveMetrics
    TRun.pure datasetParts
  else TRun.pure datasetParts

/-- The `while` loop of the calc-on-parts strategy (lines 164 to 170), followed for at most
`rounds` rounds. -/
def calcOnPartsLoop (env : TEnvironment τ) (plotParams : TModeEvalMetricsParams)
    (labelConverter : TLabelConverter τ) : Nat → TRun (TEvent τ) Unit
  | 0 => fun trace =>
    if env.AreAllIterationsProcessed trace then .ok trace () else .unfinished trace
  | rounds + 1 => fun trace =>
    if env.AreAllIterationsProcessed trace then .ok trace ()
    else
      (do
        ReadAndProceedPoolInBlocks env plotParams.ReadBlockSize
          (fun poolPart (_ : Unit) => do
            let poolPart :=
              { poolPart with Target := PreprocessTarget labelConverter poolPart.Target }
            call env (.ProceedDataSetForNonAdditiveMetrics poolPart)) ()
        call env .FinishProceedDataSetForNonAdditiveMetrics
        calcOnPartsLoop env plotParams labelConverter rounds) trace

/-- The calc-on-whole strategy of `mode_eval_metrics` (lines 173 to 178). -/
def calcOnWhole (env : TEnvironment τ) (plotParams : TModeEvalMetricsParams)
    (calcOnParts : Bool) (metrics : List TMetric) (labelConverter : TLabelConverter τ)
    (datasetParts : List (TPool τ)) : TRun (TEvent τ) Unit :=
  if HasNonAdditiveMetric metrics && !calcOnParts then do
    let datasetParts ←
      (if datasetParts.isEmpty then
        ReadDatasetParts env plotParams.ReadBlockSize labelConverter datasetParts
      else TRun.pure datasetParts)
    call env (.ComputeNonAdditiveMetrics datasetParts)
  else TRun.pure ()

/-- The statements of `mode_eval_metrics` after the plot calcer is created (lines 148 to
180): the additive pass, the selected non-additive strategy, the saving of the result. -/
def metricPasses (env : TEnvironment τ) (args : TArguments)
    (plotParams : TModeEvalMetricsParams) (metrics : List TMetric)
    (labelConverter : TLabelConverter τ) : TRun (TEvent τ) Int := do
  let datasetParts ← additivePass env plotParams args.calcOnParts metrics labelConverter []
  (if HasNonAdditiveMetric metrics && args.calcOnParts then
    calcOnPartsLoop env plotParams labelConverter env.Rounds
  else TRun.pure ())
  calcOnWhole env plotParams args.calcOnParts metrics labelConverter datasetParts
  call env (.SaveResult plotParams.ResultDirectory args.OutputPath true args.saveStats)
  call env .ClearTempFiles
  TRun.pure 0

/-- The function `mode_eval_metrics` after the options are parsed; the value of a finished
run is the exit code.  The logging scope, the class names and the start of the executor
threads take no part in the calls recorded. -/
def mode_eval_metrics (env : TEnvironment τ) (args : TArguments) : TRun (TEvent τ) Int := do
  record .ReadModel
  match env.ReadModel with
  | .error message => TRun.throw message
  | .ok model =>
    CB_ENSURE (model.UsedCatFeaturesCount == 0 || args.CdFilePathInited)
      "Model has categorical features. Specify column_description file with correct categorical features."
    let plotParams := resolvePlotParams env model args.plotParams
    let metrics ← CreateMetrics env plotParams model.ObliviousTrees.ApproxDimension
    call env (.CreateMetricCalcer plotParams.FirstIteration plotParams.EndIteration
      plotParams.Step 50 plotParams.TmpDir metrics)
    metricPasses env args plotParams metrics (env.BuildLabelsHelper model)

/-- The calls made after the plot calcer is created: all but `ReadModel`,
`CreateMetricsFromDescription` and `CreateMetricCalcer`. -/
def TEvent.isPassEvent : TEvent τ → Bool
  | .ReadModel => false
  | .CreateMetricsFromDescription _ _ => false
  | .CreateMetricCalcer _ _ _ _ _ _ => false
  | _ => true

/-- Every call the computation adds to the calls made so far satisfies `Q`. -/
def TRun.Emits {ε α : Type} (Q : ε → Prop) (m : TRun ε α) : Prop :=
  ∀ trace, ∃ added, (m trace).trace = trace ++ added ∧ ∀ event ∈ added, Q event

/-- The block as the plot calcer gets it: `PreprocessTarget` run once on `Docs.Target`. -/
def preprocessPool (labelConverter : TLabelConverter τ) (poolPart : TPool τ) : TPool τ :=
  { poolPart with Target := PreprocessTarget labelConverter poolPart.Target }

/-- The callback of the additive pass (lines 152 to 159) on the state `datasetParts`. -/
def additiveCallback (env : TEnvironment τ) (calcOnParts : Bool) (metrics : List TMetric)
    (labelConverter : TLabelConverter τ) (poolPart : TPool τ) (datasetParts : List (TPool τ)) :
    TRun (TEvent τ) (List (TPool τ)) := do
  let poolPart := { poolPart with Target := PreprocessTarget labelConverter poolPart.Target }
  call env (.ProceedDataSetForAdditiveMetrics poolPart (!poolPart.QueryId.isEmpty))
  if HasNonAdditiveMetric metrics && !calcOnParts then
    TRun.pure (datasetParts ++ [poolPart])
  else TRun.pure datasetParts

/-- The metric passes of `mode_eval_metrics` (lines 150 to 178): the additive pass and the
selected non-additive strategy. -/
def strategyPasses (env : TEnvironment τ) (calcOnParts : Bool)
    (plotParams : TModeEvalMetricsParams) (metrics : List TMetric)
    (labelConverter : TLabelConverter τ) : TRun (TEvent τ) Unit := do
  let datasetParts ← additivePass env plotParams calcOnParts metrics labelConverter []
  (if HasNonAdditiveMetric metrics && calcOnParts then
    calcOnPartsLoop env plotParams labelConverter env.Rounds
  else TRun.pure ())
  calcOnWhole env plotParams calcOnParts metrics labelConverter datasetParts

/-- The statements of `mode_eval_metrics` before `SaveResult` (lines 120 to 178): the model
check, the creation of the metrics and of the plot calcer, the metric passes.  The value is
the resolved `plotParams`. -/
def stepsBeforeSaveResult (env : TEnvironment τ) (args : TArguments) :
    TRun (TEvent τ) TModeEvalMetricsParams := do
  record .ReadModel
  match env.ReadModel with
  | .error message => TRun.throw message
  | .ok model =>
    CB_ENSURE (model.UsedCatFeaturesCount == 0 || args.CdFilePathInited)
      "Model has categorical features. Specify column_description file with correct categorical features."
    let plotParams := resolvePlotParams env model args.plotParams
    let metrics ← CreateMetrics env plotParams model.ObliviousTrees.ApproxDimension
    call env (.CreateMetricCalcer plotParams.FirstIteration plotParams.EndIteration
      plotParams.Step 50 plotParams.TmpDir metrics)
    strategyPasses env args.calcOnParts plotParams metrics (env.BuildLabelsHelper model)
    TRun.pure plotParams

/-- The call is a `SaveResult`. -/
def TEvent.isSaveResult : TEvent τ → Bool
  | .SaveResult _ _ _ _ => true
  | _ => false

/-- The call is a `ClearTempFiles`. -/
def TEvent.isClearTempFiles : TEvent τ → Bool
  | .ClearTempFiles => true
  | _ => false

/-- The call starts a streaming of the dataset. -/
def TEvent.isStreamStart : TEvent τ → Bool
  | .ReadAndProceedPoolInBlocks _ => true
  | _ => false

/-- The call is a `ComputeNonAdditiveMetrics`. -/
def TEvent.isComputeNonAdditiveMetrics : TEvent τ → Bool
  | .ComputeNonAdditiveMetrics _ => true
  | _ => false

/-- The call belongs to the additive pass of the plot calcer:
`ProceedDataSetForAdditiveMetrics` or `FinishProceedDataSetForAdditiveMetrics`. -/
def TEvent.isAdditiveCall : TEvent τ → Bool
  | .ProceedDataSetForAdditiveMetrics _ _ => true
  | .FinishProceedDataSetForAdditiveMetrics => true
  | _ => false

/-- The call belongs to the calc-on-parts strategy: `ProceedDataSetForNonAdditiveMetrics`
or `FinishProceedDataSetForNonAdditiveMetrics`. -/
def TEvent.isCalcOnPartsCall : TEvent τ → Bool
  | .ProceedDataSetForNonAdditiveMetrics _ => true
  | .FinishProceedDataSetForNonAdditiveMetrics => true
  | _ => false

/-- The computation follows a plan: the calls it adds are an initial part of `plan`, and
when it returns it has added all of `plan` and returns `value`. -/
def TRun.Follows {ε α : Type} (m : TRun ε α) (plan : List ε) (value : α) : Prop :=
  ∀ trace, (∃ done rest, plan = done ++ rest ∧ (m trace).trace = trace ++ done)
    ∧ ∀ trace1 v, m trace = .ok trace1 v → trace1 = trace ++ plan ∧ v = value

/-- Every value the computation returns satisfies `P`. -/
def TRun.Returns {ε α : Type} (P : α → Prop) (m : TRun ε α) : Prop :=
  ∀ trace trace1 value, m trace = .ok trace1 value → P value

/-- The calls of one streaming of the dataset in which the callback makes the calls
`perBlock poolPart` on each block. -/
def streamPlan (env : TEnvironment τ) (blockSize : Int) (perBlock : TPool τ → List (TEvent τ)) :
    List (TEvent τ) :=
  .ReadAndProceedPoolInBlocks blockSize ::
    ((env.Blocks blockSize).map fun poolPart => .BlockRead poolPart :: perBlock poolPart).flatten

/-- The calls of a completed additive pass. -/
def additivePlan (env : TEnvironment τ) (plotParams : TModeEvalMetricsParams)
    (metrics : List TMetric) (labelConverter : TLabelConverter τ) : List (TEvent τ) :=
  if HasAdditiveMetric metrics then
    streamPlan env plotParams.ReadBlockSize (fun poolPart =>
      [.ProceedDataSetForAdditiveMetrics (preprocessPool labelConverter poolPart)
        (!(preprocessPool labelConverter poolPart).QueryId.isEmpty)])
      ++ [.FinishProceedDataSetForAdditiveMetrics]
  else []

/-- The content of `datasetParts` after a completed additive pass that started with
`datasetParts` empty. -/
def retainedParts (env : TEnvironment τ) (plotParams : TModeEvalMetricsParams)
    (calcOnParts : Bool) (metrics : List TMetric) (labelConverter : TLabelConverter τ) :
    List (TPool τ) :=
  if HasAdditiveMetric metrics && (HasNonAdditiveMetric metrics && !calcOnParts) then
    (env.Blocks plotParams.ReadBlockSize).map (preprocessPool labelConverter)
  else []

/-- The calls of a completed calc-on-whole strategy that starts with `datasetParts`. -/
def calcOnWholePlan (env : TEnvironment τ) (plotParams : TModeEvalMetricsParams)
    (calcOnParts : Bool) (metrics : List TMetric) (labelConverter : TLabelConverter τ)
    (datasetParts : List (TPool τ)) : List (TEvent τ) :=
  if HasNonAdditiveMetric metrics && !calcOnParts then
    if datasetParts.isEmpty then
      streamPlan env plotParams.ReadBlockSize (fun _ => [])
        ++ [.ComputeNonAdditiveMetrics (datasetParts
          ++ (env.Blocks plotParams.ReadBlockSize).map (preprocessPool labelConverter))]
    else [.ComputeNonAdditiveMetrics datasetParts]
  else []

/-- The calls the metric passes may make, with the arguments they may have: the streaming
calls with the configured block size and the blocks of the dataset, the plot calcer calls
of the additive pass when there is an additive metric, those of the calc-on-parts strategy
when it is selected, and `ComputeNonAdditiveMetrics` on all preprocessed blocks when the
calc-on-whole strategy is selected. -/
def TEvent.expected (env : TEnvironment τ) (plotParams : TModeEvalMetricsParams)
    (calcOnParts : Bool) (metrics : List TMetric) (labelConverter : TLabelConverter τ) :
    TEvent τ → Prop
  | .ReadAndProceedPoolInBlocks blockSize => blockSize = plotParams.ReadBlockSize
  | .BlockRead poolPart => poolPart ∈ env.Blocks plotParams.ReadBlockSize
  | .ProceedDataSetForAdditiveMetrics poolPart isProcessBoundaryGroups =>
    HasAdditiveMetric metrics = true
      ∧ ∃ raw ∈ env.Blocks plotParams.ReadBlockSize,
        poolPart = preprocessPool labelConverter raw
          ∧ isProcessBoundaryGroups = !raw.QueryId.isEmpty
  | .FinishProceedDataSetForAdditiveMetrics => HasAdditiveMetric metrics = true
  | .ProceedDataSetForNonAdditiveMetrics poolPart =>
    (HasNonAdditiveMetric metrics && calcOnParts) = true
      ∧ ∃ raw ∈ env.Blocks plotParams.ReadBlockSize,
        poolPart = preprocessPool labelConverter raw
  | .FinishProceedDataSetForNonAdditiveMetrics =>
    (HasNonAdditiveMetric metrics && calcOnParts) = true
  | .ComputeNonAdditiveMetrics datasetParts =>
    (HasNonAdditiveMetric metrics && !calcOnParts) = true
      ∧ datasetParts
        = (env.Blocks plotParams.ReadBlockSize).map (preprocessPool labelConverter)
  | _ => False

/-- Arguments for concrete runs with the single non-additive metric "AUC" and no
calc-on-parts. -/
def nonAdditiveArguments : TArguments where
  CdFilePathInited := false
  OutputPath := "out"
  plotParams :=
    { ReadBlockSize := 2
      MetricsDescription := "AUC"
      ResultDirectory := "res"
      TmpDir := "-" }

/-- The environment of the concrete runs with a dataset that has no block. -/
def emptyDatasetEnvironment (model : TFullModel) : TEnvironment Int where
  ReadModel := .ok model
  TTempDirName := "tmp"
  CreateMetricsFromDescription := fun metricsDescription _ =>
    .ok (metricsDescription.map fun id => ⟨id, id != "AUC"⟩)
  BuildLabelsHelper := fun _ => ⟨false, fun targets => targets⟩
  Blocks := fun _ => []
  Throws := fun _ => none
  AreAllIterationsProcessed := fun trace =>
    trace.contains .FinishProceedDataSetForNonAdditiveMetrics
  Rounds := 2

/-- A model with `trees` trees of depth 6, one approx dimension and `catFeatures` used
categorical features. -/
def exampleModel (trees catFeatures : Nat) : TFullModel :=
  ⟨⟨List.replicate trees 6, 1⟩, catFeatures⟩

/-- An environment for concrete runs: the model is read, every identifier but "AUC" names
an additive metric, the labels are not converted, the dataset comes in two blocks with
targets `[0, 1]` and `[1]`, no collaborator throws, and one calc-on-parts round processes
all iterations. -/
def exampleEnvironment (model : TFullModel) : TEnvironment Int where
  ReadModel := .ok model
  TTempDirName := "tmp"
  CreateMetricsFromDescription := fun metricsDescription _ =>
    .ok (metricsDescription.map fun id => ⟨id, id != "AUC"⟩)
  BuildLabelsHelper := fun _ => ⟨false, fun targets => targets⟩
  Blocks := fun _ => [⟨[0, 1], [], []⟩, ⟨[1], [], []⟩]
  Throws := fun _ => none
  AreAllIterationsProcessed := fun trace =>
    trace.contains .FinishProceedDataSetForNonAdditiveMetrics
  Rounds := 2

/-- Arguments for concrete runs: metrics "Logloss,AUC", block size 2, the given iteration
range and flags. -/
def exampleArguments (FirstIteration EndIteration : Nat) (CdFilePathInited calcOnParts : Bool) :
    TArguments where
  CdFilePathInited := CdFilePathInited
  OutputPath := "out"
  plotParams :=
    { FirstIteration := FirstIteration
      EndIteration := EndIteration
      ReadBlockSize := 2
      MetricsDescription := "Logloss,AUC"
      ResultDirectory := "res"
      TmpDir := "-" }
  calcOnParts := calcOnParts

/-- The environment of the concrete runs with an initialized label converter, which
doubles every target. -/
def convertingEnvironment (model : TFullModel) : TEnvironment Int :=
  { exampleEnvironment model with
    BuildLabelsHelper := fun _ => ⟨true, fun targets => targets.map (· * 2)⟩ }

/-- No call on a collaborator throws. -/
def TEnvironment.Quiet (env : TEnvironment τ) : Prop :=
  ∀ trace, env.Throws trace = none

/-- The computation returns from every point it is started at. -/
def TRun.Terminates {ε α : Type} (m : TRun ε α) : Prop :=
  ∀ trace, ∃ trace1 value, m trace = .ok trace1 value

/-- The calls of a run up to the creation of the plot calcer. -/
def setupCalls (env : TEnvironment τ) (args : TArguments) (model : TFullModel)
    (metrics : List TMetric) : List (TEvent τ) :=
  [.ReadModel,
    .CreateMetricsFromDescription (metricsDescriptionOf args.plotParams.MetricsDescription)
      model.ObliviousTrees.ApproxDimension,
    .CreateMetricCalcer (resolvePlotParams env model args.plotParams).FirstIteration
      (resolvePlotParams env model args.plotParams).EndIteration
      (resolvePlotParams env model args.plotParams).Step 50
      (resolvePlotParams env model args.plotParams).TmpDir metrics]

/-- The calls of one completed round of the calc-on-parts loop: one streaming of the
dataset with `ProceedDataSetForNonAdditiveMetrics` on every preprocessed block, then
`FinishProceedDataSetForNonAdditiveMetrics`. -/
def calcOnPartsRound (env : TEnvironment τ) (plotParams : TModeEvalMetricsParams)
    (labelConverter : TLabelConverter τ) : List (TEvent τ) :=
  streamPlan env plotParams.ReadBlockSize (fun poolPart =>
    [.ProceedDataSetForNonAdditiveMetrics (preprocessPool labelConverter poolPart)])
    ++ [.FinishProceedDataSetForNonAdditiveMetrics]

/-- The calls of `k` completed rounds of the calc-on-parts loop. -/
def calcOnPartsRounds (env : TEnvironment τ) (plotParams : TModeEvalMetricsParams)
    (labelConverter : TLabelConverter τ) (k : Nat) : List (TEvent τ) :=
  (List.replicate k (calcOnPartsRound env plotParams labelConverter)).flatten

/-- The calc-on-parts loop reached after the calls `start` ends after exactly `k` rounds:
the plot calcer answers that not all iterations are processed before each of them and that
all are processed after the last. -/
def EndsAfter (env : TEnvironment τ) (plotParams : TModeEvalMetricsParams)
    (labelConverter : TLabelConverter τ) (start : List (TEvent τ)) (k : Nat) : Prop :=
  (∀ j, j < k → env.AreAllIterationsProcessed
      (start ++ calcOnPartsRounds env plotParams labelConverter j) = false)
    ∧ env.AreAllIterationsProcessed
      (start ++ calcOnPartsRounds env plotParams labelConverter k) = true

end Run

/-! ## Properties of the approx accumulator -/

section AccumulatorProperties

variable {α : Type}

/-- A property kept by every round of an `xrange` loop holds after the loop. -/
theorem forXRange_invariant {σ : Type} (P : σ → Prop) (n : Nat) (body : Nat → σ → σ)
    (hbody : ∀ idx s, P s → P (body idx s)) (s : σ) (hs : P s) : P (forXRange n body s) := by
  unfold forXRange
  generalize List.range n = indices
  induction indices generalizing s with
  | nil => simpa using hs
  | cons idx rest ih => exact ih (body idx s) (hbody idx s hs)

/-- The vector `UpdateApprox` keeps the number of dimensions. -/
theorem UpdateApproxVector_length (updateFunc : List α → List α → Nat → List α)
    (delta approx result : List (List α)) (localExecutor : TLocalExecutor)
    (h : UpdateApproxVector updateFunc delta approx localExecutor = some result) :
    result.length = approx.length := by
  unfold UpdateApproxVector at h
  split at h
  · injection h with h
    subst h
    refine forXRange_invariant (fun a : List (List α) => a.length = approx.length) _ _ ?_ _ rfl
    intro idx a ha
    split <;> simp [ha]
  · cases h

/-- The vector `UpdateApprox` returns when the assertion on the sizes holds. -/
theorem UpdateApproxVector_isSome (updateFunc : List α → List α → Nat → List α)
    (delta approx : List (List α)) (localExecutor : TLocalExecutor)
    (h : delta.length = approx.length) :
    (UpdateApproxVector updateFunc delta approx localExecutor).isSome = true := by
  simp [UpdateApproxVector, h]

/-- Advancing by a concatenation of delta sequences is advancing by the first and then by
the second. -/
theorem advanceApprox_append (updateFunc : List α → List α → Nat → List α)
    (localExecutor : TLocalExecutor) (first second : List (List (List α)))
    (approx : List (List α)) :
    advanceApprox updateFunc localExecutor (first ++ second) approx =
      (advanceApprox updateFunc localExecutor first approx).bind
        (advanceApprox updateFunc localExecutor second) := by
  induction first generalizing approx with
  | nil => simp [advanceApprox]
  | cons delta rest ih =>
    simp only [List.cons_append, advanceApprox]
    cases UpdateApproxVector updateFunc delta approx localExecutor with
    | none => simp
    | some next => simpa using ih next

/-- Advancing returns when every delta has as many dimensions as the approx. -/
theorem advanceApprox_isSome (updateFunc : List α → List α → Nat → List α)
    (localExecutor : TLocalExecutor) (deltas : List (List (List α))) (approx : List (List α))
    (h : ∀ delta ∈ deltas, delta.length = approx.length) :
    (advanceApprox updateFunc localExecutor deltas approx).isSome = true := by
  induction deltas generalizing approx with
  | nil => simp [advanceApprox]
  | cons delta rest ih =>
    have hd : delta.length = approx.length := h delta (by simp)
    simp only [advanceApprox]
    cases hu : UpdateApproxVector updateFunc delta approx localExecutor with
    | none =>
      have := UpdateApproxVector_isSome updateFunc delta approx localExecutor hd
      simp [hu] at this
    | some next =>
      have hlen := UpdateApproxVector_length updateFunc delta approx next localExecutor hu
      simp only [Option.some_bind]
      apply ih
      intro d hdmem
      rw [hlen]
      exact h d (by simp [hdmem])

/-- C1, the identity-element law: under both combination rules the neutral approx combined
with a delta scaled by the learning rate is that scaled delta, which under the additive
rule is `delta * learningRate`.  The arithmetic is any one in which `0` is neutral for `+`
and `1` is neutral for `*`. -/
theorem identity_element_law [AddZeroClass α] [MulOneClass α] (fast_exp FastLogf : α → α)
    (StoreExpApprox : Bool) (delta learningRate : α) :
    UpdateApprox StoreExpApprox (GetNeutralApprox StoreExpApprox)
        (ApplyLearningRate fast_exp FastLogf StoreExpApprox delta learningRate)
      = ApplyLearningRate fast_exp FastLogf StoreExpApprox delta learningRate
    ∧ UpdateApprox false (GetNeutralApprox false)
        (ApplyLearningRate fast_exp FastLogf false delta learningRate)
      = delta * learningRate := by
  cases StoreExpApprox <;> simp [UpdateApprox, GetNeutralApprox, ApplyLearningRate]

/-- C2, the update rule: the additive update by a scaled delta is
`approx + delta * learningRate`, the multiplicative one is
`approx * fast_exp (FastLogf delta * learningRate)`. -/
theorem update_rule [Add α] [Mul α] (fast_exp FastLogf : α → α)
    (approx delta learningRate : α) :
    UpdateApprox false approx (ApplyLearningRate fast_exp FastLogf false delta learningRate)
      = approx + delta * learningRate
    ∧ UpdateApprox true approx (ApplyLearningRate fast_exp FastLogf true delta learningRate)
      = approx * fast_exp (FastLogf delta * learningRate) := by
  simp [UpdateApprox, ApplyLearningRate]

/-- C3, the neutral approx: `0.0` under the additive rule, `1.0` under the multiplicative
rule, and the runtime overload agrees with the template for both values of the flag. -/
theorem neutral_approx_values [Zero α] [One α] :
    (GetNeutralApprox false : α) = 0 ∧ (GetNeutralApprox true : α) = 1
    ∧ ∀ storeExpApproxes : Bool,
        (GetNeutralApproxOfFlag storeExpApproxes : α) = GetNeutralApprox storeExpApproxes := by
  refine ⟨by simp [GetNeutralApprox], by simp [GetNeutralApprox], ?_⟩
  intro storeExpApproxes
  cases storeExpApproxes <;> simp [GetNeutralApproxOfFlag]

/-- C4, incremental-update associativity: for every update function and every executor,
advancing an approx by the deltas of the trees `[0, k)` and then by those of the trees
`[k, m)` gives what advancing by the trees `[0, m)` in one go gives, in particular for the
update functions of both combination rules; and when every delta has as many dimensions as
the approx, the run returns an approx. -/
theorem incremental_update_associativity [Add α] [Mul α]
    (updateFunc : List α → List α → Nat → List α) (localExecutor : TLocalExecutor)
    (deltas : List (List (List α))) (approx : List (List α)) (k : Nat) :
    (advanceApprox updateFunc localExecutor (deltas.take k) approx).bind
        (advanceApprox updateFunc localExecutor (deltas.drop k))
      = advanceApprox updateFunc localExecutor deltas approx
    ∧ (∀ StoreExpApprox : Bool,
        (advanceApprox (updateFuncPerDocument StoreExpApprox) localExecutor (deltas.take k)
            approx).bind
            (advanceApprox (updateFuncPerDocument StoreExpApprox) localExecutor
              (deltas.drop k))
          = advanceApprox (updateFuncPerDocument StoreExpApprox) localExecutor deltas approx)
    ∧ ((∀ delta ∈ deltas, delta.length = approx.length) →
        (advanceApprox updateFunc localExecutor deltas approx).isSome = true) := by
  refine ⟨?_, ?_, advanceApprox_isSome _ localExecutor deltas approx⟩
  · rw [← advanceApprox_append, List.take_append_drop]
  · intro StoreExpApprox
    rw [← advanceApprox_append, List.take_append_drop]

/-- C4 on two dimensions, three trees and a split after the first tree, under the
additive rule. -/
theorem incremental_update_associativity_witness :
    (advanceApprox (updateFuncPerDocument false) sequentialExecutor
        ([[[1, 2], [3]], [[10, 20], [30]], [[100, 200], [300]]].drop 1) [[(1 : Int), 2], [3]]
      = some [[111, 222], [333]])
    ∧ advanceApprox (updateFuncPerDocument false) sequentialExecutor
        [[[1, 2], [3]], [[10, 20], [30]], [[100, 200], [300]]] [[(0 : Int), 0], [0]]
      = some [[111, 222], [333]] := by
  have h := (incremental_update_associativity (updateFuncPerDocument false)
    sequentialExecutor [[[1, 2], [3]], [[10, 20], [30]], [[100, 200], [300]]]
    [[(0 : Int), 0], [0]] 1).1
  have h1 : advanceApprox (updateFuncPerDocument false) sequentialExecutor
      ([[[1, 2], [3]], [[10, 20], [30]], [[100, 200], [300]]].take 1) [[(0 : Int), 0], [0]]
      = some [[1, 2], [3]] := by decide
  rw [h1] at h
  have h2 : advanceApprox (updateFuncPerDocument false) sequentialExecutor
      ([[[1, 2], [3]], [[10, 20], [30]], [[100, 200], [300]]].drop 1) [[(1 : Int), 2], [3]]
      = some [[111, 222], [333]] := by decide
  exact ⟨h2, by rw [← h]; exact h2⟩

/-- After `k` rounds the `AddElementwise` loop has added `value` on the first `k` entries. -/
theorem AddElementwise_loop_get [Add α] (value accumulator : List α) (k : Nat)
    (hk : k ≤ value.length) (hlen : value.length = accumulator.length) :
    (forXRange k (fun idx accumulator =>
        match accumulator[idx]?, value[idx]? with
        | some a, some v => accumulator.set idx (a + v)
        | _, _ => accumulator) accumulator).length = accumulator.length
    ∧ ∀ i, (forXRange k (fun idx accumulator =>
        match accumulator[idx]?, value[idx]? with
        | some a, some v => accumulator.set idx (a + v)
        | _, _ => accumulator) accumulator)[i]?
      = if i < k then (List.zipWith (· + ·) accumulator value)[i]? else accumulator[i]? := by
  induction k with
  | zero => simp [forXRange]
  | succ k ih =>
    obtain ⟨ihlen, ihget⟩ := ih (Nat.le_of_succ_le hk)
    have hstep : ∀ (body : Nat → List α → List α) (s : List α),
        forXRange (k + 1) body s = body k (forXRange k body s) := by
      intro body s
      simp [forXRange, List.range_succ]
    rw [hstep]
    have hkv : k < value.length := hk
    have hka : k < accumulator.length := hlen ▸ hkv
    have hcur := ihget k
    simp only [Nat.lt_irrefl, if_false] at hcur
    rw [hcur, List.getElem?_eq_getElem hka, List.getElem?_eq_getElem hkv]
    simp only
    refine ⟨by simp [ihlen], ?_⟩
    intro i
    rw [List.getElem?_set]
    by_cases hik : k = i
    · subst hik
      simp [ihlen, hka, hkv, List.getElem?_zipWith]
    · rw [if_neg hik, ihget i]
      by_cases hlt : i < k
      · simp [hlt, Nat.lt_succ_of_lt hlt]
      · have : ¬ i < k + 1 := by omega
        simp [hlt, this]

/-- The specialization `AddElementwise<double>` returns the entrywise sums when the sizes
agree. -/
theorem AddElementwise_eq_zipWith [Add α] (value accumulator : List α)
    (hlen : value.length = accumulator.length) :
    AddElementwise value accumulator = some (List.zipWith (· + ·) accumulator value) := by
  unfold AddElementwise
  rw [if_pos hlen]
  congr 1
  obtain ⟨hl, hget⟩ := AddElementwise_loop_get value accumulator value.length
    (Nat.le_refl _) hlen
  apply List.ext_getElem?
  intro i
  rw [hget i]
  by_cases hi : i < value.length
  · simp [hi]
  · have h1 : accumulator.length ≤ i := by omega
    have h2 : value.length ≤ i := by omega
    simp [hi, List.getElem?_zipWith, List.getElem?_eq_none h1, List.getElem?_eq_none h2]

/-- After `k` rounds a loop that replaces entry `i` of the state by `H ys[i] xs[i]` has done
so on the first `k` entries. -/
theorem forXRange_pointwise {β γ : Type} (H : γ → β → β) (ys : List γ) (xs : List β)
    (body : Nat → List β → List β)
    (hbody : ∀ i s y x, ys[i]? = some y → s[i]? = some x → body i s = s.set i (H y x))
    (k : Nat) (hk : k ≤ ys.length) (hlen : ys.length = xs.length) :
    (forXRange k body xs).length = xs.length
    ∧ ∀ i, (forXRange k body xs)[i]?
      = if i < k then (List.zipWith (fun x y => H y x) xs ys)[i]? else xs[i]? := by
  induction k with
  | zero => simp [forXRange]
  | succ k ih =>
    obtain ⟨ihlen, ihget⟩ := ih (Nat.le_of_succ_le hk)
    have hstep : forXRange (k + 1) body xs = body k (forXRange k body xs) := by
      simp [forXRange, List.range_succ]
    have hky : k < ys.length := hk
    have hkx : k < xs.length := hlen ▸ hky
    have hcur := ihget k
    simp only [Nat.lt_irrefl, if_false] at hcur
    rw [List.getElem?_eq_getElem hkx] at hcur
    rw [hstep, hbody k _ _ _ (List.getElem?_eq_getElem hky) hcur]
    refine ⟨by simp [ihlen], ?_⟩
    intro i
    rw [List.getElem?_set]
    by_cases hik : k = i
    · subst hik
      simp [ihlen, hkx, hky, List.getElem?_zipWith]
    · rw [if_neg hik, ihget i]
      by_cases hlt : i < k
      · simp [hlt, Nat.lt_succ_of_lt hlt]
      · have : ¬ i < k + 1 := by omega
        simp [hlt, this]

/-- The vector `UpdateApprox` runs, in every dimension, `updateFunc` on the indices of the
executor's schedule for `[0, approx[d].size())`, in the order of the schedule. -/
theorem UpdateApproxVector_eq (updateFunc : List α → List α → Nat → List α)
    (delta approx : List (List α)) (localExecutor : TLocalExecutor)
    (hdims : delta.length = approx.length) :
    UpdateApproxVector updateFunc delta approx localExecutor =
      some (List.zipWith (fun approxDim deltaDim =>
        (localExecutor.schedule 0 approxDim.length).foldl
          (fun approxDim idx => updateFunc deltaDim approxDim idx) approxDim) approx delta) := by
  unfold UpdateApproxVector
  rw [if_pos hdims]
  congr 1
  obtain ⟨hl, hget⟩ := forXRange_pointwise
    (fun deltaDim approxDim => (localExecutor.schedule 0 approxDim.length).foldl
      (fun approxDim idx => updateFunc deltaDim approxDim idx) approxDim)
    delta approx
    (fun dimensionIdx approx =>
      match delta[dimensionIdx]?, approx[dimensionIdx]? with
      | some deltaDim, some approxDim =>
        approx.set dimensionIdx
          (ParallelFor localExecutor 0 approxDim.length
            (fun idx approxDim => updateFunc deltaDim approxDim idx) approxDim)
      | _, _ => approx)
    (fun i s y x hy hx => by simp only [hy, hx, ParallelFor])
    delta.length (Nat.le_refl _) hdims
  apply List.ext_getElem?
  intro i
  refine (hget i).trans ?_
  by_cases hi : i < delta.length
  · simp [hi]
  · have h1 : approx.length ≤ i := by omega
    have h2 : delta.length ≤ i := by omega
    simp [hi, List.getElem?_zipWith, List.getElem?_eq_none h1, List.getElem?_eq_none h2]

/-- Running the per-document update on a duplicate-free list of indices changes exactly
the entries at these indices, each by one update. -/
theorem foldl_updateFuncPerDocument [Add α] [Mul α] (StoreExpApprox : Bool)
    (deltaDim : List α) (indices : List Nat) (hnodup : indices.Nodup) (approxDim : List α) :
    (indices.foldl (fun approxDim idx =>
        updateFuncPerDocument StoreExpApprox deltaDim approxDim idx) approxDim).length
      = approxDim.length
    ∧ ∀ j, (indices.foldl (fun approxDim idx =>
        updateFuncPerDocument StoreExpApprox deltaDim approxDim idx) approxDim)[j]?
      = if j ∈ indices then
          match approxDim[j]?, deltaDim[j]? with
          | some a, some d => some (UpdateApprox StoreExpApprox a d)
          | _, _ => approxDim[j]?
        else approxDim[j]? := by
  induction indices generalizing approxDim with
  | nil => simp
  | cons i rest ih =>
    obtain ⟨hi, hrest⟩ := List.nodup_cons.mp hnodup
    have hlen1 : (updateFuncPerDocument StoreExpApprox deltaDim approxDim i).length
        = approxDim.length := by
      unfold updateFuncPerDocument
      split <;> simp
    have hget1 : ∀ j, (updateFuncPerDocument StoreExpApprox deltaDim approxDim i)[j]?
        = if j = i then
            match approxDim[j]?, deltaDim[j]? with
            | some a, some d => some (UpdateApprox StoreExpApprox a d)
            | _, _ => approxDim[j]?
          else approxDim[j]? := by
      intro j
      unfold updateFuncPerDocument
      cases ha : approxDim[i]? with
      | none =>
        by_cases hji : j = i
        · subst hji
          simp [ha]
        · simp [hji]
      | some a =>
        cases hd : deltaDim[i]? with
        | none =>
          by_cases hji : j = i
          · subst hji
            simp [ha, hd]
          · simp [hji]
        | some d =>
          have hlt : i < approxDim.length := by
            by_contra hno
            rw [List.getElem?_eq_none (Nat.le_of_not_lt hno)] at ha
            cases ha
          by_cases hji : j = i
          · subst hji
            simp [ha, hd, List.getElem?_set, hlt]
          · have hij : ¬ i = j := fun h => hji h.symm
            simp [hji, hij, List.getElem?_set]
    obtain ⟨ihlen, ihget⟩ := ih hrest (updateFuncPerDocument StoreExpApprox deltaDim approxDim i)
    rw [List.foldl_cons]
    refine ⟨by rw [ihlen, hlen1], ?_⟩
    intro j
    rw [ihget j]
    by_cases hjr : j ∈ rest
    · have hji : j ≠ i := fun h => hi (h ▸ hjr)
      rw [if_pos hjr, if_pos (List.mem_cons_of_mem _ hjr), hget1 j, if_neg hji]
    · rw [if_neg hjr, hget1 j]
      by_cases hji : j = i
      · rw [if_pos hji, if_pos (by rw [hji]; exact List.mem_cons_self _ _)]
      · rw [if_neg hji, if_neg (by
          intro h
          rcases List.mem_cons.mp h with h | h
          · exact hji h
          · exact hjr h)]

theorem sequentialExecutor_valid : sequentialExecutor.Valid :=
  fun _ _ => List.Perm.refl _

theorem reverseExecutor_valid : reverseExecutor.Valid :=
  fun _ _ => List.reverse_perm _

/-- A valid executor makes the per-document update of one dimension the entrywise
combination, whatever the order. -/
theorem foldl_updateFuncPerDocument_valid [Add α] [Mul α] (StoreExpApprox : Bool)
    (localExecutor : TLocalExecutor) (hvalid : localExecutor.Valid)
    (deltaDim approxDim : List α) (hsize : approxDim.length ≤ deltaDim.length) :
    (localExecutor.schedule 0 approxDim.length).foldl
        (fun approxDim idx => updateFuncPerDocument StoreExpApprox deltaDim approxDim idx)
        approxDim
      = List.zipWith (UpdateApprox StoreExpApprox) approxDim deltaDim := by
  have hperm := hvalid 0 approxDim.length
  rw [Nat.sub_zero, ← List.range_eq_range'] at hperm
  have hnodup : (localExecutor.schedule 0 approxDim.length).Nodup :=
    hperm.nodup_iff.mpr (List.nodup_range _)
  obtain ⟨_, hget⟩ := foldl_updateFuncPerDocument StoreExpApprox deltaDim _ hnodup approxDim
  apply List.ext_getElem?
  intro j
  rw [hget j, List.getElem?_zipWith]
  by_cases hj : j < approxDim.length
  · have hmem : j ∈ localExecutor.schedule 0 approxDim.length :=
      hperm.mem_iff.mpr (List.mem_range.mpr hj)
    have hjd : j < deltaDim.length := Nat.lt_of_lt_of_le hj hsize
    rw [if_pos hmem, List.getElem?_eq_getElem hj, List.getElem?_eq_getElem hjd]
  · have hmem : ¬ j ∈ localExecutor.schedule 0 approxDim.length := by
      intro h
      exact hj (List.mem_range.mp (hperm.mem_iff.mp h))
    rw [if_neg hmem, List.getElem?_eq_none (Nat.le_of_not_lt hj)]

theorem zipWith_congr_forall₂ {β γ δ : Type} (f g : β → γ → δ) (R : β → γ → Prop)
    (hfg : ∀ x y, R x y → f x y = g x y) (xs : List β) (ys : List γ)
    (h : List.Forall₂ R xs ys) : List.zipWith f xs ys = List.zipWith g xs ys := by
  induction h with
  | nil => rfl
  | cons hxy _ ih => simp [hfg _ _ hxy, ih]

theorem zipWith_zipWith_shape {β γ δ : Type} (f : β → γ → δ) (xs : List (List β))
    (ys : List (List γ)) (h : List.Forall₂ (fun x y => x.length ≤ y.length) xs ys) :
    (List.zipWith (List.zipWith f) xs ys).length = xs.length
    ∧ (List.zipWith (List.zipWith f) xs ys).map List.length = xs.map List.length := by
  induction h with
  | nil => simp
  | cons hxy _ ih =>
    refine ⟨by simp [ih.1], ?_⟩
    simp only [List.zipWith_cons_cons, List.map_cons, ih.2, List.length_zipWith]
    rw [Nat.min_eq_left hxy]

/-- C17, the vector `UpdateApprox`: when the sizes agree it runs `updateFunc` in every
dimension `d < delta.size()` once for each index of the executor's schedule of
`[0, approx[d].size())`, which for a valid executor has every index below `approx[d].size()`
exactly once and no other; with the per-document update function and a delta that has an
entry for every entry of the approx, the result is the entrywise combination, the same for
every valid executor, with the number of dimensions and every length of the approx. -/
theorem UpdateApprox_vector_elementwise [Add α] [Mul α]
    (updateFunc : List α → List α → Nat → List α) (StoreExpApprox : Bool)
    (delta approx : List (List α)) (localExecutor : TLocalExecutor)
    (hvalid : localExecutor.Valid) (hdims : delta.length = approx.length) :
    UpdateApproxVector updateFunc delta approx localExecutor =
      some (List.zipWith (fun approxDim deltaDim =>
        (localExecutor.schedule 0 approxDim.length).foldl
          (fun approxDim idx => updateFunc deltaDim approxDim idx) approxDim) approx delta)
    ∧ (∀ approxDim ∈ approx,
        (localExecutor.schedule 0 approxDim.length).Perm (List.range approxDim.length))
    ∧ (List.Forall₂ (fun approxDim deltaDim => approxDim.length ≤ deltaDim.length)
          approx delta →
        UpdateApproxVector (updateFuncPerDocument StoreExpApprox) delta approx localExecutor
          = some (List.zipWith (List.zipWith (UpdateApprox StoreExpApprox)) approx delta)
        ∧ (∀ otherExecutor : TLocalExecutor, otherExecutor.Valid →
            UpdateApproxVector (updateFuncPerDocument StoreExpApprox) delta approx
                otherExecutor
              = UpdateApproxVector (updateFuncPerDocument StoreExpApprox) delta approx
                localExecutor)
        ∧ (List.zipWith (List.zipWith (UpdateApprox StoreExpApprox)) approx delta).length
          = approx.length
        ∧ (List.zipWith (List.zipWith (UpdateApprox StoreExpApprox)) approx delta).map
            List.length = approx.map List.length) := by
  have hres : ∀ executor : TLocalExecutor, executor.Valid →
      List.Forall₂ (fun approxDim deltaDim => approxDim.length ≤ deltaDim.length)
        approx delta →
      UpdateApproxVector (updateFuncPerDocument StoreExpApprox) delta approx executor
        = some (List.zipWith (List.zipWith (UpdateApprox StoreExpApprox)) approx delta) := by
    intro executor hexec hsizes
    rw [UpdateApproxVector_eq _ delta approx executor hdims]
    congr 1
    exact zipWith_congr_forall₂ _ _ _
      (fun approxDim deltaDim hle =>
        foldl_updateFuncPerDocument_valid StoreExpApprox executor hexec deltaDim approxDim hle)
      approx delta hsizes
  refine ⟨UpdateApproxVector_eq updateFunc delta approx localExecutor hdims, ?_, ?_⟩
  · intro approxDim _
    have hperm := hvalid 0 approxDim.length
    rw [Nat.sub_zero, ← List.range_eq_range'] at hperm
    exact hperm
  · intro hsizes
    refine ⟨hres localExecutor hvalid hsizes, ?_, zipWith_zipWith_shape _ approx delta hsizes⟩
    intro otherExecutor hother
    rw [hres otherExecutor hother hsizes, hres localExecutor hvalid hsizes]

/-- C17 on an approx of two dimensions under the multiplicative rule: in increasing and in
decreasing order of the indices the result is the entrywise product. -/
theorem UpdateApprox_vector_elementwise_witness :
    UpdateApproxVector (updateFuncPerDocument true) [[2, 3, 4], [5]] [[(1 : Int), 10, 100], [7]]
        sequentialExecutor
      = some [[2, 30, 400], [35]]
    ∧ UpdateApproxVector (updateFuncPerDocument true) [[2, 3, 4], [5]]
        [[(1 : Int), 10, 100], [7]] reverseExecutor
      = some [[2, 30, 400], [35]] := by
  have h := (UpdateApprox_vector_elementwise (updateFuncPerDocument true) true
    [[2, 3, 4], [5]] [[(1 : Int), 10, 100], [7]] sequentialExecutor sequentialExecutor_valid
    rfl).2.2 (by
      refine List.Forall₂.cons (by decide) (List.Forall₂.cons (by decide) List.Forall₂.nil))
  have hseq : UpdateApproxVector (updateFuncPerDocument true) [[2, 3, 4], [5]]
      [[(1 : Int), 10, 100], [7]] sequentialExecutor = some [[2, 30, 400], [35]] := by
    rw [h.1]
    decide
  exact ⟨hseq, by rw [h.2.1 reverseExecutor reverseExecutor_valid, hseq]⟩

/-- After `k` rounds the loop of the generic `AddElementwise` has replaced the first `k`
entries, when every element call returns. -/
theorem AddElementwiseNested_loop {β : Type} (addElement : β → β → Option β) (F : β → β → β)
    (value accumulator : List β) (hlen : value.length = accumulator.length)
    (helem : ∀ (i : Nat) (v a : β), value[i]? = some v → accumulator[i]? = some a →
      addElement v a = some (F a v)) (k : Nat) (hk : k ≤ value.length) :
    ∃ result, (List.range k).foldlM (fun accumulator idx =>
        match value[idx]?, accumulator[idx]? with
        | some v, some a => (addElement v a).map (accumulator.set idx)
        | _, _ => some accumulator) accumulator = some result
      ∧ result.length = accumulator.length
      ∧ ∀ i, result[i]?
        = if i < k then (List.zipWith F accumulator value)[i]? else accumulator[i]? := by
  induction k with
  | zero => exact ⟨accumulator, rfl, rfl, by simp⟩
  | succ k ih =>
    obtain ⟨result, hfold, hrlen, hget⟩ := ih (Nat.le_of_succ_le hk)
    have hkv : k < value.length := hk
    have hka : k < accumulator.length := hlen ▸ hkv
    have hcur := hget k
    simp only [Nat.lt_irrefl, if_false] at hcur
    rw [List.getElem?_eq_getElem hka] at hcur
    have hval : value[k]? = some value[k] := List.getElem?_eq_getElem hkv
    have hadd := helem k _ _ hval (List.getElem?_eq_getElem hka)
    refine ⟨result.set k (F accumulator[k] value[k]), ?_, by simp [hrlen], ?_⟩
    · rw [List.range_succ, List.foldlM_append, hfold]
      simp [hval, hcur, hadd]
    · intro i
      rw [List.getElem?_set]
      by_cases hik : k = i
      · subst hik
        simp [hrlen, hka, hkv, List.getElem?_zipWith]
      · rw [if_neg hik, hget i]
        by_cases hlt : i < k
        · simp [hlt, Nat.lt_succ_of_lt hlt]
        · have : ¬ i < k + 1 := by omega
          simp [hlt, this]

/-- The generic `AddElementwise` returns the list of the element results when the sizes
agree and every element call returns. -/
theorem AddElementwiseNested_eq_zipWith {β : Type} (addElement : β → β → Option β)
    (F : β → β → β) (value accumulator : List β) (hlen : value.length = accumulator.length)
    (helem : ∀ (i : Nat) (v a : β), value[i]? = some v → accumulator[i]? = some a →
      addElement v a = some (F a v)) :
    AddElementwiseNested addElement value accumulator
      = some (List.zipWith F accumulator value) := by
  unfold AddElementwiseNested
  rw [if_pos hlen]
  obtain ⟨result, hfold, hrlen, hget⟩ := AddElementwiseNested_loop addElement F value
    accumulator hlen helem value.length (Nat.le_refl _)
  rw [hfold]
  congr 1
  apply List.ext_getElem?
  intro i
  rw [hget i]
  by_cases hi : i < value.length
  · simp [hi]
  · have h1 : accumulator.length ≤ i := by omega
    have h2 : value.length ≤ i := by omega
    simp [hi, List.getElem?_zipWith, List.getElem?_eq_none h1, List.getElem?_eq_none h2]

/-- The instance for vectors of vectors returns the entrywise sums when the shapes agree. -/
theorem AddElementwise2_eq_zipWith [Add α] (value accumulator : List (List α))
    (hshape : List.Forall₂ (fun v a => v.length = a.length) value accumulator) :
    AddElementwise2 value accumulator
      = some (List.zipWith (List.zipWith (· + ·)) accumulator value) := by
  unfold AddElementwise2
  refine AddElementwiseNested_eq_zipWith AddElementwise (List.zipWith (· + ·)) value
    accumulator hshape.length_eq ?_
  intro i v a hv ha
  apply AddElementwise_eq_zipWith
  have key : ∀ (vs as : List (List α)), List.Forall₂ (fun v a => v.length = a.length) vs as →
      ∀ (i : Nat) (v a : List α), vs[i]? = some v → as[i]? = some a →
        v.length = a.length := by
    intro vs as h
    induction h with
    | nil =>
      intro i v a hv
      simp at hv
    | cons hhead _ ih =>
      intro i v a hv ha
      cases i with
      | zero =>
        simp only [List.getElem?_cons_zero, Option.some.injEq] at hv ha
        subst hv ha
        exact hhead
      | succ i =>
        simp only [List.getElem?_cons_succ] at hv ha
        exact ih i v a hv ha
  exact key value accumulator hshape i v a hv ha

theorem forall₂_zipWith_shape [Add α] (value other accumulator : List (List α))
    (h1 : List.Forall₂ (fun v a => v.length = a.length) value accumulator)
    (h2 : List.Forall₂ (fun v a => v.length = a.length) other accumulator) :
    List.Forall₂ (fun v a => v.length = a.length) other
      (List.zipWith (List.zipWith (· + ·)) accumulator value) := by
  induction h1 generalizing other with
  | nil =>
    cases h2
    exact List.Forall₂.nil
  | cons hhead _ ih =>
    cases h2 with
    | cons hhead2 htail2 =>
      refine List.Forall₂.cons ?_ (ih _ htail2)
      simp [hhead, hhead2]

theorem zipWith_right_comm_iff {β γ : Type} (f : β → γ → β) (xs : List β) (ys zs : List γ)
    (hy : ys.length = xs.length) (hz : zs.length = xs.length) :
    List.zipWith f (List.zipWith f xs ys) zs = List.zipWith f (List.zipWith f xs zs) ys
      ↔ ∀ (i : Nat) (x : β) (y z : γ), xs[i]? = some x → ys[i]? = some y → zs[i]? = some z →
        f (f x y) z = f (f x z) y := by
  induction xs generalizing ys zs with
  | nil => simp
  | cons x xs ih =>
    cases ys with
    | nil => simp at hy
    | cons y ys =>
      cases zs with
      | nil => simp at hz
      | cons z zs =>
        simp only [List.length_cons, Nat.succ.injEq] at hy hz
        simp only [List.zipWith_cons_cons, List.cons.injEq, ih ys zs hy hz]
        constructor
        · rintro ⟨hhead, htail⟩ i a b c ha hb hc
          cases i with
          | zero =>
            simp only [List.getElem?_cons_zero, Option.some.injEq] at ha hb hc
            subst ha hb hc
            exact hhead
          | succ i =>
            simp only [List.getElem?_cons_succ] at ha hb hc
            exact htail i a b c ha hb hc
        · intro h
          refine ⟨h 0 x y z (by simp) (by simp) (by simp), fun i a b c ha hb hc => ?_⟩
          exact h (i + 1) a b c (by simpa using ha) (by simpa using hb) (by simpa using hc)

theorem zipWith_add_zero_of [Zero α] [Add α] (accumulator : List α)
    (hzero : ∀ a ∈ accumulator, a + 0 = a) :
    List.zipWith (· + ·) accumulator (List.replicate accumulator.length (0 : α))
      = accumulator := by
  induction accumulator with
  | nil => rfl
  | cons a rest ih =>
    simp only [List.length_cons, List.replicate_succ, List.zipWith_cons_cons]
    rw [hzero a (List.mem_cons_self _ _), ih (fun b hb => hzero b (List.mem_cons_of_mem _ hb))]

theorem zipWith_zipWith_add_zero_of [Zero α] [Add α] (accumulator : List (List α))
    (hzero : ∀ row ∈ accumulator, ∀ a ∈ row, a + 0 = a) :
    List.zipWith (List.zipWith (· + ·)) accumulator
        (accumulator.map fun a => List.replicate a.length (0 : α))
      = accumulator := by
  induction accumulator with
  | nil => rfl
  | cons a rest ih =>
    simp only [List.map_cons, List.zipWith_cons_cons]
    rw [zipWith_add_zero_of a (hzero a (List.mem_cons_self _ _)),
      ih (fun row hrow => hzero row (List.mem_cons_of_mem _ hrow))]

theorem forall₂_getElem? {β γ : Type} (R : β → γ → Prop) (xs : List β) (ys : List γ)
    (h : List.Forall₂ R xs ys) (i : Nat) (x : β) (y : γ) (hx : xs[i]? = some x)
    (hy : ys[i]? = some y) : R x y := by
  induction h generalizing i with
  | nil => simp at hx
  | cons hhead _ ih =>
    cases i with
    | zero =>
      simp only [List.getElem?_cons_zero, Option.some.injEq] at hx hy
      subst hx hy
      exact hhead
    | succ i =>
      simp only [List.getElem?_cons_succ] at hx hy
      exact ih i hx hy

/-- C20, `AddElementwise` on flat and on nested vectors of equal shape, for any addition,
rounded or not: the new accumulator has the shape of the old one and every entry is the old
entry plus the entry of `value`; accumulating two values in the two orders gives the same
accumulator exactly when `(a + v1) + v2 = (a + v2) + v1` at every entry; accumulating an
all-zero value leaves an accumulator as it is when `a + 0 = a` for its entries. -/
theorem AddElementwise_properties [Zero α] [Add α] :
    (∀ value accumulator : List α, value.length = accumulator.length →
      AddElementwise value accumulator = some (List.zipWith (· + ·) accumulator value)
      ∧ (List.zipWith (· + ·) accumulator value).length = accumulator.length
      ∧ ∀ (i : Nat) (a v : α), accumulator[i]? = some a → value[i]? = some v →
        (List.zipWith (· + ·) accumulator value)[i]? = some (a + v))
    ∧ (∀ value1 value2 accumulator : List α, value1.length = accumulator.length →
      value2.length = accumulator.length →
      ((AddElementwise value1 accumulator).bind (AddElementwise value2)
          = (AddElementwise value2 accumulator).bind (AddElementwise value1)
        ↔ ∀ (i : Nat) (a v1 v2 : α), accumulator[i]? = some a → value1[i]? = some v1 →
          value2[i]? = some v2 → a + v1 + v2 = a + v2 + v1))
    ∧ (∀ accumulator : List α, (∀ a ∈ accumulator, a + 0 = a) →
      AddElementwise (List.replicate accumulator.length (0 : α)) accumulator
        = some accumulator)
    ∧ (∀ value accumulator : List (List α),
      List.Forall₂ (fun v a => v.length = a.length) value accumulator →
      AddElementwise2 value accumulator
        = some (List.zipWith (List.zipWith (· + ·)) accumulator value)
      ∧ (List.zipWith (List.zipWith (· + ·)) accumulator value).length = accumulator.length
      ∧ (List.zipWith (List.zipWith (· + ·)) accumulator value).map List.length
        = accumulator.map List.length)
    ∧ (∀ value1 value2 accumulator : List (List α),
      List.Forall₂ (fun v a => v.length = a.length) value1 accumulator →
      List.Forall₂ (fun v a => v.length = a.length) value2 accumulator →
      ((AddElementwise2 value1 accumulator).bind (AddElementwise2 value2)
          = (AddElementwise2 value2 accumulator).bind (AddElementwise2 value1)
        ↔ ∀ (i j : Nat) (row row1 row2 : List α) (a v1 v2 : α),
          accumulator[i]? = some row → value1[i]? = some row1 → value2[i]? = some row2 →
          row[j]? = some a → row1[j]? = some v1 → row2[j]? = some v2 →
          a + v1 + v2 = a + v2 + v1))
    ∧ (∀ accumulator : List (List α), (∀ row ∈ accumulator, ∀ a ∈ row, a + 0 = a) →
      AddElementwise2 (accumulator.map fun a => List.replicate a.length (0 : α)) accumulator
        = some accumulator) := by
  refine ⟨?_, ?_, ?_, ?_, ?_, ?_⟩
  · intro value accumulator hlen
    refine ⟨AddElementwise_eq_zipWith value accumulator hlen, by simp [hlen], ?_⟩
    intro i a v ha hv
    simp [List.getElem?_zipWith, ha, hv]
  · intro value1 value2 accumulator h1 h2
    rw [AddElementwise_eq_zipWith _ _ h1, AddElementwise_eq_zipWith _ _ h2]
    simp only [Option.some_bind]
    rw [AddElementwise_eq_zipWith _ _ (by simp [h1, h2]),
      AddElementwise_eq_zipWith _ _ (by simp [h1, h2]), Option.some.injEq]
    exact zipWith_right_comm_iff _ accumulator value1 value2 h1 h2
  · intro accumulator hzero
    rw [AddElementwise_eq_zipWith _ _ (by simp), zipWith_add_zero_of _ hzero]
  · intro value accumulator hshape
    refine ⟨AddElementwise2_eq_zipWith value accumulator hshape, ?_⟩
    have hflip : List.Forall₂ (fun a v => a.length ≤ v.length) accumulator value := by
      have := hshape.flip
      exact this.imp (fun _ _ h => Nat.le_of_eq h.symm)
    exact zipWith_zipWith_shape _ accumulator value hflip
  · intro value1 value2 accumulator h1 h2
    rw [AddElementwise2_eq_zipWith _ _ h1, AddElementwise2_eq_zipWith _ _ h2]
    simp only [Option.some_bind]
    rw [AddElementwise2_eq_zipWith _ _ (forall₂_zipWith_shape value1 value2 accumulator h1 h2),
      AddElementwise2_eq_zipWith _ _ (forall₂_zipWith_shape value2 value1 accumulator h2 h1),
      Option.some.injEq,
      zipWith_right_comm_iff _ accumulator value1 value2 h1.length_eq h2.length_eq]
    constructor
    · intro h i j row row1 row2 a v1 v2 hrow hrow1 hrow2 ha hv1 hv2
      have hlen1 := forall₂_getElem? _ _ _ h1 i row1 row hrow1 hrow
      have hlen2 := forall₂_getElem? _ _ _ h2 i row2 row hrow2 hrow
      exact (zipWith_right_comm_iff _ row row1 row2 hlen1 hlen2).mp
        (h i row row1 row2 hrow hrow1 hrow2) j a v1 v2 ha hv1 hv2
    · intro h i row row1 row2 hrow hrow1 hrow2
      have hlen1 := forall₂_getElem? _ _ _ h1 i row1 row hrow1 hrow
      have hlen2 := forall₂_getElem? _ _ _ h2 i row2 row hrow2 hrow
      exact (zipWith_right_comm_iff _ row row1 row2 hlen1 hlen2).mpr
        (fun j a v1 v2 ha hv1 hv2 => h i j row row1 row2 a v1 v2 hrow hrow1 hrow2 ha hv1 hv2)
  · intro accumulator hzero
    rw [AddElementwise2_eq_zipWith, zipWith_zipWith_add_zero_of _ hzero]
    induction accumulator with
    | nil => exact List.Forall₂.nil
    | cons a rest ih =>
      exact List.Forall₂.cons (by simp)
        (ih (fun row hrow => hzero row (List.mem_cons_of_mem _ hrow)))

/-- C20 on doubles: a nested accumulation, and two flat values whose sums are exact
accumulated in both orders. -/
theorem AddElementwise_properties_witness :
    AddElementwise2 [[TFloating.ofInt 1, TFloating.ofInt 2], [TFloating.ofInt 3]]
        [[(TFloating.ofInt 10 : TDouble), TFloating.ofInt 20], [TFloating.ofInt 30]]
      = some [[TFloating.ofInt 11, TFloating.ofInt 22], [TFloating.ofInt 33]]
    ∧ (AddElementwise [TFloating.ofInt 1, TFloating.ofInt 2]
          [(TFloating.ofInt 10 : TDouble), TFloating.ofInt 20]).bind
        (AddElementwise [TFloating.ofInt 5, TFloating.ofInt 7])
      = (AddElementwise [TFloating.ofInt 5, TFloating.ofInt 7]
          [(TFloating.ofInt 10 : TDouble), TFloating.ofInt 20]).bind
        (AddElementwise [TFloating.ofInt 1, TFloating.ofInt 2]) :=
  ⟨((AddElementwise_properties.2.2.2.1
      [[TFloating.ofInt 1, TFloating.ofInt 2], [TFloating.ofInt 3]]
      [[(TFloating.ofInt 10 : TDouble), TFloating.ofInt 20], [TFloating.ofInt 30]]
      (List.Forall₂.cons rfl (List.Forall₂.cons rfl List.Forall₂.nil))).1).trans (by decide),
    (AddElementwise_properties.2.1 [TFloating.ofInt 1, TFloating.ofInt 2]
      [TFloating.ofInt 5, TFloating.ofInt 7]
      [(TFloating.ofInt 10 : TDouble), TFloating.ofInt 20] rfl rfl).mpr (by
        intro i a v1 v2 ha hv1 hv2
        match i with
        | 0 =>
          simp only [List.getElem?_cons_zero, Option.some.injEq] at ha hv1 hv2
          subst ha hv1 hv2
          decide
        | 1 =>
          simp only [List.getElem?_cons_succ, List.getElem?_cons_zero,
            Option.some.injEq] at ha hv1 hv2
          subst ha hv1 hv2
          decide
        | i + 2 => simp at ha)⟩

/-- C20 as stated fails on doubles: with the accumulator `[1e16]`, accumulating `[1]` and
then `[-1e16]` gives `[0]`, since `1e16 + 1` rounds to `1e16`, and accumulating `[-1e16]`
and then `[1]` gives `[1]`. -/
theorem AddElementwise_properties_counterexample :
    (AddElementwise [TFloating.ofInt 1] [(TFloating.ofInt (10 ^ 16) : TDouble)]).bind
        (AddElementwise [TFloating.ofInt (-10 ^ 16)]) = some [TFloating.ofInt 0]
    ∧ (AddElementwise [TFloating.ofInt (-10 ^ 16)] [(TFloating.ofInt (10 ^ 16) : TDouble)]).bind
        (AddElementwise [TFloating.ofInt 1]) = some [TFloating.ofInt 1]
    ∧ (AddElementwise [TFloating.ofInt 1] [(TFloating.ofInt (10 ^ 16) : TDouble)]).bind
        (AddElementwise [TFloating.ofInt (-10 ^ 16)])
      ≠ (AddElementwise [TFloating.ofInt (-10 ^ 16)]
          [(TFloating.ofInt (10 ^ 16) : TDouble)]).bind (AddElementwise [TFloating.ofInt 1]) := by
  decide

theorem addAt_eq [Add α] (weights : List α) (i : Nat) (w : α) (hi : i < weights.length) :
    addAt weights i w = some (weights.set i (weights[i] + w)) := by
  unfold addAt
  rw [List.getElem?_eq_getElem hi]

theorem sum_set_add [AddCommMonoid α] (weights : List α) (i : Nat) (w : α)
    (hi : i < weights.length) :
    (weights.set i (weights[i] + w)).sum = weights.sum + w := by
  induction weights generalizing i with
  | nil => simp at hi
  | cons a rest ih =>
    cases i with
    | zero => simp [add_right_comm]
    | succ i =>
      simp only [List.length_cons, Nat.add_lt_add_iff_right] at hi
      simp [ih i hi, add_assoc]

/-- A sequence of `weights[i] += w` statements with indices inside the vector returns, keeps
the size, adds to every entry the weights sent to it, and adds all weights to the total. -/
theorem foldlM_addAt [AddCommMonoid α] (updates : List (Nat × α)) (weights : List α)
    (hrange : ∀ u ∈ updates, u.1 < weights.length) :
    ∃ result, updates.foldlM (fun weights u => addAt weights u.1 u.2) weights = some result
      ∧ result.length = weights.length
      ∧ (∀ (i : Nat) (a : α), weights[i]? = some a →
        result[i]? = some (a + ((updates.filter fun u => decide (u.1 = i)).map (·.2)).sum))
      ∧ result.sum = weights.sum + (updates.map (·.2)).sum := by
  induction updates generalizing weights with
  | nil => exact ⟨weights, rfl, rfl, by simp, by simp⟩
  | cons u rest ih =>
    have hu : u.1 < weights.length := hrange u (List.mem_cons_self _ _)
    obtain ⟨result, hfold, hlen, hget, hsum⟩ := ih (weights.set u.1 (weights[u.1] + u.2))
      (by
        intro v hv
        rw [List.length_set]
        exact hrange v (List.mem_cons_of_mem _ hv))
    refine ⟨result, ?_, by rw [hlen, List.length_set], ?_, ?_⟩
    · rw [List.foldlM_cons, addAt_eq _ _ _ hu]
      exact hfold
    · intro i a ha
      by_cases hi : u.1 = i
      · subst hi
        have hset : (weights.set u.1 (weights[u.1] + u.2))[u.1]? = some (weights[u.1] + u.2) := by
          simp [List.getElem?_set, hu]
        rw [hget u.1 _ hset]
        have ha2 : weights[u.1] = a := by
          rw [List.getElem?_eq_getElem hu] at ha
          exact Option.some.inj ha
        simp [List.filter_cons, ha2, add_assoc]
      · have hset : (weights.set u.1 (weights[u.1] + u.2))[i]? = some a := by
          rw [List.getElem?_set, if_neg hi]
          exact ha
        rw [hget i a hset]
        simp [List.filter_cons, hi]
    · rw [hsum, sum_set_add _ _ _ hu]
      simp [add_assoc]

/-- A sequence of `weights[i] += w` statements with indices inside the vector returns, keeps
the size, and leaves in every entry what the loop computes there: the weights sent to the
entry, added to it one after the other.  No law of the addition is used. -/
theorem foldlM_addAt_accumulate [Add α] (updates : List (Nat × α)) (weights : List α)
    (hrange : ∀ u ∈ updates, u.1 < weights.length) :
    ∃ result, updates.foldlM (fun weights u => addAt weights u.1 u.2) weights = some result
      ∧ result.length = weights.length
      ∧ ∀ (i : Nat) (a : α), weights[i]? = some a →
        result[i]? = some (((updates.filter fun u => decide (u.1 = i)).map (·.2)).foldl
          (· + ·) a) := by
  induction updates generalizing weights with
  | nil => exact ⟨weights, rfl, rfl, by simp⟩
  | cons u rest ih =>
    have hu : u.1 < weights.length := hrange u (List.mem_cons_self _ _)
    obtain ⟨result, hfold, hlen, hget⟩ := ih (weights.set u.1 (weights[u.1] + u.2))
      (by
        intro v hv
        rw [List.length_set]
        exact hrange v (List.mem_cons_of_mem _ hv))
    refine ⟨result, ?_, by rw [hlen, List.length_set], ?_⟩
    · rw [List.foldlM_cons, addAt_eq _ _ _ hu]
      exact hfold
    · intro i a ha
      by_cases hi : u.1 = i
      · subst hi
        have hau : weights[u.1] = a := by
          rw [List.getElem?_eq_getElem hu] at ha
          exact Option.some.inj ha
        rw [hget u.1 (a + u.2) (by rw [List.getElem?_set_self hu, hau])]
        simp [List.filter_cons]
      · rw [hget i a (by rw [List.getElem?_set_ne hi]; exact ha)]
        simp [List.filter_cons, hi]

/-- Where the sums that the loop leaves in the entries are exact, the entries add up to
the sum of all the weights sent. -/
theorem addAt_sum_of_exact [Zero α] [Add α] {β : Type} [AddCommMonoid β] (exact : α → β)
    (updates : List (Nat × α)) (n : Nat) (result : List α)
    (hrange : ∀ u ∈ updates, u.1 < n)
    (hfold : updates.foldlM (fun weights u => addAt weights u.1 u.2) (List.replicate n 0)
      = some result)
    (hexact : ∀ i, i < n →
      exact (accumulate ((updates.filter fun u => decide (u.1 = i)).map (·.2)))
        = (((updates.filter fun u => decide (u.1 = i)).map (·.2)).map exact).sum) :
    (result.map exact).sum = (updates.map fun u => exact u.2).sum := by
  obtain ⟨r, hr, hlen, hget⟩ := foldlM_addAt_accumulate updates (List.replicate n (0 : α))
    (by simpa using hrange)
  rw [hfold] at hr
  have hrr : result = r := Option.some.inj hr
  subst hrr
  obtain ⟨rb, -, hlenb, hgetb, hsumb⟩ :=
    foldlM_addAt (updates.map fun u => (u.1, exact u.2)) (List.replicate n (0 : β))
      (by
        intro u hu
        obtain ⟨v, hv, rfl⟩ := List.mem_map.mp hu
        simpa using hrange v hv)
  have heq : result.map exact = rb := by
    apply List.ext_getElem?
    intro i
    by_cases hi : i < n
    · rw [List.getElem?_map, hget i 0 (by simp [hi]), hgetb i 0 (by simp [hi]), zero_add,
        Option.map_some']
      have h := hexact i hi
      unfold accumulate at h
      rw [h, List.filter_map, List.map_map, List.map_map]
      rfl
    · have h1 : result.length ≤ i := by
        rw [hlen, List.length_replicate]
        exact Nat.le_of_not_lt hi
      have h2 : rb.length ≤ i := by
        rw [hlenb, List.length_replicate]
        exact Nat.le_of_not_lt hi
      rw [List.getElem?_map, List.getElem?_eq_none h1, List.getElem?_eq_none h2]
      rfl
  rw [heq, hsumb, List.map_map]
  simp
  rfl

theorem foldlM_flatten {β σ : Type} (f : σ → β → Option σ) (xss : List (List β)) (s : σ) :
    xss.flatten.foldlM f s = xss.foldlM (fun s xs => xs.foldlM f s) s := by
  induction xss generalizing s with
  | nil => rfl
  | cons xs rest ih =>
    rw [List.flatten_cons, List.foldlM_append, List.foldlM_cons]
    cases xs.foldlM f s with
    | none => rfl
    | some s1 => exact ih s1

theorem foldlM_congr_mem {β σ : Type} (f g : σ → β → Option σ) (xs : List β)
    (h : ∀ s, ∀ x ∈ xs, f s x = g s x) (s : σ) : xs.foldlM f s = xs.foldlM g s := by
  induction xs generalizing s with
  | nil => rfl
  | cons x rest ih =>
    rw [List.foldlM_cons, List.foldlM_cons, h s x (List.mem_cons_self _ _)]
    cases g s x with
    | none => rfl
    | some s1 => exact ih (fun s y hy => h s y (List.mem_cons_of_mem _ hy)) s1

theorem foldlM_map_option {β γ σ : Type} (f : σ → γ → Option σ) (g : β → γ) (xs : List β)
    (s : σ) : (xs.map g).foldlM f s = xs.foldlM (fun s x => f s (g x)) s := by
  induction xs generalizing s with
  | nil => rfl
  | cons x rest ih =>
    rw [List.map_cons, List.foldlM_cons, List.foldlM_cons]
    cases f s (g x) with
    | none => rfl
    | some s1 => exact ih s1

theorem map_getD_range [Zero α] (weights : List α) :
    (List.range weights.length).map (fun i => weights.getD i 0) = weights := by
  apply List.ext_getElem?
  intro i
  by_cases hi : i < weights.length
  · simp [hi, List.getD_eq_getElem?_getD, List.getElem?_eq_getElem hi]
  · have h1 : weights.length ≤ i := Nat.le_of_not_lt hi
    simp [List.getElem?_eq_none h1, h1]

/-- C19, `SumLeafWeights`, for in-range indices and any addition, rounded or not: the call
returns a vector of length `leafCount` whose entry `l` is the sum, accumulated from `0` in
the order of `docIdx`, of `learnWeights[docIdx]` over the `docIdx` with
`leafIndices[learnPermutation[docIdx]] = l`; where these sums are exact (`exact` gives the
exact value of a number), the entries add up to the sum of `learnWeights`; with the identity
permutation the leaf of `docIdx` is `leafIndices[docIdx]`. -/
theorem SumLeafWeights_sums [Zero α] [Add α] (leafCount : Nat)
    (leafIndices learnPermutation : List Nat) (learnWeights : List α)
    (hleaf : ∀ docIdx, docIdx < learnWeights.length →
      ∃ leaf, leafOfDocument leafIndices learnPermutation docIdx = some leaf
        ∧ leaf < leafCount) :
    ∃ result, SumLeafWeights leafCount leafIndices learnPermutation learnWeights = some result
      ∧ result.length = leafCount
      ∧ (∀ l, l < leafCount →
        result[l]? = some (accumulate (weightsOfLeaf leafIndices learnPermutation learnWeights l)))
      ∧ (∀ (β : Type) [AddCommMonoid β] (exact : α → β),
        (∀ l, l < leafCount →
          exact (accumulate (weightsOfLeaf leafIndices learnPermutation learnWeights l))
            = ((weightsOfLeaf leafIndices learnPermutation learnWeights l).map exact).sum) →
        (result.map exact).sum = (learnWeights.map exact).sum)
      ∧ (learnPermutation = List.range learnWeights.length →
        ∀ docIdx, docIdx < learnWeights.length →
          leafOfDocument leafIndices learnPermutation docIdx = leafIndices[docIdx]?) := by
  have hbody : ∀ (weightSum : List α), ∀ docIdx ∈ List.range learnWeights.length,
      (match learnWeights[docIdx]?, learnPermutation[docIdx]? with
        | some weight, some permuted =>
          match leafIndices[permuted]? with
          | some leaf => addAt weightSum leaf weight
          | none => none
        | _, _ => none)
      = addAt weightSum ((leafOfDocument leafIndices learnPermutation docIdx).getD 0)
          (learnWeights.getD docIdx 0) := by
    intro weightSum docIdx hdoc
    have hlt : docIdx < learnWeights.length := List.mem_range.mp hdoc
    obtain ⟨leaf, hleafOf, -⟩ := hleaf docIdx hlt
    rw [hleafOf]
    unfold leafOfDocument at hleafOf
    cases hp : learnPermutation[docIdx]? with
    | none => simp [hp] at hleafOf
    | some permuted =>
      rw [hp] at hleafOf
      simp only [Option.some_bind] at hleafOf
      simp [List.getElem?_eq_getElem hlt, List.getD_eq_getElem?_getD, hleafOf]
  have hrange : ∀ u ∈ (List.range learnWeights.length).map (fun docIdx =>
      ((leafOfDocument leafIndices learnPermutation docIdx).getD 0,
        learnWeights.getD docIdx 0)), u.1 < leafCount := by
    intro u hu
    obtain ⟨docIdx, hdoc, rfl⟩ := List.mem_map.mp hu
    obtain ⟨leaf, hleafOf, hlt⟩ := hleaf docIdx (List.mem_range.mp hdoc)
    simp [hleafOf, hlt]
  have hsent : ∀ l, ((((List.range learnWeights.length).map (fun docIdx =>
      ((leafOfDocument leafIndices learnPermutation docIdx).getD 0,
        learnWeights.getD docIdx 0))).filter fun u => decide (u.1 = l)).map (·.2))
      = weightsOfLeaf leafIndices learnPermutation learnWeights l := by
    intro l
    unfold weightsOfLeaf
    rw [List.filter_map, List.map_map]
    have hfilter : List.filter ((fun u : Nat × α => decide (u.1 = l)) ∘ fun docIdx =>
          ((leafOfDocument leafIndices learnPermutation docIdx).getD 0,
            learnWeights.getD docIdx 0)) (List.range learnWeights.length)
        = List.filter (fun docIdx =>
          decide (leafOfDocument leafIndices learnPermutation docIdx = some l))
          (List.range learnWeights.length) := by
      apply List.filter_congr
      intro docIdx hdoc
      obtain ⟨leaf, hleafOf, -⟩ := hleaf docIdx (List.mem_range.mp hdoc)
      simp [hleafOf]
    rw [hfilter]
    rfl
  obtain ⟨result, hfold, hlen, hget⟩ := foldlM_addAt_accumulate
    ((List.range learnWeights.length).map (fun docIdx =>
      ((leafOfDocument leafIndices learnPermutation docIdx).getD 0,
        learnWeights.getD docIdx 0))) (List.replicate leafCount (0 : α))
    (by
      intro u hu
      rw [List.length_replicate]
      exact hrange u hu)
  refine ⟨result, ?_, by simpa using hlen, ?_, ?_, ?_⟩
  · unfold SumLeafWeights
    rw [foldlM_congr_mem _ _ _ hbody, ← hfold, foldlM_map_option]
  · intro l hl
    rw [hget l 0 (by simp [hl]), hsent l]
    rfl
  · intro β _ exact hexact
    rw [addAt_sum_of_exact exact _ leafCount result hrange hfold
      (fun l hl => by rw [hsent l]; exact hexact l hl), List.map_map]
    have : ((fun u : Nat × α => exact u.2) ∘ fun docIdx =>
        ((leafOfDocument leafIndices learnPermutation docIdx).getD 0,
          learnWeights.getD docIdx 0)) = exact ∘ fun docIdx => learnWeights.getD docIdx 0 := rfl
    rw [this, ← List.map_map, map_getD_range]
  · intro hid docIdx hlt
    unfold leafOfDocument
    rw [hid]
    simp [hlt]

/-- C19 on three documents in two leaves with the permutation `1, 0, 2`, on doubles: the
entries are `20` and `10 + 30`. -/
theorem SumLeafWeights_sums_witness :
    ∃ result, SumLeafWeights 2 [0, 1, 1] [1, 0, 2]
        [(TFloating.ofInt 10 : TDouble), TFloating.ofInt 20, TFloating.ofInt 30] = some result
      ∧ result = [TFloating.ofInt 20, TFloating.ofInt 40]
      ∧ (result.map TFloating.units).sum
        = ([(TFloating.ofInt 10 : TDouble), TFloating.ofInt 20, TFloating.ofInt 30].map
          TFloating.units).sum := by
  obtain ⟨result, hcall, -, -, hexact, -⟩ := SumLeafWeights_sums 2 [0, 1, 1] [1, 0, 2]
    [(TFloating.ofInt 10 : TDouble), TFloating.ofInt 20, TFloating.ofInt 30] (by decide)
  refine ⟨result, hcall, ?_, hexact Int TFloating.units (by decide)⟩
  have hvalue : SumLeafWeights 2 [0, 1, 1] [1, 0, 2]
      [(TFloating.ofInt 10 : TDouble), TFloating.ofInt 20, TFloating.ofInt 30]
        = some [TFloating.ofInt 20, TFloating.ofInt 40] := by decide
  rw [hvalue] at hcall
  exact (Option.some.inj hcall).symm

/-- C19 as stated fails on doubles: two documents of weights `2 ^ 53` and `1` in one leaf
give the entry `2 ^ 53`, since `2 ^ 53 + 1` rounds to `2 ^ 53`, so the entry is not the sum
of the two weights and the weight is not conserved. -/
theorem SumLeafWeights_sums_counterexample :
    SumLeafWeights 1 [0, 0] [0, 1] [(TFloating.ofInt (2 ^ 53) : TDouble), TFloating.ofInt 1]
      = some [TFloating.ofInt (2 ^ 53)]
    ∧ ¬ ∃ result, SumLeafWeights 1 [0, 0] [0, 1]
          [(TFloating.ofInt (2 ^ 53) : TDouble), TFloating.ofInt 1] = some result
        ∧ ((∀ l, l < 1 → (result.map TFloating.units)[l]?
            = some ((weightsOfLeaf [0, 0] [0, 1]
              [(TFloating.ofInt (2 ^ 53) : TDouble), TFloating.ofInt 1] l).map
                TFloating.units).sum)
          ∨ (result.map TFloating.units).sum
            = ([(TFloating.ofInt (2 ^ 53) : TDouble), TFloating.ofInt 1].map
              TFloating.units).sum) := by
  have hvalue : SumLeafWeights 1 [0, 0] [0, 1]
      [(TFloating.ofInt (2 ^ 53) : TDouble), TFloating.ofInt 1]
        = some [TFloating.ofInt (2 ^ 53)] := by decide
  refine ⟨hvalue, ?_⟩
  rintro ⟨result, hcall, h⟩
  rw [hvalue] at hcall
  have hresult := Option.some.inj hcall
  subst hresult
  rcases h with h | h
  · exact absurd (h 0 (by decide)) (by decide)
  · exact absurd h (by decide)

theorem CalcPairwiseWeightsQuery_eq [Add α] (queryInfo : TQueryInfo α)
    (pairwiseWeights : List α) :
    CalcPairwiseWeightsQuery queryInfo pairwiseWeights
      = (queryPairs queryInfo).foldlM (fun weights pair =>
          (addAt weights pair.1 pair.2.2).bind fun weights =>
            addAt weights pair.2.1 pair.2.2) pairwiseWeights := by
  unfold CalcPairwiseWeightsQuery queryPairs
  rw [foldlM_flatten, foldlM_map_option]
  refine foldlM_congr_mem _ _ _ (fun weights docId hdoc => ?_) _
  have hlt : docId < queryInfo.Competitors.length := List.mem_range.mp hdoc
  rw [List.getElem?_eq_getElem hlt]
  simp only
  rw [foldlM_map_option]

theorem CalcPairwiseWeights_eq [Zero α] [Add α] (queriesInfo : List (TQueryInfo α))
    (queriesCount : Int) (pairwiseWeights : List α)
    (hcount : queriesCount.toNat ≤ queriesInfo.length) :
    CalcPairwiseWeights queriesInfo queriesCount pairwiseWeights
      = (competitorPairs queriesInfo queriesCount).foldlM (fun weights pair =>
          (addAt weights pair.1 pair.2.2).bind fun weights =>
            addAt weights pair.2.1 pair.2.2) (List.replicate pairwiseWeights.length 0) := by
  unfold CalcPairwiseWeights competitorPairs
  rw [foldlM_flatten, foldlM_map_option]
  refine foldlM_congr_mem _ _ _ (fun weights queryIndex hquery => ?_) _
  have hlt : queryIndex < queriesInfo.length :=
    Nat.lt_of_lt_of_le (List.mem_range.mp hquery) hcount
  rw [List.getElem?_eq_getElem hlt]
  simp only
  exact CalcPairwiseWeightsQuery_eq _ _

theorem foldlM_pairs_eq_updates [Add α] (pairs : List (Nat × Nat × α)) (weights : List α) :
    pairs.foldlM (fun weights pair =>
        (addAt weights pair.1 pair.2.2).bind fun weights =>
          addAt weights pair.2.1 pair.2.2) weights
      = (pairs.map fun pair => [(pair.1, pair.2.2), (pair.2.1, pair.2.2)]).flatten.foldlM
          (fun weights u => addAt weights u.1 u.2) weights := by
  rw [foldlM_flatten, foldlM_map_option]
  refine foldlM_congr_mem _ _ _ (fun weights pair _ => ?_) _
  simp only [List.foldlM_cons, List.foldlM_nil]
  cases addAt weights pair.1 pair.2.2 with
  | none => rfl
  | some w1 =>
    simp only [Option.some_bind, Option.bind_eq_bind]
    cases addAt w1 pair.2.1 pair.2.2 <;> rfl

theorem weightsAddedTo_eq (pairs : List (Nat × Nat × α)) (i : Nat) :
    (((pairs.map fun pair => [(pair.1, pair.2.2), (pair.2.1, pair.2.2)]).flatten.filter
        fun u => decide (u.1 = i)).map (·.2)) = weightsAddedTo pairs i := by
  unfold weightsAddedTo
  induction pairs with
  | nil => rfl
  | cons pair rest ih =>
    simp only [List.map_cons, List.flatten_cons, List.filter_append, List.map_append, ih]
    congr 1
    by_cases h1 : pair.1 = i <;> by_cases h2 : pair.2.1 = i <;>
      simp [List.filter_cons, h1, h2]

theorem sum_updates {β : Type} [AddCommMonoid β] (exact : α → β)
    (pairs : List (Nat × Nat × α)) :
    ((pairs.map fun pair => [(pair.1, pair.2.2), (pair.2.1, pair.2.2)]).flatten.map
        fun u => exact u.2).sum
      = (pairs.map fun pair => exact pair.2.2 + exact pair.2.2).sum := by
  induction pairs with
  | nil => rfl
  | cons pair rest ih =>
    simp only [List.map_cons, List.flatten_cons, List.map_append, List.sum_append,
      List.sum_cons, ih]
    simp

/-- C18, `CalcPairwiseWeights`, for in-range indices and any addition, rounded or not: the
call returns a vector of the same size whose entry `i` is the sum, accumulated from `0` in
the order of the loops, of the weights of the competitor pairs of the first `queriesCount`
queries in which `i` takes part, once as the owning document `Begin + docId` and once as
the competitor `Begin + competitor.Id`; where these sums are exact (`exact` gives the exact
value of a number), the entries add up to twice the sum of the weights of the pairs; an
entry of a document in no pair is `0`; and the result is the same for every previous
content of the same size. -/
theorem CalcPairwiseWeights_sums [Zero α] [Add α] (queriesInfo : List (TQueryInfo α))
    (queriesCount : Int) (pairwiseWeights : List α)
    (hcount : queriesCount.toNat ≤ queriesInfo.length)
    (hrange : ∀ pair ∈ competitorPairs queriesInfo queriesCount,
      pair.1 < pairwiseWeights.length ∧ pair.2.1 < pairwiseWeights.length) :
    ∃ result, CalcPairwiseWeights queriesInfo queriesCount pairwiseWeights = some result
      ∧ result.length = pairwiseWeights.length
      ∧ (∀ i, i < pairwiseWeights.length →
        result[i]?
          = some (accumulate (weightsAddedTo (competitorPairs queriesInfo queriesCount) i)))
      ∧ (∀ (β : Type) [AddCommMonoid β] (exact : α → β),
        (∀ i, i < pairwiseWeights.length →
          exact (accumulate (weightsAddedTo (competitorPairs queriesInfo queriesCount) i))
            = ((weightsAddedTo (competitorPairs queriesInfo queriesCount) i).map exact).sum) →
        (result.map exact).sum
          = ((competitorPairs queriesInfo queriesCount).map fun pair =>
            exact pair.2.2 + exact pair.2.2).sum)
      ∧ (∀ i, i < pairwiseWeights.length →
        (∀ pair ∈ competitorPairs queriesInfo queriesCount, pair.1 ≠ i ∧ pair.2.1 ≠ i) →
          result[i]? = some 0)
      ∧ (∀ previous : List α, previous.length = pairwiseWeights.length →
        CalcPairwiseWeights queriesInfo queriesCount previous = some result) := by
  have hupdates : ∀ u ∈ ((competitorPairs queriesInfo queriesCount).map fun pair =>
      [(pair.1, pair.2.2), (pair.2.1, pair.2.2)]).flatten, u.1 < pairwiseWeights.length := by
    intro u hu
    obtain ⟨us, hus, hmem⟩ := List.mem_flatten.mp hu
    obtain ⟨pair, hpair, rfl⟩ := List.mem_map.mp hus
    have hboth := hrange pair hpair
    simp only [List.mem_cons, List.mem_singleton, List.not_mem_nil, or_false] at hmem
    rcases hmem with rfl | rfl
    · exact hboth.1
    · exact hboth.2
  obtain ⟨result, hfold, hlen, hget⟩ := foldlM_addAt_accumulate
    (((competitorPairs queriesInfo queriesCount).map fun pair =>
      [(pair.1, pair.2.2), (pair.2.1, pair.2.2)]).flatten)
    (List.replicate pairwiseWeights.length (0 : α))
    (by
      intro u hu
      rw [List.length_replicate]
      exact hupdates u hu)
  have hcall : CalcPairwiseWeights queriesInfo queriesCount pairwiseWeights = some result := by
    rw [CalcPairwiseWeights_eq _ _ _ hcount, foldlM_pairs_eq_updates]
    exact hfold
  have hentry : ∀ i, i < pairwiseWeights.length →
      result[i]?
        = some (accumulate (weightsAddedTo (competitorPairs queriesInfo queriesCount) i)) := by
    intro i hi
    rw [hget i 0 (by simp [hi]), weightsAddedTo_eq]
    rfl
  refine ⟨result, hcall, by simpa using hlen, hentry, ?_, ?_, ?_⟩
  · intro β _ exact hexact
    rw [addAt_sum_of_exact exact _ pairwiseWeights.length result hupdates hfold
      (fun i hi => by rw [weightsAddedTo_eq]; exact hexact i hi), sum_updates]
  · intro i hi hnone
    rw [hentry i hi]
    have hempty : weightsAddedTo (competitorPairs queriesInfo queriesCount) i = [] := by
      unfold weightsAddedTo
      rw [List.flatten_eq_nil_iff]
      intro ws hws
      obtain ⟨pair, hpair, rfl⟩ := List.mem_map.mp hws
      simp [(hnone pair hpair).1, (hnone pair hpair).2]
    rw [hempty]
    rfl
  · intro previous hprevious
    rw [← hcall]
    unfold CalcPairwiseWeights
    rw [hprevious]

/-- C18 on floats, on one query of three documents: document `0` competes with `1` at
weight `2`, document `1` with `0` at weight `3` and with `2` at weight `5`; the fourth
entry belongs to no pair. -/
theorem CalcPairwiseWeights_sums_witness :
    ∃ result, CalcPairwiseWeights
        [⟨0, [[⟨1, (TFloating.ofInt 2 : TFloat)⟩],
          [⟨0, TFloating.ofInt 3⟩, ⟨2, TFloating.ofInt 5⟩], []]⟩] 1
        [TFloating.ofInt 7, TFloating.ofInt 7, TFloating.ofInt 7, TFloating.ofInt 7]
          = some result
      ∧ result = [TFloating.ofInt 5, TFloating.ofInt 10, TFloating.ofInt 5, 0]
      ∧ (result.map TFloating.units).sum
        = ((competitorPairs [⟨0, [[⟨1, (TFloating.ofInt 2 : TFloat)⟩],
            [⟨0, TFloating.ofInt 3⟩, ⟨2, TFloating.ofInt 5⟩], []]⟩] 1).map fun pair =>
          pair.2.2.units + pair.2.2.units).sum := by
  obtain ⟨result, hcall, -, -, hexact, -, -⟩ := CalcPairwiseWeights_sums
    [⟨0, [[⟨1, (TFloating.ofInt 2 : TFloat)⟩],
      [⟨0, TFloating.ofInt 3⟩, ⟨2, TFloating.ofInt 5⟩], []]⟩] 1
    [TFloating.ofInt 7, TFloating.ofInt 7, TFloating.ofInt 7, TFloating.ofInt 7]
    (by decide) (by decide)
  refine ⟨result, hcall, ?_, hexact Int TFloating.units (by decide)⟩
  have hvalue : CalcPairwiseWeights
      [⟨0, [[⟨1, (TFloating.ofInt 2 : TFloat)⟩],
        [⟨0, TFloating.ofInt 3⟩, ⟨2, TFloating.ofInt 5⟩], []]⟩] 1
      [TFloating.ofInt 7, TFloating.ofInt 7, TFloating.ofInt 7, TFloating.ofInt 7]
        = some [TFloating.ofInt 5, TFloating.ofInt 10, TFloating.ofInt 5, 0] := by decide
  rw [hvalue] at hcall
  exact (Option.some.inj hcall).symm

/-- C18 as stated fails on floats: document `0` with the competitors `1` at weight `2 ^ 24`
and `2` at weight `1` gets the entry `2 ^ 24`, since `2 ^ 24 + 1` rounds to `2 ^ 24`, so
its entry is not the sum of the weights of its pairs, and the entries do not add up to
twice the sum of the weights. -/
theorem CalcPairwiseWeights_sums_counterexample :
    CalcPairwiseWeights [⟨0, [[⟨1, (TFloating.ofInt (2 ^ 24) : TFloat)⟩,
        ⟨2, TFloating.ofInt 1⟩], [], []]⟩] 1 [0, 0, 0]
      = some [TFloating.ofInt (2 ^ 24), TFloating.ofInt (2 ^ 24), TFloating.ofInt 1]
    ∧ ¬ ∃ result, CalcPairwiseWeights [⟨0, [[⟨1, (TFloating.ofInt (2 ^ 24) : TFloat)⟩,
          ⟨2, TFloating.ofInt 1⟩], [], []]⟩] 1 [0, 0, 0] = some result
        ∧ ((∀ i, i < 3 → (result.map TFloating.units)[i]?
            = some ((weightsAddedTo (competitorPairs
              [⟨0, [[⟨1, (TFloating.ofInt (2 ^ 24) : TFloat)⟩,
                ⟨2, TFloating.ofInt 1⟩], [], []]⟩] 1) i).map TFloating.units).sum)
          ∨ (result.map TFloating.units).sum
            = ((competitorPairs [⟨0, [[⟨1, (TFloating.ofInt (2 ^ 24) : TFloat)⟩,
                ⟨2, TFloating.ofInt 1⟩], [], []]⟩] 1).map fun pair =>
              pair.2.2.units + pair.2.2.units).sum) := by
  have hvalue : CalcPairwiseWeights [⟨0, [[⟨1, (TFloating.ofInt (2 ^ 24) : TFloat)⟩,
        ⟨2, TFloating.ofInt 1⟩], [], []]⟩] 1 [0, 0, 0]
      = some [TFloating.ofInt (2 ^ 24), TFloating.ofInt (2 ^ 24), TFloating.ofInt 1] := by
    decide
  refine ⟨hvalue, ?_⟩
  rintro ⟨result, hcall, h⟩
  rw [hvalue] at hcall
  have hresult := Option.some.inj hcall
  subst hresult
  rcases h with h | h
  · exact absurd (h 0 (by decide)) (by decide)
  · exact absurd h (by decide)

end AccumulatorProperties

section TokenProperties

theorem Split_ne_nil (delim : Char) (s : List Char) : Split delim s ≠ [] := by
  cases s with
  | nil => simp [Split]
  | cons c cs =>
    simp only [Split]
    split
    · simp
    · split <;> simp

theorem Split_delim_free (delim : Char) (s : List Char) :
    ∀ token ∈ Split delim s, delim ∉ token := by
  induction s with
  | nil => simp [Split]
  | cons c cs ih =>
    simp only [Split]
    split
    · intro token htoken
      rcases List.mem_cons.mp htoken with h | h
      · simp [h]
      · exact ih token h
    · rename_i hc
      split
      · intro token htoken
        simp at htoken
        subst htoken
        simp [Ne.symm hc]
      · rename_i t ts hsplit
        intro token htoken
        rw [hsplit] at ih
        rcases List.mem_cons.mp htoken with h | h
        · subst h
          have := ih t (by simp)
          simp [Ne.symm hc, this]
        · exact ih token (by simp [h])

theorem Split_append_delim (delim : Char) (s r : List Char) :
    Split delim (s ++ delim :: r) = Split delim s ++ Split delim r := by
  induction s with
  | nil => simp [Split]
  | cons c cs ih =>
    simp only [List.cons_append, Split]
    split
    · simp [ih]
    · have ih' : Split delim (cs.append (delim :: r)) = Split delim cs ++ Split delim r := ih
      rw [ih']
      cases hcs : Split delim cs with
      | nil => exact absurd hcs (Split_ne_nil delim cs)
      | cons t ts => simp

theorem Split_of_not_mem (delim : Char) (s : List Char) (h : delim ∉ s) :
    Split delim s = [s] := by
  induction s with
  | nil => simp [Split]
  | cons c cs ih =>
    simp only [List.mem_cons, not_or] at h
    simp only [Split]
    rw [if_neg (Ne.symm h.1), ih h.2]

theorem SkipEmpty_Split_eq_nil_iff (delim : Char) (s : List Char) :
    SkipEmpty (Split delim s) = [] ↔ ∀ c ∈ s, c = delim := by
  induction s with
  | nil => simp [Split, SkipEmpty]
  | cons c cs ih =>
    simp only [Split]
    by_cases hc : c = delim
    · simp only [hc, if_true, List.mem_cons, forall_eq_or_imp, true_and]
      rw [← ih]
      simp [SkipEmpty]
    · simp only [hc, if_false, List.mem_cons, forall_eq_or_imp, false_and, iff_false]
      cases hcs : Split delim cs with
      | nil => simp [SkipEmpty]
      | cons t ts => simp [SkipEmpty]

theorem SkipEmpty_append (a b : List (List Char)) :
    SkipEmpty (a ++ b) = SkipEmpty a ++ SkipEmpty b := by
  simp [SkipEmpty]

theorem tokens_append_delim (delim : Char) (s r : List Char) :
    SkipEmpty (Split delim (s ++ delim :: r))
      = SkipEmpty (Split delim s) ++ SkipEmpty (Split delim r) := by
  rw [Split_append_delim, SkipEmpty_append]

theorem tokens_single (delim : Char) (s : List Char) (hs : s ≠ []) (h : delim ∉ s) :
    SkipEmpty (Split delim s) = [s] := by
  rw [Split_of_not_mem delim s h]
  cases s with
  | nil => exact absurd rfl hs
  | cons c cs => simp [SkipEmpty]

theorem tokens_intercalate_go (acc : String) (ids : List String)
    (hids : ∀ id ∈ ids, id ≠ "" ∧ ',' ∉ id.toList) :
    SkipEmpty (Split ',' (String.intercalate.go acc "," ids).toList)
      = SkipEmpty (Split ',' acc.toList) ++ ids.map String.toList := by
  induction ids generalizing acc with
  | nil => simp [String.intercalate.go]
  | cons a rest ih =>
    have ha := hids a (by simp)
    have hne : a.toList ≠ [] := by
      intro h
      apply ha.1
      exact String.ext h
    rw [String.intercalate.go, ih _ (fun id hid => hids id (by simp [hid]))]
    have : (acc ++ "," ++ a).toList = acc.toList ++ ',' :: a.toList := by
      simp [String.toList]
    rw [this, tokens_append_delim, tokens_single ',' _ hne ha.2]
    simp

theorem metricsDescriptionOf_intercalate (ids : List String)
    (hids : ∀ id ∈ ids, id ≠ "" ∧ ',' ∉ id.toList) :
    metricsDescriptionOf (",".intercalate ids) = ids := by
  unfold metricsDescriptionOf
  cases ids with
  | nil => simp [String.intercalate, Split, SkipEmpty]
  | cons a rest =>
    have ha := hids a (by simp)
    have hne : a.toList ≠ [] := by
      intro h
      apply ha.1
      exact String.ext h
    rw [String.intercalate, tokens_intercalate_go a rest (fun id hid => hids id (by simp [hid])),
      tokens_single ',' _ hne ha.2]
    have hid : (String.mk ∘ String.toList) = id := by
      funext s
      rfl
    simp [String.toList, hid]

theorem metricsDescriptionOf_isEmpty (desc : String) :
    (metricsDescriptionOf desc).isEmpty = true ↔ ∀ c ∈ desc.toList, c = ',' := by
  unfold metricsDescriptionOf
  rw [← SkipEmpty_Split_eq_nil_iff]
  cases SkipEmpty (Split ',' desc.toList) <;> simp

end TokenProperties

section RunProperties

variable {τ : Type}

/-- What `CreateMetrics` does once the description is split: the emptiness check, then the
call of `CreateMetricsFromDescription`. -/
theorem CreateMetrics_eq (env : TEnvironment τ) (plotParams : TModeEvalMetricsParams)
    (approxDim : Int) (trace : List (TEvent τ)) :
    CreateMetrics env plotParams approxDim trace =
      if (metricsDescriptionOf plotParams.MetricsDescription).isEmpty then
        .failed trace ("No metric in metrics description " ++ plotParams.MetricsDescription)
      else
        match env.CreateMetricsFromDescription
            (metricsDescriptionOf plotParams.MetricsDescription) approxDim with
        | .ok metrics =>
          .ok (trace ++ [.CreateMetricsFromDescription
            (metricsDescriptionOf plotParams.MetricsDescription) approxDim]) metrics
        | .error message =>
          .failed (trace ++ [.CreateMetricsFromDescription
            (metricsDescriptionOf plotParams.MetricsDescription) approxDim]) message := by
  simp only [CreateMetrics, bind, TRun.bind, CB_ENSURE, record]
  cases h : (metricsDescriptionOf plotParams.MetricsDescription).isEmpty
  · simp only [Bool.not_false, if_true, TRun.pure, Bool.false_eq_true, if_false]
    cases env.CreateMetricsFromDescription
      (metricsDescriptionOf plotParams.MetricsDescription) approxDim <;> rfl
  · simp [TRun.throw]

theorem TRun.Emits.mono {ε α : Type} {Q R : ε → Prop} {m : TRun ε α} (h : TRun.Emits Q m)
    (hQR : ∀ event, Q event → R event) : TRun.Emits R m := by
  intro trace
  obtain ⟨added, hadded, hQ⟩ := h trace
  exact ⟨added, hadded, fun event hevent => hQR event (hQ event hevent)⟩

theorem Emits_pure {ε α : Type} (Q : ε → Prop) (value : α) :
    TRun.Emits Q (TRun.pure value : TRun ε α) := by
  intro trace
  exact ⟨[], by simp [TRun.pure, TOutcome.trace], by simp⟩

theorem Emits_throw {ε α : Type} (Q : ε → Prop) (message : String) :
    TRun.Emits Q (TRun.throw message : TRun ε α) := by
  intro trace
  exact ⟨[], by simp [TRun.throw, TOutcome.trace], by simp⟩

theorem Emits_record (Q : TEvent τ → Prop) (event : TEvent τ) (h : Q event) :
    TRun.Emits Q (record event) := by
  intro trace
  exact ⟨[event], by simp [record, TOutcome.trace], by simpa using h⟩

theorem Emits_call (Q : TEvent τ → Prop) (env : TEnvironment τ) (event : TEvent τ)
    (h : Q event) : TRun.Emits Q (call env event) := by
  intro trace
  refine ⟨[event], ?_, by simpa using h⟩
  unfold call
  cases env.Throws (trace ++ [event]) <;> simp [TOutcome.trace]

theorem Emits_bind {ε α β : Type} (Q : ε → Prop) (m : TRun ε α) (f : α → TRun ε β)
    (hm : TRun.Emits Q m) (hf : ∀ value, TRun.Emits Q (f value)) :
    TRun.Emits Q (m >>= f) := by
  intro trace
  obtain ⟨added, hadded, hQ⟩ := hm trace
  show ∃ added, (TRun.bind m f trace).trace = trace ++ added ∧ _
  unfold TRun.bind
  cases hmt : m trace with
  | ok trace1 value =>
    rw [hmt] at hadded
    simp only [TOutcome.trace] at hadded
    obtain ⟨added2, hadded2, hQ2⟩ := hf value trace1
    refine ⟨added ++ added2, ?_, ?_⟩
    · rw [hadded2, hadded, List.append_assoc]
    · intro event hevent
      rcases List.mem_append.mp hevent with h | h
      · exact hQ event h
      · exact hQ2 event h
  | failed trace1 message =>
    rw [hmt] at hadded
    exact ⟨added, hadded, hQ⟩
  | unfinished trace1 =>
    rw [hmt] at hadded
    exact ⟨added, hadded, hQ⟩

theorem Emits_foldlM {ε σ β : Type} (Q : ε → Prop) (f : σ → β → TRun ε σ)
    (hf : ∀ s x, TRun.Emits Q (f s x)) (xs : List β) (s : σ) :
    TRun.Emits Q (xs.foldlM f s) := by
  induction xs generalizing s with
  | nil => exact Emits_pure Q s
  | cons x rest ih =>
    rw [List.foldlM_cons]
    exact Emits_bind Q _ _ (hf s x) (fun s1 => ih s1)

theorem Emits_ReadAndProceedPoolInBlocks {σ : Type} (Q : TEvent τ → Prop)
    (env : TEnvironment τ) (blockSize : Int) (callback : TPool τ → σ → TRun (TEvent τ) σ)
    (s : σ) (hstart : Q (.ReadAndProceedPoolInBlocks blockSize))
    (hblock : ∀ poolPart, Q (.BlockRead poolPart))
    (hcallback : ∀ poolPart s, TRun.Emits Q (callback poolPart s)) :
    TRun.Emits Q (ReadAndProceedPoolInBlocks env blockSize callback s) := by
  unfold ReadAndProceedPoolInBlocks
  refine Emits_bind Q _ _ (Emits_call Q env _ hstart) (fun _ => ?_)
  refine Emits_foldlM Q _ (fun s poolPart => ?_) _ _
  exact Emits_bind Q _ _ (Emits_call Q env _ (hblock poolPart)) (fun _ => hcallback poolPart s)

theorem Emits_additivePass (env : TEnvironment τ) (plotParams : TModeEvalMetricsParams)
    (calcOnParts : Bool) (metrics : List TMetric) (labelConverter : TLabelConverter τ)
    (datasetParts : List (TPool τ)) :
    TRun.Emits (fun event => event.isPassEvent = true)
      (additivePass env plotParams calcOnParts metrics labelConverter datasetParts) := by
  unfold additivePass
  split
  · refine Emits_bind _ _ _ ?_ (fun _ => ?_)
    · refine Emits_ReadAndProceedPoolInBlocks _ env _ _ _ rfl (fun _ => rfl) (fun p s => ?_)
      refine Emits_bind _ _ _ (Emits_call _ env _ rfl) (fun _ => ?_)
      split <;> exact Emits_pure _ _
    · exact Emits_bind _ _ _ (Emits_call _ env _ rfl) (fun _ => Emits_pure _ _)
  · exact Emits_pure _ _

theorem Emits_calcOnPartsLoop (env : TEnvironment τ) (plotParams : TModeEvalMetricsParams)
    (labelConverter : TLabelConverter τ) (rounds : Nat) :
    TRun.Emits (fun event => event.isPassEvent = true)
      (calcOnPartsLoop env plotParams labelConverter rounds) := by
  induction rounds with
  | zero =>
    intro trace
    refine ⟨[], ?_, by simp⟩
    unfold calcOnPartsLoop
    split <;> simp [TOutcome.trace]
  | succ rounds ih =>
    intro trace
    unfold calcOnPartsLoop
    split
    · exact ⟨[], by simp [TOutcome.trace], by simp⟩
    · refine Emits_bind _ _ _ ?_ (fun _ => ?_) trace
      · refine Emits_ReadAndProceedPoolInBlocks _ env _ _ _ rfl (fun _ => rfl) (fun p s => ?_)
        exact Emits_call _ env _ rfl
      · exact Emits_bind _ _ _ (Emits_call _ env _ rfl) (fun _ => ih)

theorem Emits_calcOnWhole (env : TEnvironment τ) (plotParams : TModeEvalMetricsParams)
    (calcOnParts : Bool) (metrics : List TMetric) (labelConverter : TLabelConverter τ)
    (datasetParts : List (TPool τ)) :
    TRun.Emits (fun event => event.isPassEvent = true)
      (calcOnWhole env plotParams calcOnParts metrics labelConverter datasetParts) := by
  unfold calcOnWhole
  split
  · refine Emits_bind _ _ _ ?_ (fun _ => Emits_call _ env _ rfl)
    split
    · unfold ReadDatasetParts
      exact Emits_ReadAndProceedPoolInBlocks _ env _ _ _ rfl (fun _ => rfl)
        (fun p s => Emits_pure _ _)
    · exact Emits_pure _ _
  · exact Emits_pure _ _

theorem Emits_metricPasses (env : TEnvironment τ) (args : TArguments)
    (plotParams : TModeEvalMetricsParams) (metrics : List TMetric)
    (labelConverter : TLabelConverter τ) :
    TRun.Emits (fun event => event.isPassEvent = true)
      (metricPasses env args plotParams metrics labelConverter) := by
  unfold metricPasses
  refine Emits_bind _ _ _ (Emits_additivePass _ _ _ _ _ _) (fun datasetParts => ?_)
  refine Emits_bind _ _ _ ?_ (fun _ => ?_)
  · split
    · exact Emits_calcOnPartsLoop _ _ _ _
    · exact Emits_pure _ _
  · refine Emits_bind _ _ _ (Emits_calcOnWhole _ _ _ _ _ _) (fun _ => ?_)
    refine Emits_bind _ _ _ (Emits_call _ env _ rfl) (fun _ => ?_)
    exact Emits_bind _ _ _ (Emits_call _ env _ rfl) (fun _ => Emits_pure _ _)

theorem bind_apply_ok {ε α β : Type} (m : TRun ε α) (f : α → TRun ε β) {trace trace1 : List ε}
    {value : α} (h : m trace = .ok trace1 value) : (m >>= f) trace = f value trace1 := by
  show TRun.bind m f trace = _
  unfold TRun.bind
  rw [h]

theorem bind_apply_failed {ε α β : Type} (m : TRun ε α) (f : α → TRun ε β)
    {trace trace1 : List ε} {message : String} (h : m trace = .failed trace1 message) :
    (m >>= f) trace = .failed trace1 message := by
  show TRun.bind m f trace = _
  unfold TRun.bind
  rw [h]

theorem bind_apply_unfinished {ε α β : Type} (m : TRun ε α) (f : α → TRun ε β)
    {trace trace1 : List ε} (h : m trace = .unfinished trace1) :
    (m >>= f) trace = .unfinished trace1 := by
  show TRun.bind m f trace = _
  unfold TRun.bind
  rw [h]

theorem call_throws (env : TEnvironment τ) (event : TEvent τ) (trace : List (TEvent τ))
    (message : String) (h : env.Throws (trace ++ [event]) = some message) :
    call env event trace = .failed (trace ++ [event]) message := by
  unfold call
  rw [h]

theorem call_returns (env : TEnvironment τ) (event : TEvent τ) (trace : List (TEvent τ))
    (h : env.Throws (trace ++ [event]) = none) :
    call env event trace = .ok (trace ++ [event]) () := by
  unfold call
  rw [h]

theorem noMetric_ne_catFeatures (desc : String) :
    "No metric in metrics description " ++ desc ≠
      "Model has categorical features. Specify column_description file with correct categorical features." := by
  intro h
  have h1 := congrArg (fun s : String => s.toList.head?) h
  simp [String.toList] at h1

/-- The run from the start, once the model is read. -/
theorem mode_eval_metrics_eq (env : TEnvironment τ) (args : TArguments) (model : TFullModel)
    (hmodel : env.ReadModel = .ok model) :
    mode_eval_metrics env args [] =
      if (model.UsedCatFeaturesCount == 0 || args.CdFilePathInited) = true then
        (CreateMetrics env (resolvePlotParams env model args.plotParams)
            model.ObliviousTrees.ApproxDimension >>= fun metrics =>
          call env (.CreateMetricCalcer
            (resolvePlotParams env model args.plotParams).FirstIteration
            (resolvePlotParams env model args.plotParams).EndIteration
            (resolvePlotParams env model args.plotParams).Step 50
            (resolvePlotParams env model args.plotParams).TmpDir metrics) >>= fun _ =>
          metricPasses env args (resolvePlotParams env model args.plotParams) metrics
            (env.BuildLabelsHelper model)) [.ReadModel]
      else
        .failed [.ReadModel]
          "Model has categorical features. Specify column_description file with correct categorical features." := by
  cases hc : (model.UsedCatFeaturesCount == 0 || args.CdFilePathInited) <;>
    simp [mode_eval_metrics, bind, TRun.bind, record, hmodel, CB_ENSURE, hc, TRun.pure,
      TRun.throw]

/-- The shape of the calls of a run whose model is read: the model reading, then the
creation of the metrics, then the creation of the plot calcer with the resolved
parameters, then calls of the passes only. -/
theorem mode_eval_metrics_trace (env : TEnvironment τ) (args : TArguments)
    (model : TFullModel) (hmodel : env.ReadModel = .ok model) :
    (mode_eval_metrics env args []).trace = [.ReadModel]
    ∨ (mode_eval_metrics env args []).trace = [.ReadModel, .CreateMetricsFromDescription
        (metricsDescriptionOf (resolvePlotParams env model args.plotParams).MetricsDescription)
        model.ObliviousTrees.ApproxDimension]
    ∨ ∃ metrics added,
        (mode_eval_metrics env args []).trace = [.ReadModel, .CreateMetricsFromDescription
          (metricsDescriptionOf (resolvePlotParams env model args.plotParams).MetricsDescription)
          model.ObliviousTrees.ApproxDimension,
          .CreateMetricCalcer (resolvePlotParams env model args.plotParams).FirstIteration
            (resolvePlotParams env model args.plotParams).EndIteration
            (resolvePlotParams env model args.plotParams).Step 50
            (resolvePlotParams env model args.plotParams).TmpDir metrics] ++ added
        ∧ ∀ event ∈ added, event.isPassEvent = true := by
  rw [mode_eval_metrics_eq env args model hmodel]
  split
  · have hCM := CreateMetrics_eq env (resolvePlotParams env model args.plotParams)
      model.ObliviousTrees.ApproxDimension [.ReadModel]
    by_cases hE :
        (metricsDescriptionOf (resolvePlotParams env model args.plotParams).MetricsDescription).isEmpty
          = true
    · rw [if_pos hE] at hCM
      rw [bind_apply_failed _ _ hCM]
      left
      rfl
    · rw [if_neg hE] at hCM
      cases hm : env.CreateMetricsFromDescription
          (metricsDescriptionOf (resolvePlotParams env model args.plotParams).MetricsDescription)
          model.ObliviousTrees.ApproxDimension with
      | error message =>
        rw [hm] at hCM
        rw [bind_apply_failed _ _ hCM]
        right
        left
        rfl
      | ok metrics =>
        rw [hm] at hCM
        rw [bind_apply_ok _ _ hCM]
        right
        right
        refine ⟨metrics, ?_⟩
        cases hT : env.Throws ([TEvent.ReadModel] ++ [TEvent.CreateMetricsFromDescription
              (metricsDescriptionOf
                (resolvePlotParams env model args.plotParams).MetricsDescription)
              model.ObliviousTrees.ApproxDimension] ++
              [TEvent.CreateMetricCalcer
                (resolvePlotParams env model args.plotParams).FirstIteration
                (resolvePlotParams env model args.plotParams).EndIteration
                (resolvePlotParams env model args.plotParams).Step 50
                (resolvePlotParams env model args.plotParams).TmpDir metrics]) with
        | some message =>
          rw [bind_apply_failed _ _ (call_throws env _ _ message hT)]
          exact ⟨[], by simp [TOutcome.trace], by simp⟩
        | none =>
          rw [bind_apply_ok _ _ (call_returns env _ _ hT)]
          obtain ⟨added, hadded, hpass⟩ := Emits_metricPasses env args
            (resolvePlotParams env model args.plotParams) metrics (env.BuildLabelsHelper model)
            ([TEvent.ReadModel] ++ [TEvent.CreateMetricsFromDescription
              (metricsDescriptionOf
                (resolvePlotParams env model args.plotParams).MetricsDescription)
              model.ObliviousTrees.ApproxDimension] ++
              [TEvent.CreateMetricCalcer
                (resolvePlotParams env model args.plotParams).FirstIteration
                (resolvePlotParams env model args.plotParams).EndIteration
                (resolvePlotParams env model args.plotParams).Step 50
                (resolvePlotParams env model args.plotParams).TmpDir metrics])
          exact ⟨added, by simpa using hadded, hpass⟩
  · left
    rfl

/-- Every plot calcer creation recorded in a run has the resolved parameters. -/
theorem CreateMetricCalcer_args (env : TEnvironment τ) (args : TArguments)
    (model : TFullModel) (hmodel : env.ReadModel = .ok model)
    (f e s p : Nat) (t : String) (m : List TMetric)
    (hcall : TEvent.CreateMetricCalcer f e s p t m ∈ (mode_eval_metrics env args []).trace) :
    f = (resolvePlotParams env model args.plotParams).FirstIteration
    ∧ e = (resolvePlotParams env model args.plotParams).EndIteration
    ∧ s = (resolvePlotParams env model args.plotParams).Step := by
  rcases mode_eval_metrics_trace env args model hmodel with h | h | ⟨metrics, added, h, hpass⟩
  · rw [h] at hcall
    simp at hcall
  · rw [h] at hcall
    simp at hcall
  · rw [h] at hcall
    simp only [List.cons_append, List.nil_append, List.mem_cons] at hcall
    rcases hcall with hcall | hcall | hcall | hcall
    · cases hcall
    · cases hcall
    · injection hcall with hf he hs
      exact ⟨hf, he, hs⟩
    · have := hpass _ hcall
      simp [TEvent.isPassEvent] at this

/-- The plot calcer creation is reached when the model is read, passes the categorical
feature check and the metrics are created. -/
theorem CreateMetricCalcer_reached (env : TEnvironment τ) (args : TArguments)
    (model : TFullModel) (metrics : List TMetric) (hmodel : env.ReadModel = .ok model)
    (hcat : (model.UsedCatFeaturesCount == 0 || args.CdFilePathInited) = true)
    (hdesc : (metricsDescriptionOf args.plotParams.MetricsDescription).isEmpty = false)
    (hmetrics : env.CreateMetricsFromDescription
      (metricsDescriptionOf args.plotParams.MetricsDescription)
      model.ObliviousTrees.ApproxDimension = .ok metrics) :
    TEvent.CreateMetricCalcer (resolvePlotParams env model args.plotParams).FirstIteration
      (resolvePlotParams env model args.plotParams).EndIteration
      (resolvePlotParams env model args.plotParams).Step 50
      (resolvePlotParams env model args.plotParams).TmpDir metrics
      ∈ (mode_eval_metrics env args []).trace := by
  have hdescr : (resolvePlotParams env model args.plotParams).MetricsDescription
      = args.plotParams.MetricsDescription := by
    unfold resolvePlotParams
    simp only
    split <;> split <;> rfl
  have hCM := CreateMetrics_eq env (resolvePlotParams env model args.plotParams)
    model.ObliviousTrees.ApproxDimension [.ReadModel]
  rw [hdescr, hdesc, hmetrics] at hCM
  simp only [Bool.false_eq_true, if_false] at hCM
  rw [mode_eval_metrics_eq env args model hmodel, if_pos hcat, bind_apply_ok _ _ hCM]
  cases hT : env.Throws ([TEvent.ReadModel] ++ [TEvent.CreateMetricsFromDescription
      (metricsDescriptionOf args.plotParams.MetricsDescription)
      model.ObliviousTrees.ApproxDimension] ++
      [TEvent.CreateMetricCalcer
        (resolvePlotParams env model args.plotParams).FirstIteration
        (resolvePlotParams env model args.plotParams).EndIteration
        (resolvePlotParams env model args.plotParams).Step 50
        (resolvePlotParams env model args.plotParams).TmpDir metrics]) with
  | some message =>
    rw [bind_apply_failed _ _ (call_throws env _ _ message hT)]
    simp [TOutcome.trace]
  | none =>
    rw [bind_apply_ok _ _ (call_returns env _ _ hT)]
    obtain ⟨added, hadded, -⟩ := Emits_metricPasses env args
      (resolvePlotParams env model args.plotParams) metrics (env.BuildLabelsHelper model)
      ([TEvent.ReadModel] ++ [TEvent.CreateMetricsFromDescription
        (metricsDescriptionOf args.plotParams.MetricsDescription)
        model.ObliviousTrees.ApproxDimension] ++
        [TEvent.CreateMetricCalcer
          (resolvePlotParams env model args.plotParams).FirstIteration
          (resolvePlotParams env model args.plotParams).EndIteration
          (resolvePlotParams env model args.plotParams).Step 50
          (resolvePlotParams env model args.plotParams).TmpDir metrics])
    rw [hadded]
    simp

theorem resolvePlotParams_FirstIteration (env : TEnvironment τ) (model : TFullModel)
    (plotParams : TModeEvalMetricsParams) :
    (resolvePlotParams env model plotParams).FirstIteration = plotParams.FirstIteration := by
  unfold resolvePlotParams
  simp only
  split <;> split <;> rfl

theorem resolvePlotParams_Step (env : TEnvironment τ) (model : TFullModel)
    (plotParams : TModeEvalMetricsParams) :
    (resolvePlotParams env model plotParams).Step = plotParams.Step := by
  unfold resolvePlotParams
  simp only
  split <;> split <;> rfl

theorem resolvePlotParams_EndIteration (env : TEnvironment τ) (model : TFullModel)
    (plotParams : TModeEvalMetricsParams) :
    (resolvePlotParams env model plotParams).EndIteration =
      if plotParams.EndIteration = 0 then model.ObliviousTrees.TreeSizes.length % 2 ^ 32
      else plotParams.EndIteration := by
  unfold resolvePlotParams
  simp only
  split <;> split <;> rfl

theorem resolvePlotParams_TmpDir (env : TEnvironment τ) (model : TFullModel)
    (plotParams : TModeEvalMetricsParams) :
    (resolvePlotParams env model plotParams).TmpDir =
      if plotParams.TmpDir = "-" then env.TTempDirName else plotParams.TmpDir := by
  unfold resolvePlotParams
  simp only
  split <;> split <;> simp_all

/-- C6, the emptiness check of `CreateMetrics`: the run fails with the message
"No metric in metrics description " followed by the description, without having called
`CreateMetricsFromDescription`, exactly when the description has no character other than
a comma (the empty description included); when the description has another character the
check passes and `CreateMetricsFromDescription` is called with the identifiers. -/
theorem CreateMetrics_emptiness_check (env : TEnvironment τ)
    (plotParams : TModeEvalMetricsParams) (approxDim : Int) (trace : List (TEvent τ)) :
    ((∀ c ∈ plotParams.MetricsDescription.toList, c = ',') ↔
      CreateMetrics env plotParams approxDim trace =
        .failed trace ("No metric in metrics description " ++ plotParams.MetricsDescription))
    ∧ ((plotParams.MetricsDescription = "") →
      CreateMetrics env plotParams approxDim trace =
        .failed trace ("No metric in metrics description " ++ plotParams.MetricsDescription))
    ∧ ((∃ c ∈ plotParams.MetricsDescription.toList, c ≠ ',') →
      (CreateMetrics env plotParams approxDim trace).trace =
          trace ++ [.CreateMetricsFromDescription
            (metricsDescriptionOf plotParams.MetricsDescription) approxDim]
        ∧ CreateMetrics env plotParams approxDim trace =
          match env.CreateMetricsFromDescription
              (metricsDescriptionOf plotParams.MetricsDescription) approxDim with
          | .ok metrics =>
            .ok (trace ++ [.CreateMetricsFromDescription
              (metricsDescriptionOf plotParams.MetricsDescription) approxDim]) metrics
          | .error message =>
            .failed (trace ++ [.CreateMetricsFromDescription
              (metricsDescriptionOf plotParams.MetricsDescription) approxDim]) message) := by
  have hpass : (∃ c ∈ plotParams.MetricsDescription.toList, c ≠ ',') →
      (metricsDescriptionOf plotParams.MetricsDescription).isEmpty = false := by
    intro h
    cases hE : (metricsDescriptionOf plotParams.MetricsDescription).isEmpty
    · rfl
    · obtain ⟨c, hc, hne⟩ := h
      exact absurd ((metricsDescriptionOf_isEmpty _).mp hE c hc) hne
  have hfail : (∀ c ∈ plotParams.MetricsDescription.toList, c = ',') →
      CreateMetrics env plotParams approxDim trace =
        .failed trace ("No metric in metrics description " ++ plotParams.MetricsDescription) := by
    intro h
    rw [CreateMetrics_eq, if_pos ((metricsDescriptionOf_isEmpty _).mpr h)]
  refine ⟨⟨hfail, ?_⟩, ?_, ?_⟩
  · intro h
    by_contra hall
    have hex : ∃ c ∈ plotParams.MetricsDescription.toList, c ≠ ',' := by
      by_contra hno
      apply hall
      intro c hc
      by_contra hne
      exact hno ⟨c, hc, hne⟩
    rw [CreateMetrics_eq, hpass hex] at h
    cases hm : env.CreateMetricsFromDescription
      (metricsDescriptionOf plotParams.MetricsDescription) approxDim <;>
      rw [hm] at h <;> simp at h
  · intro hempty
    apply hfail
    rw [hempty]
    intro c hc
    simp at hc
  · intro hex
    rw [CreateMetrics_eq, hpass hex]
    cases hm : env.CreateMetricsFromDescription
      (metricsDescriptionOf plotParams.MetricsDescription) approxDim <;>
      simp [TOutcome.trace]

/-- C7, the identifier list of `CreateMetrics`: every identifier is non-empty and has no
comma; the tokens of `s` followed by a comma and `r` are the tokens of `s` followed by those
of `r`, the only token of a non-empty comma-free string is the string itself, and the empty
string has no token, which together say that the tokens are the maximal non-empty
comma-free substrings from left to right; non-empty comma-free identifiers joined by single
commas are returned unchanged, and "Logloss,AUC" gives "Logloss" then "AUC". -/
theorem metricsDescriptionOf_tokens :
    (∀ desc : String, ∀ id ∈ metricsDescriptionOf desc, id ≠ "" ∧ ',' ∉ id.toList)
    ∧ (∀ s r : List Char,
        metricsDescriptionOf (String.mk (s ++ ',' :: r))
          = metricsDescriptionOf (String.mk s) ++ metricsDescriptionOf (String.mk r))
    ∧ (∀ s : List Char, s ≠ [] → ',' ∉ s → metricsDescriptionOf (String.mk s) = [String.mk s])
    ∧ metricsDescriptionOf "" = []
    ∧ (∀ ids : List String, (∀ id ∈ ids, id ≠ "" ∧ ',' ∉ id.toList) →
        metricsDescriptionOf (",".intercalate ids) = ids)
    ∧ metricsDescriptionOf "Logloss,AUC" = ["Logloss", "AUC"] := by
  refine ⟨?_, ?_, ?_, ?_, metricsDescriptionOf_intercalate, by decide⟩
  · intro desc id hid
    unfold metricsDescriptionOf at hid
    obtain ⟨token, htoken, rfl⟩ := List.mem_map.mp hid
    have hmem : token ∈ Split ',' desc.toList ∧ (!token.isEmpty) = true := by
      simpa [SkipEmpty] using htoken
    refine ⟨?_, Split_delim_free ',' _ token hmem.1⟩
    intro h
    have : token = [] := congrArg String.toList h
    simp [this] at hmem
  · intro s r
    simp [metricsDescriptionOf, String.toList, tokens_append_delim]
  · intro s hs hcomma
    simp [metricsDescriptionOf, String.toList, tokens_single ',' s hs hcomma]
  · decide

/-- C7 at a concrete description: three identifiers joined by single commas. -/
theorem metricsDescriptionOf_tokens_witness :
    metricsDescriptionOf (",".intercalate ["RMSE", "Logloss", "AUC"])
      = ["RMSE", "Logloss", "AUC"] :=
  metricsDescriptionOf_tokens.2.2.2.2.1 ["RMSE", "Logloss", "AUC"] (by decide)

/-- C8 as stated fails on a model with `2 ^ 32` trees: with `EndIteration` unset the value
passed to `CreateMetricCalcer` is `0`, the tree count reduced to a `ui32`, and not the
tree count. -/
theorem EndIteration_default_counterexample :
    TEvent.CreateMetricCalcer 0 0 1 50 "tmp" [⟨"Logloss", true⟩, ⟨"AUC", false⟩]
        ∈ (mode_eval_metrics (exampleEnvironment (exampleModel (2 ^ 32) 0))
            (exampleArguments 0 0 false false) []).trace
    ∧ (exampleArguments 0 0 false false).plotParams.EndIteration = 0
    ∧ (exampleModel (2 ^ 32) 0).ObliviousTrees.TreeSizes.length = 2 ^ 32
    ∧ (0 : Nat) ≠ (exampleModel (2 ^ 32) 0).ObliviousTrees.TreeSizes.length := by
  have hlen : (exampleModel (2 ^ 32) 0).ObliviousTrees.TreeSizes.length = 2 ^ 32 :=
    List.length_replicate _ _
  refine ⟨?_, rfl, hlen, by rw [hlen]; decide⟩
  have h := CreateMetricCalcer_reached (exampleEnvironment (exampleModel (2 ^ 32) 0))
    (exampleArguments 0 0 false false) (exampleModel (2 ^ 32) 0)
    [⟨"Logloss", true⟩, ⟨"AUC", false⟩] rfl rfl (by decide) rfl
  rw [resolvePlotParams_FirstIteration, resolvePlotParams_EndIteration,
    resolvePlotParams_Step, resolvePlotParams_TmpDir, hlen] at h
  exact h

/-- C8, the `EndIteration` default, for models with fewer than `2 ^ 32` trees: in every
run whose model is read, a `CreateMetricCalcer` call gets `FirstIteration` and `Step` as
configured, the configured `EndIteration` when that is not `0`, and the tree count when it
is `0` and the tree count is below `2 ^ 32` (in general the tree count modulo `2 ^ 32`). -/
theorem EndIteration_default (env : TEnvironment τ) (args : TArguments) (model : TFullModel)
    (hmodel : env.ReadModel = .ok model) (f e s p : Nat) (t : String) (m : List TMetric)
    (hcall : TEvent.CreateMetricCalcer f e s p t m ∈ (mode_eval_metrics env args []).trace) :
    f = args.plotParams.FirstIteration ∧ s = args.plotParams.Step
    ∧ (args.plotParams.EndIteration ≠ 0 → e = args.plotParams.EndIteration)
    ∧ (args.plotParams.EndIteration = 0 → model.ObliviousTrees.TreeSizes.length < 2 ^ 32 →
        e = model.ObliviousTrees.TreeSizes.length)
    ∧ (args.plotParams.EndIteration = 0 →
        e = model.ObliviousTrees.TreeSizes.length % 2 ^ 32) := by
  obtain ⟨hf, he, hs⟩ := CreateMetricCalcer_args env args model hmodel f e s p t m hcall
  rw [resolvePlotParams_FirstIteration] at hf
  rw [resolvePlotParams_Step] at hs
  rw [resolvePlotParams_EndIteration] at he
  refine ⟨hf, hs, ?_, ?_, ?_⟩
  · intro h
    rw [he, if_neg h]
  · intro h hlt
    rw [he, if_pos h, Nat.mod_eq_of_lt hlt]
  · intro h
    rw [he, if_pos h]

/-- C8 at a run on a model with 10 trees and `EndIteration` unset: the call gets 10. -/
theorem EndIteration_default_witness :
    (0 : Nat) = (exampleArguments 0 0 false true).plotParams.FirstIteration
    ∧ (1 : Nat) = (exampleArguments 0 0 false true).plotParams.Step
    ∧ ((exampleArguments 0 0 false true).plotParams.EndIteration ≠ 0 →
        (10 : Nat) = (exampleArguments 0 0 false true).plotParams.EndIteration)
    ∧ ((exampleArguments 0 0 false true).plotParams.EndIteration = 0 →
        (exampleModel 10 0).ObliviousTrees.TreeSizes.length < 2 ^ 32 →
        (10 : Nat) = (exampleModel 10 0).ObliviousTrees.TreeSizes.length)
    ∧ ((exampleArguments 0 0 false true).plotParams.EndIteration = 0 →
        (10 : Nat) = (exampleModel 10 0).ObliviousTrees.TreeSizes.length % 2 ^ 32) :=
  EndIteration_default (exampleEnvironment (exampleModel 10 0))
    (exampleArguments 0 0 false true) (exampleModel 10 0) rfl 0 10 1 50 "tmp"
    [⟨"Logloss", true⟩, ⟨"AUC", false⟩] (by decide)

/-- C9 as stated fails: with `FirstIteration = 5` and `EndIteration = 3` configured on a
model with 10 trees the run reaches `CreateMetricCalcer` and passes 5 and 3. -/
theorem checkpoint_bounds_counterexample :
    TEvent.CreateMetricCalcer 5 3 1 50 "tmp" [⟨"Logloss", true⟩, ⟨"AUC", false⟩]
        ∈ (mode_eval_metrics (exampleEnvironment (exampleModel 10 0))
            (exampleArguments 5 3 false false) []).trace
    ∧ ¬ (5 < 3 ∧ 3 ≤ (exampleModel 10 0).ObliviousTrees.TreeSizes.length) := by
  decide

/-- C9 as amended: the values passed to `CreateMetricCalcer` are not checked, so they
satisfy `FirstIteration < EndIteration ≤ number of trees` exactly when the configured
values do: for a configured `EndIteration` other than `0`, when
`FirstIteration < EndIteration ≤ number of trees` holds as configured; for an unset
`EndIteration` and fewer than `2 ^ 32` trees, when `FirstIteration` is below the number
of trees. -/
theorem checkpoint_bounds (env : TEnvironment τ) (args : TArguments) (model : TFullModel)
    (hmodel : env.ReadModel = .ok model) (f e s p : Nat) (t : String) (m : List TMetric)
    (hcall : TEvent.CreateMetricCalcer f e s p t m ∈ (mode_eval_metrics env args []).trace) :
    (args.plotParams.EndIteration ≠ 0 →
      ((f < e ∧ e ≤ model.ObliviousTrees.TreeSizes.length) ↔
        (args.plotParams.FirstIteration < args.plotParams.EndIteration
          ∧ args.plotParams.EndIteration ≤ model.ObliviousTrees.TreeSizes.length)))
    ∧ (args.plotParams.EndIteration = 0 → model.ObliviousTrees.TreeSizes.length < 2 ^ 32 →
      ((f < e ∧ e ≤ model.ObliviousTrees.TreeSizes.length) ↔
        args.plotParams.FirstIteration < model.ObliviousTrees.TreeSizes.length)) := by
  obtain ⟨hf, he, -⟩ := CreateMetricCalcer_args env args model hmodel f e s p t m hcall
  rw [resolvePlotParams_FirstIteration] at hf
  rw [resolvePlotParams_EndIteration] at he
  refine ⟨?_, ?_⟩
  · intro h
    rw [if_neg h] at he
    rw [hf, he]
  · intro h hlt
    rw [if_pos h, Nat.mod_eq_of_lt hlt] at he
    rw [hf, he]
    simp

/-- C9 as amended at a run on a model with 10 trees, `FirstIteration = 2` and
`EndIteration = 7`: the bounds hold for the values passed. -/
theorem checkpoint_bounds_witness :
    ((exampleArguments 2 7 false false).plotParams.EndIteration ≠ 0 →
      ((2 < 7 ∧ 7 ≤ (exampleModel 10 0).ObliviousTrees.TreeSizes.length) ↔
        ((exampleArguments 2 7 false false).plotParams.FirstIteration
            < (exampleArguments 2 7 false false).plotParams.EndIteration
          ∧ (exampleArguments 2 7 false false).plotParams.EndIteration
            ≤ (exampleModel 10 0).ObliviousTrees.TreeSizes.length)))
    ∧ ((exampleArguments 2 7 false false).plotParams.EndIteration = 0 →
      (exampleModel 10 0).ObliviousTrees.TreeSizes.length < 2 ^ 32 →
      ((2 < 7 ∧ 7 ≤ (exampleModel 10 0).ObliviousTrees.TreeSizes.length) ↔
        (exampleArguments 2 7 false false).plotParams.FirstIteration
          < (exampleModel 10 0).ObliviousTrees.TreeSizes.length)) :=
  checkpoint_bounds (exampleEnvironment (exampleModel 10 0))
    (exampleArguments 2 7 false false) (exampleModel 10 0) rfl 2 7 1 50 "tmp"
    [⟨"Logloss", true⟩, ⟨"AUC", false⟩] (by decide)

/-- C10, the categorical-feature error: in a run whose model is read, the run fails with
the message "Model has categorical features. ..." right after the model is read exactly
when the model uses a categorical feature and no column description was supplied; the
only call made by then is the reading of the model, so no metric is created, no block is
read and no result is saved. -/
theorem categorical_features_error (env : TEnvironment τ) (args : TArguments)
    (model : TFullModel) (hmodel : env.ReadModel = .ok model) :
    ((0 < model.UsedCatFeaturesCount ∧ args.CdFilePathInited = false) ↔
      mode_eval_metrics env args [] = .failed [.ReadModel]
        "Model has categorical features. Specify column_description file with correct categorical features.")
    ∧ ((0 < model.UsedCatFeaturesCount ∧ args.CdFilePathInited = false) →
      ∀ event ∈ (mode_eval_metrics env args []).trace, event = .ReadModel) := by
  have hcond : (0 < model.UsedCatFeaturesCount ∧ args.CdFilePathInited = false) ↔
      ¬ (model.UsedCatFeaturesCount == 0 || args.CdFilePathInited) = true := by
    cases args.CdFilePathInited <;> simp [Nat.pos_iff_ne_zero]
  have hfail : (0 < model.UsedCatFeaturesCount ∧ args.CdFilePathInited = false) →
      mode_eval_metrics env args [] = .failed [.ReadModel]
        "Model has categorical features. Specify column_description file with correct categorical features." := by
    intro h
    rw [mode_eval_metrics_eq env args model hmodel, if_neg (hcond.mp h)]
  refine ⟨⟨hfail, ?_⟩, ?_⟩
  · intro h
    by_contra hno
    have hpass : (model.UsedCatFeaturesCount == 0 || args.CdFilePathInited) = true := by
      by_contra hc
      exact hno (hcond.mpr hc)
    have htrace : (mode_eval_metrics env args []).trace = [.ReadModel] := by
      rw [h]
      rfl
    rw [mode_eval_metrics_eq env args model hmodel, if_pos hpass] at h htrace
    have hCM := CreateMetrics_eq env (resolvePlotParams env model args.plotParams)
      model.ObliviousTrees.ApproxDimension [.ReadModel]
    by_cases hE :
        (metricsDescriptionOf (resolvePlotParams env model args.plotParams).MetricsDescription).isEmpty
          = true
    · rw [if_pos hE] at hCM
      rw [bind_apply_failed _ _ hCM] at h
      injection h with _ hmsg
      exact noMetric_ne_catFeatures _ hmsg
    · rw [if_neg hE] at hCM
      cases hm : env.CreateMetricsFromDescription
          (metricsDescriptionOf
            (resolvePlotParams env model args.plotParams).MetricsDescription)
          model.ObliviousTrees.ApproxDimension with
      | error message =>
        rw [hm] at hCM
        rw [bind_apply_failed _ _ hCM] at htrace
        simp [TOutcome.trace] at htrace
      | ok metrics =>
        rw [hm] at hCM
        rw [bind_apply_ok _ _ hCM] at htrace
        obtain ⟨added, hadded, -⟩ := Emits_bind (fun _ => True) _ _
          (Emits_call (fun _ => True) env (TEvent.CreateMetricCalcer
            (resolvePlotParams env model args.plotParams).FirstIteration
            (resolvePlotParams env model args.plotParams).EndIteration
            (resolvePlotParams env model args.plotParams).Step 50
            (resolvePlotParams env model args.plotParams).TmpDir metrics) trivial)
          (fun _ => (Emits_metricPasses env args
            (resolvePlotParams env model args.plotParams) metrics
            (env.BuildLabelsHelper model)).mono (fun _ _ => trivial))
          ([TEvent.ReadModel] ++ [TEvent.CreateMetricsFromDescription
            (metricsDescriptionOf
              (resolvePlotParams env model args.plotParams).MetricsDescription)
            model.ObliviousTrees.ApproxDimension])
        rw [hadded] at htrace
        simp at htrace
  · intro h event hevent
    rw [hfail h] at hevent
    simpa [TOutcome.trace] using hevent

/-- C10 at a run on a model with two categorical features and no column description. -/
theorem categorical_features_error_witness :
    ((0 < (exampleModel 10 2).UsedCatFeaturesCount
        ∧ (exampleArguments 0 0 false true).CdFilePathInited = false) ↔
      mode_eval_metrics (exampleEnvironment (exampleModel 10 2))
          (exampleArguments 0 0 false true) [] = .failed [.ReadModel]
        "Model has categorical features. Specify column_description file with correct categorical features.")
    ∧ ((0 < (exampleModel 10 2).UsedCatFeaturesCount
        ∧ (exampleArguments 0 0 false true).CdFilePathInited = false) →
      ∀ event ∈ (mode_eval_metrics (exampleEnvironment (exampleModel 10 2))
          (exampleArguments 0 0 false true) []).trace, event = .ReadModel) :=
  categorical_features_error (exampleEnvironment (exampleModel 10 2))
    (exampleArguments 0 0 false true) (exampleModel 10 2) rfl

end RunProperties

section PassProperties

variable {τ : Type}

theorem TRun_bind_assoc {ε α β γ : Type} (m : TRun ε α) (f : α → TRun ε β)
    (g : β → TRun ε γ) : m >>= f >>= g = m >>= fun value => f value >>= g := by
  funext trace
  show TRun.bind (TRun.bind m f) g trace = TRun.bind m (fun value => TRun.bind (f value) g) trace
  unfold TRun.bind
  cases m trace <;> rfl

theorem TRun_pure_bind {ε α β : Type} (value : α) (f : α → TRun ε β) :
    (TRun.pure value : TRun ε α) >>= f = f value := by
  funext trace
  rfl

theorem Follows_pure {ε α : Type} (value : α) :
    TRun.Follows (TRun.pure value : TRun ε α) [] value := by
  intro trace
  refine ⟨⟨[], [], rfl, by simp [TRun.pure, TOutcome.trace]⟩, ?_⟩
  intro trace1 v h
  simp only [TRun.pure] at h
  injection h with h1 h2
  exact ⟨by simp [h1], h2.symm⟩

theorem Follows_call (env : TEnvironment τ) (event : TEvent τ) :
    TRun.Follows (call env event) [event] () := by
  intro trace
  refine ⟨⟨[event], [], by simp, ?_⟩, ?_⟩
  · unfold call
    cases env.Throws (trace ++ [event]) <;> rfl
  · intro trace1 v h
    unfold call at h
    cases hT : env.Throws (trace ++ [event]) with
    | some message => simp [hT] at h
    | none =>
      simp only [hT] at h
      injection h with h1 _
      exact ⟨h1.symm, rfl⟩

theorem Follows_bind {ε α β : Type} (m : TRun ε α) (f : α → TRun ε β) (plan1 plan2 : List ε)
    (value1 : α) (value2 : β) (hm : TRun.Follows m plan1 value1)
    (hf : TRun.Follows (f value1) plan2 value2) :
    TRun.Follows (m >>= f) (plan1 ++ plan2) value2 := by
  intro trace
  obtain ⟨⟨done, rest, hplan, htrace⟩, hok⟩ := hm trace
  cases hmt : m trace with
  | ok trace1 v =>
    obtain ⟨h1, h2⟩ := hok trace1 v hmt
    subst h1 h2
    rw [bind_apply_ok m f hmt]
    obtain ⟨⟨done2, rest2, hplan2, htrace2⟩, hok2⟩ := hf (trace ++ plan1)
    refine ⟨⟨plan1 ++ done2, rest2, by rw [hplan2, List.append_assoc],
      by rw [htrace2, List.append_assoc]⟩, ?_⟩
    intro trace2 w h
    obtain ⟨h3, h4⟩ := hok2 trace2 w h
    exact ⟨by rw [h3, List.append_assoc], h4⟩
  | failed trace1 message =>
    rw [bind_apply_failed m f hmt]
    rw [hmt] at htrace
    refine ⟨⟨done, rest ++ plan2, by rw [hplan, List.append_assoc], htrace⟩, ?_⟩
    intro trace2 w h
    cases h
  | unfinished trace1 =>
    rw [bind_apply_unfinished m f hmt]
    rw [hmt] at htrace
    refine ⟨⟨done, rest ++ plan2, by rw [hplan, List.append_assoc], htrace⟩, ?_⟩
    intro trace2 w h
    cases h

theorem Follows_foldlM {ε σ β : Type} (f : σ → β → TRun ε σ) (plan : β → List ε)
    (g : σ → β → σ) (hf : ∀ s x, TRun.Follows (f s x) (plan x) (g s x)) (xs : List β) (s : σ) :
    TRun.Follows (xs.foldlM f s) (xs.map plan).flatten (xs.foldl g s) := by
  induction xs generalizing s with
  | nil => exact Follows_pure s
  | cons x rest ih =>
    rw [List.foldlM_cons]
    simp only [List.map_cons, List.flatten_cons, List.foldl_cons]
    exact Follows_bind _ _ _ _ _ _ (hf s x) (ih (g s x))

theorem Follows_ReadAndProceedPoolInBlocks {σ : Type} (env : TEnvironment τ) (blockSize : Int)
    (callback : TPool τ → σ → TRun (TEvent τ) σ) (perBlock : TPool τ → List (TEvent τ))
    (g : σ → TPool τ → σ)
    (hcallback : ∀ poolPart s, TRun.Follows (callback poolPart s) (perBlock poolPart)
      (g s poolPart)) (s : σ) :
    TRun.Follows (ReadAndProceedPoolInBlocks env blockSize callback s)
      (streamPlan env blockSize perBlock) ((env.Blocks blockSize).foldl g s) := by
  unfold ReadAndProceedPoolInBlocks streamPlan
  refine Follows_bind _ _ [_] _ _ _ (Follows_call env _) ?_
  refine Follows_foldlM _ (fun poolPart => .BlockRead poolPart :: perBlock poolPart) g ?_ _ _
  intro s poolPart
  exact Follows_bind _ _ [_] _ _ _ (Follows_call env _) (hcallback poolPart s)

/-- The additive pass written with its callback. -/
theorem additivePass_eq (env : TEnvironment τ) (plotParams : TModeEvalMetricsParams)
    (calcOnParts : Bool) (metrics : List TMetric) (labelConverter : TLabelConverter τ)
    (datasetParts : List (TPool τ)) :
    additivePass env plotParams calcOnParts metrics labelConverter datasetParts =
      if HasAdditiveMetric metrics then
        ReadAndProceedPoolInBlocks env plotParams.ReadBlockSize
            (additiveCallback env calcOnParts metrics labelConverter) datasetParts
          >>= fun datasetParts =>
            call env .FinishProceedDataSetForAdditiveMetrics >>= fun _ =>
              TRun.pure datasetParts
      else TRun.pure datasetParts := rfl

theorem Follows_additiveCallback (env : TEnvironment τ) (calcOnParts : Bool)
    (metrics : List TMetric) (labelConverter : TLabelConverter τ) (poolPart : TPool τ)
    (datasetParts : List (TPool τ)) :
    TRun.Follows (additiveCallback env calcOnParts metrics labelConverter poolPart datasetParts)
      [.ProceedDataSetForAdditiveMetrics (preprocessPool labelConverter poolPart)
        (!(preprocessPool labelConverter poolPart).QueryId.isEmpty)]
      (if HasNonAdditiveMetric metrics && !calcOnParts then
        datasetParts ++ [preprocessPool labelConverter poolPart]
      else datasetParts) := by
  unfold additiveCallback
  have h := Follows_bind (call env (.ProceedDataSetForAdditiveMetrics
      (preprocessPool labelConverter poolPart)
      (!(preprocessPool labelConverter poolPart).QueryId.isEmpty)))
    (fun _ => if HasNonAdditiveMetric metrics && !calcOnParts then
        (TRun.pure (datasetParts ++ [preprocessPool labelConverter poolPart]) :
          TRun (TEvent τ) (List (TPool τ)))
      else TRun.pure datasetParts) [_] [] () _ (Follows_call env _)
    (by
      show TRun.Follows (if HasNonAdditiveMetric metrics && !calcOnParts then
          (TRun.pure (datasetParts ++ [preprocessPool labelConverter poolPart]) :
            TRun (TEvent τ) (List (TPool τ)))
        else TRun.pure datasetParts) [] (if HasNonAdditiveMetric metrics && !calcOnParts then
          datasetParts ++ [preprocessPool labelConverter poolPart]
        else datasetParts)
      split <;> exact Follows_pure _)
  simpa using h

theorem foldl_retain (cond : Bool) (labelConverter : TLabelConverter τ)
    (blocks datasetParts : List (TPool τ)) :
    blocks.foldl (fun datasetParts poolPart =>
        if cond then datasetParts ++ [preprocessPool labelConverter poolPart]
        else datasetParts) datasetParts
      = datasetParts ++ (if cond then blocks.map (preprocessPool labelConverter) else []) := by
  induction blocks generalizing datasetParts with
  | nil => cases cond <;> simp
  | cons poolPart rest ih =>
    rw [List.foldl_cons, ih]
    cases cond <;> simp

theorem Follows_additivePass (env : TEnvironment τ) (plotParams : TModeEvalMetricsParams)
    (calcOnParts : Bool) (metrics : List TMetric) (labelConverter : TLabelConverter τ)
    (datasetParts : List (TPool τ)) :
    TRun.Follows (additivePass env plotParams calcOnParts metrics labelConverter datasetParts)
      (additivePlan env plotParams metrics labelConverter)
      (datasetParts ++ retainedParts env plotParams calcOnParts metrics labelConverter) := by
  rw [additivePass_eq]
  unfold additivePlan retainedParts
  cases hadd : HasAdditiveMetric metrics
  · simpa using Follows_pure datasetParts
  · simp only [if_true, Bool.true_and]
    refine Follows_bind _ _ _ _ _ _
      (Follows_ReadAndProceedPoolInBlocks env plotParams.ReadBlockSize _ _ _
        (fun poolPart s => Follows_additiveCallback env calcOnParts metrics labelConverter
          poolPart s) datasetParts) ?_
    rw [foldl_retain]
    have h := Follows_bind (call env .FinishProceedDataSetForAdditiveMetrics)
      (fun _ => (TRun.pure (datasetParts ++
        if (HasNonAdditiveMetric metrics && !calcOnParts) = true then
          List.map (preprocessPool labelConverter) (env.Blocks plotParams.ReadBlockSize)
        else []) : TRun (TEvent τ) (List (TPool τ)))) [_] [] () _
      (Follows_call env _) (Follows_pure _)
    simpa using h

theorem Follows_ReadDatasetParts (env : TEnvironment τ) (blockSize : Int)
    (labelConverter : TLabelConverter τ) (datasetParts : List (TPool τ)) :
    TRun.Follows (ReadDatasetParts env blockSize labelConverter datasetParts)
      (streamPlan env blockSize (fun _ => []))
      (datasetParts ++ (env.Blocks blockSize).map (preprocessPool labelConverter)) := by
  unfold ReadDatasetParts
  have h := Follows_ReadAndProceedPoolInBlocks env blockSize
    (fun poolPart datasetParts =>
      (TRun.pure (datasetParts ++ [preprocessPool labelConverter poolPart]) :
        TRun (TEvent τ) (List (TPool τ))))
    (fun _ => []) (fun datasetParts poolPart =>
      if true then datasetParts ++ [preprocessPool labelConverter poolPart] else datasetParts)
    (fun poolPart s => by simpa using Follows_pure (s ++ [preprocessPool labelConverter poolPart]))
    datasetParts
  rw [foldl_retain] at h
  simpa using h

theorem Follows_calcOnWhole (env : TEnvironment τ) (plotParams : TModeEvalMetricsParams)
    (calcOnParts : Bool) (metrics : List TMetric) (labelConverter : TLabelConverter τ)
    (datasetParts : List (TPool τ)) :
    TRun.Follows (calcOnWhole env plotParams calcOnParts metrics labelConverter datasetParts)
      (calcOnWholePlan env plotParams calcOnParts metrics labelConverter datasetParts) () := by
  unfold calcOnWhole calcOnWholePlan
  cases hsel : (HasNonAdditiveMetric metrics && !calcOnParts)
  · simpa using Follows_pure ()
  · simp only [if_true]
    cases hE : datasetParts.isEmpty
    · simp only [Bool.false_eq_true, if_false]
      have h := Follows_bind (TRun.pure datasetParts : TRun (TEvent τ) (List (TPool τ)))
        (fun datasetParts => call env (.ComputeNonAdditiveMetrics datasetParts)) [] [_] _ ()
        (Follows_pure _) (Follows_call env _)
      simpa using h
    · simp only [if_true]
      exact Follows_bind _ _ _ [_] _ () (Follows_ReadDatasetParts env _ labelConverter _)
        (Follows_call env _)

theorem Emits_of_Follows {ε α : Type} (Q : ε → Prop) (m : TRun ε α) (plan : List ε)
    (value : α) (h : TRun.Follows m plan value) (hQ : ∀ event ∈ plan, Q event) :
    TRun.Emits Q m := by
  intro trace
  obtain ⟨⟨done, rest, hplan, htrace⟩, -⟩ := h trace
  refine ⟨done, htrace, ?_⟩
  intro event hevent
  exact hQ event (by rw [hplan]; exact List.mem_append_left _ hevent)

theorem Returns_of_Follows {ε α : Type} (m : TRun ε α) (plan : List ε) (value : α)
    (h : TRun.Follows m plan value) : TRun.Returns (fun v => v = value) m := by
  intro trace trace1 v hv
  exact ((h trace).2 trace1 v hv).2

theorem Emits_bind_returns {ε α β : Type} (Q : ε → Prop) (P : α → Prop) (m : TRun ε α)
    (f : α → TRun ε β) (hm : TRun.Emits Q m) (hP : TRun.Returns P m)
    (hf : ∀ value, P value → TRun.Emits Q (f value)) : TRun.Emits Q (m >>= f) := by
  intro trace
  obtain ⟨added, hadded, hQ⟩ := hm trace
  cases hmt : m trace with
  | ok trace1 value =>
    rw [bind_apply_ok m f hmt]
    rw [hmt] at hadded
    simp only [TOutcome.trace] at hadded
    obtain ⟨added2, hadded2, hQ2⟩ := hf value (hP trace trace1 value hmt) trace1
    refine ⟨added ++ added2, by rw [hadded2, hadded, List.append_assoc], ?_⟩
    intro event hevent
    rcases List.mem_append.mp hevent with h | h
    · exact hQ event h
    · exact hQ2 event h
  | failed trace1 message =>
    rw [bind_apply_failed m f hmt]
    rw [hmt] at hadded
    exact ⟨added, hadded, hQ⟩
  | unfinished trace1 =>
    rw [bind_apply_unfinished m f hmt]
    rw [hmt] at hadded
    exact ⟨added, hadded, hQ⟩

theorem mem_streamPlan (env : TEnvironment τ) (blockSize : Int)
    (perBlock : TPool τ → List (TEvent τ)) (event : TEvent τ)
    (h : event ∈ streamPlan env blockSize perBlock) :
    event = .ReadAndProceedPoolInBlocks blockSize
      ∨ ∃ poolPart ∈ env.Blocks blockSize,
        event = .BlockRead poolPart ∨ event ∈ perBlock poolPart := by
  unfold streamPlan at h
  rcases List.mem_cons.mp h with h | h
  · exact Or.inl h
  · right
    obtain ⟨l, hl, hevent⟩ := List.mem_flatten.mp h
    obtain ⟨poolPart, hpool, rfl⟩ := List.mem_map.mp hl
    exact ⟨poolPart, hpool, List.mem_cons.mp hevent⟩

theorem expected_additivePlan (env : TEnvironment τ) (plotParams : TModeEvalMetricsParams)
    (calcOnParts : Bool) (metrics : List TMetric) (labelConverter : TLabelConverter τ) :
    ∀ event ∈ additivePlan env plotParams metrics labelConverter,
      event.expected env plotParams calcOnParts metrics labelConverter := by
  intro event hevent
  unfold additivePlan at hevent
  split at hevent
  · rename_i hadd
    rcases List.mem_append.mp hevent with h | h
    · rcases mem_streamPlan env _ _ event h with h | ⟨poolPart, hpool, h | h⟩
      · subst h
        rfl
      · subst h
        exact hpool
      · simp only [List.mem_singleton] at h
        subst h
        exact ⟨hadd, poolPart, hpool, rfl, rfl⟩
    · simp only [List.mem_singleton] at h
      subst h
      exact hadd
  · simp at hevent

theorem expected_calcOnWholePlan (env : TEnvironment τ) (plotParams : TModeEvalMetricsParams)
    (calcOnParts : Bool) (metrics : List TMetric) (labelConverter : TLabelConverter τ) :
    ∀ event ∈ calcOnWholePlan env plotParams calcOnParts metrics labelConverter
        (retainedParts env plotParams calcOnParts metrics labelConverter),
      event.expected env plotParams calcOnParts metrics labelConverter := by
  intro event hevent
  unfold calcOnWholePlan at hevent
  split at hevent
  · rename_i hsel
    split at hevent
    · rename_i hE
      rcases List.mem_append.mp hevent with h | h
      · rcases mem_streamPlan env _ _ event h with h | ⟨poolPart, hpool, h | h⟩
        · subst h
          rfl
        · subst h
          exact hpool
        · simp at h
      · simp only [List.mem_singleton] at h
        subst h
        refine ⟨hsel, ?_⟩
        have : retainedParts env plotParams calcOnParts metrics labelConverter = [] := by
          simpa using hE
        rw [this, List.nil_append]
    · rename_i hE
      simp only [List.mem_singleton] at hevent
      subst hevent
      refine ⟨hsel, ?_⟩
      unfold retainedParts at hE ⊢
      split
      · rfl
      · rename_i hno
        rw [if_neg hno] at hE
        simp at hE
  · simp at hevent

theorem Emits_expected_calcOnPartsLoop (env : TEnvironment τ)
    (plotParams : TModeEvalMetricsParams) (calcOnParts : Bool) (metrics : List TMetric)
    (labelConverter : TLabelConverter τ)
    (hsel : (HasNonAdditiveMetric metrics && calcOnParts) = true) (rounds : Nat) :
    TRun.Emits (TEvent.expected env plotParams calcOnParts metrics labelConverter)
      (calcOnPartsLoop env plotParams labelConverter rounds) := by
  induction rounds with
  | zero =>
    intro trace
    refine ⟨[], ?_, by simp⟩
    unfold calcOnPartsLoop
    split <;> simp [TOutcome.trace]
  | succ rounds ih =>
    intro trace
    unfold calcOnPartsLoop
    split
    · exact ⟨[], by simp [TOutcome.trace], by simp⟩
    · refine Emits_bind _ _ _ ?_ (fun _ => ?_) trace
      · refine Emits_of_Follows _ _ _ _
          (Follows_ReadAndProceedPoolInBlocks env plotParams.ReadBlockSize _
            (fun poolPart =>
              [.ProceedDataSetForNonAdditiveMetrics (preprocessPool labelConverter poolPart)])
            (fun _ _ => ()) (fun poolPart _ => Follows_call env _) ()) ?_
        intro event hevent
        rcases mem_streamPlan env _ _ event hevent with h | ⟨poolPart, hpool, h | h⟩
        · subst h
          rfl
        · subst h
          exact hpool
        · simp only [List.mem_singleton] at h
          subst h
          exact ⟨hsel, poolPart, hpool, rfl⟩
      · exact Emits_bind _ _ _ (Emits_call _ env _ hsel) (fun _ => ih)

/-- Every call of the metric passes is an expected one. -/
theorem Emits_expected_strategyPasses (env : TEnvironment τ)
    (plotParams : TModeEvalMetricsParams) (calcOnParts : Bool) (metrics : List TMetric)
    (labelConverter : TLabelConverter τ) :
    TRun.Emits (TEvent.expected env plotParams calcOnParts metrics labelConverter)
      (strategyPasses env calcOnParts plotParams metrics labelConverter) := by
  unfold strategyPasses
  refine Emits_bind_returns _ _ _ _
    (Emits_of_Follows _ _ _ _
      (Follows_additivePass env plotParams calcOnParts metrics labelConverter [])
      (expected_additivePlan env plotParams calcOnParts metrics labelConverter))
    (Returns_of_Follows _ _ _
      (Follows_additivePass env plotParams calcOnParts metrics labelConverter [])) ?_
  intro datasetParts hparts
  rw [List.nil_append] at hparts
  subst hparts
  refine Emits_bind _ _ _ ?_ (fun _ => ?_)
  · split
    · rename_i hsel
      exact Emits_expected_calcOnPartsLoop env plotParams calcOnParts metrics labelConverter
        hsel _
    · exact Emits_pure _ _
  · exact Emits_of_Follows _ _ _ _
      (Follows_calcOnWhole env plotParams calcOnParts metrics labelConverter _)
      (expected_calcOnWholePlan env plotParams calcOnParts metrics labelConverter)

theorem metricPasses_eq (env : TEnvironment τ) (args : TArguments)
    (plotParams : TModeEvalMetricsParams) (metrics : List TMetric)
    (labelConverter : TLabelConverter τ) :
    metricPasses env args plotParams metrics labelConverter =
      strategyPasses env args.calcOnParts plotParams metrics labelConverter >>= fun _ =>
        call env (.SaveResult plotParams.ResultDirectory args.OutputPath true args.saveStats)
          >>= fun _ => call env .ClearTempFiles >>= fun _ => TRun.pure 0 := by
  unfold metricPasses strategyPasses
  simp only [TRun_bind_assoc]

theorem throw_bind {ε α β : Type} (message : String) (f : α → TRun ε β) :
    (TRun.throw message : TRun ε α) >>= f = TRun.throw message := by
  funext trace
  rfl

/-- The run is the statements before `SaveResult` followed by `SaveResult` and
`ClearTempFiles`. -/
theorem mode_eval_metrics_eq_steps (env : TEnvironment τ) (args : TArguments) :
    mode_eval_metrics env args =
      stepsBeforeSaveResult env args >>= fun plotParams =>
        call env (.SaveResult plotParams.ResultDirectory args.OutputPath true args.saveStats)
          >>= fun _ => call env .ClearTempFiles >>= fun _ => TRun.pure 0 := by
  unfold mode_eval_metrics stepsBeforeSaveResult
  simp only [TRun_bind_assoc]
  congr 1
  funext _
  cases env.ReadModel with
  | error message => simp only [throw_bind]
  | ok model =>
    simp only [TRun_bind_assoc, metricPasses_eq, TRun_pure_bind]

theorem Emits_CB_ENSURE {ε : Type} (Q : ε → Prop) (condition : Bool) (message : String) :
    TRun.Emits Q (CB_ENSURE condition message : TRun ε Unit) := by
  unfold CB_ENSURE
  split
  · exact Emits_pure _ _
  · exact Emits_throw _ _

theorem Emits_CreateMetrics (Q : TEvent τ → Prop) (env : TEnvironment τ)
    (plotParams : TModeEvalMetricsParams) (approxDim : Int)
    (hQ : ∀ metricsDescription, Q (.CreateMetricsFromDescription metricsDescription approxDim)) :
    TRun.Emits Q (CreateMetrics env plotParams approxDim) := by
  unfold CreateMetrics
  refine Emits_bind _ _ _ (Emits_CB_ENSURE _ _ _) (fun _ => ?_)
  refine Emits_bind _ _ _ (Emits_record _ _ (hQ _)) (fun _ => ?_)
  split
  · exact Emits_pure _ _
  · exact Emits_throw _ _

/-- Every call made before `SaveResult` satisfies a property that holds of the model
reading, of the creation of the metrics and of the plot calcer, and of the expected calls
of the metric passes. -/
theorem Emits_stepsBeforeSaveResult (Q : TEvent τ → Prop) (env : TEnvironment τ)
    (args : TArguments) (hRM : Q .ReadModel)
    (hCMFD : ∀ metricsDescription approxDim,
      Q (.CreateMetricsFromDescription metricsDescription approxDim))
    (hCMC : ∀ f e s p t m, Q (.CreateMetricCalcer f e s p t m))
    (hpass : ∀ plotParams metrics labelConverter event,
      TEvent.expected env plotParams args.calcOnParts metrics labelConverter event → Q event) :
    TRun.Emits Q (stepsBeforeSaveResult env args) := by
  unfold stepsBeforeSaveResult
  refine Emits_bind _ _ _ (Emits_record _ _ hRM) (fun _ => ?_)
  cases env.ReadModel with
  | error message => exact Emits_throw _ _
  | ok model =>
    refine Emits_bind _ _ _ (Emits_CB_ENSURE _ _ _) (fun _ => ?_)
    refine Emits_bind _ _ _ (Emits_CreateMetrics _ env _ _ (fun _ => hCMFD _ _)) (fun _ => ?_)
    refine Emits_bind _ _ _ (Emits_call _ env _ (hCMC _ _ _ _ _ _)) (fun _ => ?_)
    refine Emits_bind _ _ _ ?_ (fun _ => Emits_pure _ _)
    exact (Emits_expected_strategyPasses env _ args.calcOnParts _ _).mono
      (fun event h => hpass _ _ _ event h)

theorem expected_not_save (env : TEnvironment τ) (plotParams : TModeEvalMetricsParams)
    (calcOnParts : Bool) (metrics : List TMetric) (labelConverter : TLabelConverter τ)
    (event : TEvent τ)
    (h : event.expected env plotParams calcOnParts metrics labelConverter) :
    event.isSaveResult = false ∧ event.isClearTempFiles = false := by
  cases event <;> simp [TEvent.expected, TEvent.isSaveResult, TEvent.isClearTempFiles] at h ⊢

/-- C11, partial results are never written: in every run `SaveResult` and
`ClearTempFiles` are each invoked at most once; when either is invoked, the statements
before `SaveResult` (model check, creation of the metrics and of the plot calcer, additive
pass and selected non-additive strategy) have returned, without a `SaveResult` or
`ClearTempFiles` call, and `SaveResult` is the next call; when those statements fail or do
not finish, the run ends the same way and has invoked neither. -/
theorem partial_results_never_written (env : TEnvironment τ) (args : TArguments) :
    (mode_eval_metrics env args []).trace.countP TEvent.isSaveResult ≤ 1
    ∧ (mode_eval_metrics env args []).trace.countP TEvent.isClearTempFiles ≤ 1
    ∧ (∀ event ∈ (mode_eval_metrics env args []).trace,
        event.isSaveResult = true ∨ event.isClearTempFiles = true →
        ∃ trace1 plotParams rest,
          stepsBeforeSaveResult env args [] = .ok trace1 plotParams
          ∧ (∀ e ∈ trace1, e.isSaveResult = false ∧ e.isClearTempFiles = false)
          ∧ (mode_eval_metrics env args []).trace
            = trace1 ++ .SaveResult plotParams.ResultDirectory args.OutputPath true
                args.saveStats :: rest
          ∧ (rest = [] ∨ rest = [.ClearTempFiles]))
    ∧ (∀ trace1 message, stepsBeforeSaveResult env args [] = .failed trace1 message →
        mode_eval_metrics env args [] = .failed trace1 message
        ∧ ∀ e ∈ trace1, e.isSaveResult = false ∧ e.isClearTempFiles = false)
    ∧ (∀ trace1, stepsBeforeSaveResult env args [] = .unfinished trace1 →
        mode_eval_metrics env args [] = .unfinished trace1
        ∧ ∀ e ∈ trace1, e.isSaveResult = false ∧ e.isClearTempFiles = false) := by
  have hemits := Emits_stepsBeforeSaveResult
    (fun e : TEvent τ => e.isSaveResult = false ∧ e.isClearTempFiles = false) env args
    ⟨rfl, rfl⟩ (fun _ _ => ⟨rfl, rfl⟩) (fun _ _ _ _ _ _ => ⟨rfl, rfl⟩)
    (fun plotParams metrics labelConverter event h =>
      expected_not_save env plotParams args.calcOnParts metrics labelConverter event h)
  obtain ⟨added, hadded, hfree⟩ := hemits []
  rw [List.nil_append] at hadded
  have hsave0 : ∀ l : List (TEvent τ),
      (∀ e ∈ l, e.isSaveResult = false ∧ e.isClearTempFiles = false) →
      l.countP TEvent.isSaveResult = 0 ∧ l.countP TEvent.isClearTempFiles = 0 := by
    intro l hl
    constructor
    · rw [List.countP_eq_zero]
      intro e he
      simp [(hl e he).1]
    · rw [List.countP_eq_zero]
      intro e he
      simp [(hl e he).2]
  rw [mode_eval_metrics_eq_steps]
  cases hsteps : stepsBeforeSaveResult env args [] with
  | failed trace1 message =>
    rw [hsteps] at hadded
    simp only [TOutcome.trace] at hadded
    subst hadded
    rw [bind_apply_failed _ _ hsteps]
    simp only [TOutcome.trace]
    refine ⟨by rw [(hsave0 _ hfree).1]; omega, by rw [(hsave0 _ hfree).2]; omega, ?_, ?_, ?_⟩
    · intro event hevent hkind
      have := hfree event hevent
      rcases hkind with h | h
      · rw [this.1] at h
        cases h
      · rw [this.2] at h
        cases h
    · intro t m h
      injection h with h1 h2
      subst h1 h2
      exact ⟨rfl, hfree⟩
    · intro t h
      cases h
  | unfinished trace1 =>
    rw [hsteps] at hadded
    simp only [TOutcome.trace] at hadded
    subst hadded
    rw [bind_apply_unfinished _ _ hsteps]
    simp only [TOutcome.trace]
    refine ⟨by rw [(hsave0 _ hfree).1]; omega, by rw [(hsave0 _ hfree).2]; omega, ?_, ?_, ?_⟩
    · intro event hevent hkind
      have := hfree event hevent
      rcases hkind with h | h
      · rw [this.1] at h
        cases h
      · rw [this.2] at h
        cases h
    · intro t m h
      cases h
    · intro t h
      injection h with h1
      subst h1
      exact ⟨rfl, hfree⟩
  | ok trace1 plotParams =>
    rw [hsteps] at hadded
    simp only [TOutcome.trace] at hadded
    subst hadded
    rw [bind_apply_ok _ _ hsteps]
    have hshape : ∃ rest,
        ((call env (.SaveResult plotParams.ResultDirectory args.OutputPath true args.saveStats)
          >>= fun _ => call env .ClearTempFiles >>= fun _ =>
            (TRun.pure 0 : TRun (TEvent τ) Int)) trace1).trace
          = trace1 ++ .SaveResult plotParams.ResultDirectory args.OutputPath true
              args.saveStats :: rest
        ∧ (rest = [] ∨ rest = [.ClearTempFiles]) := by
      cases hT : env.Throws (trace1 ++ [.SaveResult plotParams.ResultDirectory
          args.OutputPath true args.saveStats]) with
      | some message =>
        rw [bind_apply_failed _ _ (call_throws env _ _ message hT)]
        exact ⟨[], rfl, Or.inl rfl⟩
      | none =>
        rw [bind_apply_ok _ _ (call_returns env _ _ hT)]
        refine ⟨[.ClearTempFiles], ?_, Or.inr rfl⟩
        cases hT2 : env.Throws (trace1 ++ [.SaveResult plotParams.ResultDirectory
            args.OutputPath true args.saveStats] ++ [.ClearTempFiles]) with
        | some message =>
          rw [bind_apply_failed _ _ (call_throws env _ _ message hT2)]
          simp [TOutcome.trace]
        | none =>
          rw [bind_apply_ok _ _ (call_returns env _ _ hT2)]
          simp [TOutcome.trace, TRun.pure]
    obtain ⟨rest, hrest, hcases⟩ := hshape
    rw [hrest]
    refine ⟨?_, ?_, ?_, ?_, ?_⟩
    · rw [List.countP_append, (hsave0 _ hfree).1]
      rcases hcases with h | h <;> subst h <;> simp [List.countP_cons, TEvent.isSaveResult]
    · rw [List.countP_append, (hsave0 _ hfree).2]
      rcases hcases with h | h <;> subst h <;>
        simp [List.countP_cons, TEvent.isClearTempFiles]
    · intro event _ _
      exact ⟨trace1, plotParams, rest, rfl, hfree, rfl, hcases⟩
    · intro t m h
      cases h
    · intro t h
      cases h

theorem resolvePlotParams_MetricsDescription (env : TEnvironment τ) (model : TFullModel)
    (plotParams : TModeEvalMetricsParams) :
    (resolvePlotParams env model plotParams).MetricsDescription
      = plotParams.MetricsDescription := by
  unfold resolvePlotParams
  simp only
  split <;> split <;> rfl

theorem resolvePlotParams_ReadBlockSize (env : TEnvironment τ) (model : TFullModel)
    (plotParams : TModeEvalMetricsParams) :
    (resolvePlotParams env model plotParams).ReadBlockSize = plotParams.ReadBlockSize := by
  unfold resolvePlotParams
  simp only
  split <;> split <;> rfl

/-- A run either fails before the plot calcer is created, having made none of the calls of
the passes, or it is the metric passes run after the model reading, the creation of the
metrics and the creation of the plot calcer. -/
theorem mode_eval_metrics_passes (env : TEnvironment τ) (args : TArguments) :
    (∃ trace message, mode_eval_metrics env args [] = .failed trace message
      ∧ ∀ event ∈ trace, event.isPassEvent = false)
    ∨ ∃ model metrics, env.ReadModel = .ok model
      ∧ env.CreateMetricsFromDescription
          (metricsDescriptionOf args.plotParams.MetricsDescription)
          model.ObliviousTrees.ApproxDimension = .ok metrics
      ∧ mode_eval_metrics env args [] =
        metricPasses env args (resolvePlotParams env model args.plotParams) metrics
          (env.BuildLabelsHelper model)
          [.ReadModel, .CreateMetricsFromDescription
            (metricsDescriptionOf args.plotParams.MetricsDescription)
            model.ObliviousTrees.ApproxDimension,
            .CreateMetricCalcer (resolvePlotParams env model args.plotParams).FirstIteration
              (resolvePlotParams env model args.plotParams).EndIteration
              (resolvePlotParams env model args.plotParams).Step 50
              (resolvePlotParams env model args.plotParams).TmpDir metrics] := by
  cases hmodel : env.ReadModel with
  | error message =>
    left
    refine ⟨[.ReadModel], message, ?_, by simp [TEvent.isPassEvent]⟩
    simp [mode_eval_metrics, bind, TRun.bind, record, hmodel, TRun.throw]
  | ok model =>
    rw [mode_eval_metrics_eq env args model hmodel]
    split
    · have hCM := CreateMetrics_eq env (resolvePlotParams env model args.plotParams)
        model.ObliviousTrees.ApproxDimension [.ReadModel]
      rw [resolvePlotParams_MetricsDescription] at hCM
      by_cases hE : (metricsDescriptionOf args.plotParams.MetricsDescription).isEmpty = true
      · rw [if_pos hE] at hCM
        rw [bind_apply_failed _ _ hCM]
        left
        exact ⟨_, _, rfl, by simp [TEvent.isPassEvent]⟩
      · rw [if_neg hE] at hCM
        cases hm : env.CreateMetricsFromDescription
            (metricsDescriptionOf args.plotParams.MetricsDescription)
            model.ObliviousTrees.ApproxDimension with
        | error message =>
          rw [hm] at hCM
          rw [bind_apply_failed _ _ hCM]
          left
          exact ⟨_, _, rfl, by simp [TEvent.isPassEvent]⟩
        | ok metrics =>
          rw [hm] at hCM
          rw [bind_apply_ok _ _ hCM]
          cases hT : env.Throws ([TEvent.ReadModel] ++ [TEvent.CreateMetricsFromDescription
              (metricsDescriptionOf args.plotParams.MetricsDescription)
              model.ObliviousTrees.ApproxDimension] ++
              [TEvent.CreateMetricCalcer
                (resolvePlotParams env model args.plotParams).FirstIteration
                (resolvePlotParams env model args.plotParams).EndIteration
                (resolvePlotParams env model args.plotParams).Step 50
                (resolvePlotParams env model args.plotParams).TmpDir metrics]) with
          | some message =>
            rw [bind_apply_failed _ _ (call_throws env _ _ message hT)]
            left
            exact ⟨_, _, rfl, by simp [TEvent.isPassEvent]⟩
          | none =>
            rw [bind_apply_ok _ _ (call_returns env _ _ hT)]
            right
            exact ⟨model, metrics, rfl, hm, rfl⟩
    · left
      exact ⟨_, _, rfl, by simp [TEvent.isPassEvent]⟩

/-- Every call of the passes met in a run whose model is read is an expected call of the
metric passes for the created metrics, or the `SaveResult` or `ClearTempFiles` call. -/
theorem mode_eval_metrics_calls (env : TEnvironment τ) (args : TArguments) (model : TFullModel)
    (hmodel : env.ReadModel = .ok model) (event : TEvent τ)
    (hevent : event ∈ (mode_eval_metrics env args []).trace)
    (hpass : event.isPassEvent = true) :
    ∃ metrics, env.CreateMetricsFromDescription
        (metricsDescriptionOf args.plotParams.MetricsDescription)
        model.ObliviousTrees.ApproxDimension = .ok metrics
      ∧ (event.expected env (resolvePlotParams env model args.plotParams) args.calcOnParts
          metrics (env.BuildLabelsHelper model)
        ∨ event.isSaveResult = true ∨ event.isClearTempFiles = true) := by
  rcases mode_eval_metrics_passes env args with ⟨trace, message, hrun, hnone⟩ |
    ⟨model1, metrics, hmodel1, hmetrics, hrun⟩
  · rw [hrun] at hevent
    rw [hnone event hevent] at hpass
    cases hpass
  · rw [hmodel] at hmodel1
    injection hmodel1 with hmodel1
    subst hmodel1
    refine ⟨metrics, hmetrics, ?_⟩
    rw [hrun, metricPasses_eq] at hevent
    have hemits : TRun.Emits (fun e : TEvent τ =>
        e.expected env (resolvePlotParams env model args.plotParams) args.calcOnParts
          metrics (env.BuildLabelsHelper model)
        ∨ e.isSaveResult = true ∨ e.isClearTempFiles = true)
        (strategyPasses env args.calcOnParts (resolvePlotParams env model args.plotParams)
          metrics (env.BuildLabelsHelper model) >>= fun _ =>
          call env (.SaveResult (resolvePlotParams env model args.plotParams).ResultDirectory
            args.OutputPath true args.saveStats)
            >>= fun _ => call env .ClearTempFiles >>= fun _ => (TRun.pure 0 : TRun _ Int)) := by
      refine Emits_bind _ _ _
        ((Emits_expected_strategyPasses env _ args.calcOnParts metrics _).mono
          (fun e h => Or.inl h)) (fun _ => ?_)
      refine Emits_bind _ _ _ (Emits_call _ env _ (Or.inr (Or.inl rfl))) (fun _ => ?_)
      exact Emits_bind _ _ _ (Emits_call _ env _ (Or.inr (Or.inr rfl)))
        (fun _ => Emits_pure _ _)
    obtain ⟨added, hadded, hQ⟩ := hemits _
    rw [hadded] at hevent
    rcases List.mem_append.mp hevent with h | h
    · simp only [List.mem_cons, List.mem_singleton, List.not_mem_nil, or_false] at h
      rcases h with h | h | h <;> subst h <;> simp [TEvent.isPassEvent] at hpass
    · exact hQ event h

/-- C12, calc-on-whole completeness: in a run whose model is read, the block list passed
to `ComputeNonAdditiveMetrics` is the sequence of all blocks of the dataset in dataset
order, each once and with its target preprocessed, whether the blocks were retained in the
additive pass or read by `ReadDatasetParts`; the call is made only when there is a
non-additive metric and `calcOnParts` is false. -/
theorem calc_on_whole_completeness (env : TEnvironment τ) (args : TArguments)
    (model : TFullModel) (hmodel : env.ReadModel = .ok model) (datasetParts : List (TPool τ))
    (hcall : TEvent.ComputeNonAdditiveMetrics datasetParts
      ∈ (mode_eval_metrics env args []).trace) :
    datasetParts = (env.Blocks args.plotParams.ReadBlockSize).map
        (preprocessPool (env.BuildLabelsHelper model))
    ∧ datasetParts.length = (env.Blocks args.plotParams.ReadBlockSize).length
    ∧ datasetParts.map TPool.Features
      = (env.Blocks args.plotParams.ReadBlockSize).map TPool.Features
    ∧ datasetParts.map TPool.QueryId
      = (env.Blocks args.plotParams.ReadBlockSize).map TPool.QueryId
    ∧ args.calcOnParts = false
    ∧ ∃ metrics, env.CreateMetricsFromDescription
        (metricsDescriptionOf args.plotParams.MetricsDescription)
        model.ObliviousTrees.ApproxDimension = .ok metrics
      ∧ HasNonAdditiveMetric metrics = true := by
  obtain ⟨metrics, hmetrics, h⟩ := mode_eval_metrics_calls env args model hmodel _ hcall rfl
  rcases h with h | h | h
  · obtain ⟨hsel, hparts⟩ := h
    rw [resolvePlotParams_ReadBlockSize] at hparts
    have hsel2 : HasNonAdditiveMetric metrics = true ∧ args.calcOnParts = false := by
      simpa using hsel
    refine ⟨hparts, by rw [hparts, List.length_map], ?_, ?_, hsel2.2, metrics, hmetrics, hsel2.1⟩
    · rw [hparts, List.map_map]
      rfl
    · rw [hparts, List.map_map]
      rfl
  · cases h
  · cases h

/-- C12 on two concrete runs: with the metrics "Logloss,AUC" the blocks are retained in the
additive pass, with the metric "AUC" alone they are read by `ReadDatasetParts`; both times
the list passed is the two blocks of the dataset. -/
theorem calc_on_whole_completeness_witness :
    ([⟨[0, 1], [], []⟩, ⟨[1], [], []⟩] : List (TPool Int))
      = ((exampleEnvironment (exampleModel 10 0)).Blocks
          (exampleArguments 0 0 false false).plotParams.ReadBlockSize).map
        (preprocessPool ((exampleEnvironment (exampleModel 10 0)).BuildLabelsHelper
          (exampleModel 10 0)))
    ∧ ([⟨[0, 1], [], []⟩, ⟨[1], [], []⟩] : List (TPool Int))
      = ((exampleEnvironment (exampleModel 10 0)).Blocks
          nonAdditiveArguments.plotParams.ReadBlockSize).map
        (preprocessPool ((exampleEnvironment (exampleModel 10 0)).BuildLabelsHelper
          (exampleModel 10 0))) :=
  ⟨(calc_on_whole_completeness (exampleEnvironment (exampleModel 10 0))
      (exampleArguments 0 0 false false) (exampleModel 10 0) rfl
      [⟨[0, 1], [], []⟩, ⟨[1], [], []⟩] (by decide)).1,
    (calc_on_whole_completeness (exampleEnvironment (exampleModel 10 0))
      nonAdditiveArguments (exampleModel 10 0) rfl
      [⟨[0, 1], [], []⟩, ⟨[1], [], []⟩] (by decide)).1⟩

/-- C14, target preprocessing: in a run whose model is read, every block handed to
`ProceedDataSetForAdditiveMetrics` or to `ProceedDataSetForNonAdditiveMetrics` is a block
of the dataset with `PreprocessTarget` applied once to its targets, the list handed to
`ComputeNonAdditiveMetrics` consists of all blocks so preprocessed, the rest of a block is
unchanged, and `PreprocessTarget` gives the compressed targets when the label converter is
initialized and the raw targets otherwise. -/
theorem target_preprocessing (env : TEnvironment τ) (args : TArguments) (model : TFullModel)
    (hmodel : env.ReadModel = .ok model) :
    (∀ poolPart isProcessBoundaryGroups,
      TEvent.ProceedDataSetForAdditiveMetrics poolPart isProcessBoundaryGroups
          ∈ (mode_eval_metrics env args []).trace →
        ∃ raw ∈ env.Blocks args.plotParams.ReadBlockSize,
          poolPart = preprocessPool (env.BuildLabelsHelper model) raw)
    ∧ (∀ poolPart,
      TEvent.ProceedDataSetForNonAdditiveMetrics poolPart
          ∈ (mode_eval_metrics env args []).trace →
        ∃ raw ∈ env.Blocks args.plotParams.ReadBlockSize,
          poolPart = preprocessPool (env.BuildLabelsHelper model) raw)
    ∧ (∀ datasetParts,
      TEvent.ComputeNonAdditiveMetrics datasetParts ∈ (mode_eval_metrics env args []).trace →
        datasetParts = (env.Blocks args.plotParams.ReadBlockSize).map
          (preprocessPool (env.BuildLabelsHelper model)))
    ∧ (∀ raw : TPool τ,
      (preprocessPool (env.BuildLabelsHelper model) raw).Target
          = PreprocessTarget (env.BuildLabelsHelper model) raw.Target
        ∧ (preprocessPool (env.BuildLabelsHelper model) raw).QueryId = raw.QueryId
        ∧ (preprocessPool (env.BuildLabelsHelper model) raw).Features = raw.Features)
    ∧ (∀ targets : List τ,
      PreprocessTarget (env.BuildLabelsHelper model) targets
        = if (env.BuildLabelsHelper model).IsInitialized then
            (env.BuildLabelsHelper model).PrepareTargetCompressed targets
          else targets) := by
  refine ⟨?_, ?_, ?_, fun raw => ⟨rfl, rfl, rfl⟩, fun targets => rfl⟩
  · intro poolPart flag hcall
    obtain ⟨metrics, -, h⟩ := mode_eval_metrics_calls env args model hmodel _ hcall rfl
    rcases h with h | h | h
    · obtain ⟨-, raw, hraw, hpool, -⟩ := h
      rw [resolvePlotParams_ReadBlockSize] at hraw
      exact ⟨raw, hraw, hpool⟩
    · cases h
    · cases h
  · intro poolPart hcall
    obtain ⟨metrics, -, h⟩ := mode_eval_metrics_calls env args model hmodel _ hcall rfl
    rcases h with h | h | h
    · obtain ⟨-, raw, hraw, hpool⟩ := h
      rw [resolvePlotParams_ReadBlockSize] at hraw
      exact ⟨raw, hraw, hpool⟩
    · cases h
    · cases h
  · intro datasetParts hcall
    obtain ⟨metrics, -, h⟩ := mode_eval_metrics_calls env args model hmodel _ hcall rfl
    rcases h with h | h | h
    · obtain ⟨-, hparts⟩ := h
      rw [resolvePlotParams_ReadBlockSize] at hparts
      exact hparts
    · cases h
    · cases h

/-- C14 on a run with an initialized label converter that doubles the targets: the block
with raw targets `[0, 1]` reaches the additive pass with targets `[0, 2]`. -/
theorem target_preprocessing_witness :
    ∃ raw ∈ (convertingEnvironment (exampleModel 10 0)).Blocks
        (exampleArguments 0 0 false true).plotParams.ReadBlockSize,
      (⟨[0, 2], [], []⟩ : TPool Int)
        = preprocessPool ((convertingEnvironment (exampleModel 10 0)).BuildLabelsHelper
            (exampleModel 10 0)) raw :=
  (target_preprocessing (convertingEnvironment (exampleModel 10 0))
    (exampleArguments 0 0 false true) (exampleModel 10 0) rfl).1
    ⟨[0, 2], [], []⟩ false (by decide)

/-- The metric passes without the calc-on-parts loop follow the plan of the additive pass
and of the calc-on-whole strategy. -/
theorem Follows_strategyPasses (env : TEnvironment τ) (plotParams : TModeEvalMetricsParams)
    (calcOnParts : Bool) (metrics : List TMetric) (labelConverter : TLabelConverter τ)
    (hloop : (HasNonAdditiveMetric metrics && calcOnParts) = false) :
    TRun.Follows (strategyPasses env calcOnParts plotParams metrics labelConverter)
      (additivePlan env plotParams metrics labelConverter
        ++ calcOnWholePlan env plotParams calcOnParts metrics labelConverter
          (retainedParts env plotParams calcOnParts metrics labelConverter)) () := by
  unfold strategyPasses
  have hadd := Follows_additivePass env plotParams calcOnParts metrics labelConverter []
  rw [List.nil_append] at hadd
  refine Follows_bind _ _ _ _ _ _ hadd ?_
  rw [hloop]
  simp only [Bool.false_eq_true, if_false]
  have h := Follows_bind (TRun.pure () : TRun (TEvent τ) Unit)
    (fun _ => calcOnWhole env plotParams calcOnParts metrics labelConverter
      (retainedParts env plotParams calcOnParts metrics labelConverter)) [] _ () ()
    (Follows_pure _)
    (Follows_calcOnWhole env plotParams calcOnParts metrics labelConverter _)
  simpa using h

/-- The passes and the saving of the result without the calc-on-parts loop follow a plan. -/
theorem Follows_metricPasses (env : TEnvironment τ) (args : TArguments)
    (plotParams : TModeEvalMetricsParams) (metrics : List TMetric)
    (labelConverter : TLabelConverter τ)
    (hloop : (HasNonAdditiveMetric metrics && args.calcOnParts) = false) :
    TRun.Follows (metricPasses env args plotParams metrics labelConverter)
      ((additivePlan env plotParams metrics labelConverter
        ++ calcOnWholePlan env plotParams args.calcOnParts metrics labelConverter
          (retainedParts env plotParams args.calcOnParts metrics labelConverter))
        ++ [.SaveResult plotParams.ResultDirectory args.OutputPath true args.saveStats,
          .ClearTempFiles]) 0 := by
  rw [metricPasses_eq]
  refine Follows_bind _ _ _ _ _ _
    (Follows_strategyPasses env plotParams args.calcOnParts metrics labelConverter hloop) ?_
  have h := Follows_bind
    (call env (.SaveResult plotParams.ResultDirectory args.OutputPath true args.saveStats))
    (fun _ => call env .ClearTempFiles >>= fun _ => (TRun.pure 0 : TRun (TEvent τ) Int))
    [_] [.ClearTempFiles] () 0 (Follows_call env _)
    (by
      have h2 := Follows_bind (call env .ClearTempFiles)
        (fun _ => (TRun.pure 0 : TRun (TEvent τ) Int)) [_] [] () 0 (Follows_call env _)
        (Follows_pure _)
      simpa using h2)
  simpa using h

theorem Follows_countP {ε α : Type} (q : ε → Bool) (m : TRun ε α) (plan : List ε) (value : α)
    (h : TRun.Follows m plan value) (trace : List ε) :
    (m trace).trace.countP q ≤ trace.countP q + plan.countP q
    ∧ ∀ trace1 v, m trace = .ok trace1 v → trace1.countP q = trace.countP q + plan.countP q := by
  obtain ⟨⟨done, rest, hplan, htrace⟩, hok⟩ := h trace
  constructor
  · rw [htrace, hplan, List.countP_append, List.countP_append]
    omega
  · intro trace1 v hv
    rw [(hok trace1 v hv).1, List.countP_append]

theorem countP_streamPlan (env : TEnvironment τ) (blockSize : Int)
    (perBlock : TPool τ → List (TEvent τ)) (q : TEvent τ → Bool)
    (hblock : ∀ poolPart, q (.BlockRead poolPart) = false)
    (hper : ∀ poolPart, ∀ event ∈ perBlock poolPart, q event = false) :
    (streamPlan env blockSize perBlock).countP q
      = if q (.ReadAndProceedPoolInBlocks blockSize) then 1 else 0 := by
  unfold streamPlan
  have h0 : (((env.Blocks blockSize).map fun poolPart =>
      TEvent.BlockRead poolPart :: perBlock poolPart).flatten).countP q = 0 := by
    rw [List.countP_eq_zero]
    intro event hevent
    obtain ⟨l, hl, hmem⟩ := List.mem_flatten.mp hevent
    obtain ⟨poolPart, -, rfl⟩ := List.mem_map.mp hl
    rcases List.mem_cons.mp hmem with h | h
    · subst h
      simp [hblock]
    · simp [hper poolPart event h]
  rw [List.countP_cons, h0]
  simp

theorem retainedParts_eq_nil_iff (env : TEnvironment τ) (plotParams : TModeEvalMetricsParams)
    (calcOnParts : Bool) (metrics : List TMetric) (labelConverter : TLabelConverter τ)
    (hsel : (HasNonAdditiveMetric metrics && !calcOnParts) = true) :
    retainedParts env plotParams calcOnParts metrics labelConverter = []
      ↔ (HasAdditiveMetric metrics = false ∨ env.Blocks plotParams.ReadBlockSize = []) := by
  unfold retainedParts
  rw [hsel]
  cases HasAdditiveMetric metrics <;> simp

theorem countP_streamStart_plan (env : TEnvironment τ) (args : TArguments)
    (plotParams : TModeEvalMetricsParams) (metrics : List TMetric)
    (labelConverter : TLabelConverter τ)
    (hsel : (HasNonAdditiveMetric metrics && !args.calcOnParts) = true) :
    ((additivePlan env plotParams metrics labelConverter
        ++ calcOnWholePlan env plotParams args.calcOnParts metrics labelConverter
          (retainedParts env plotParams args.calcOnParts metrics labelConverter))
        ++ [TEvent.SaveResult plotParams.ResultDirectory args.OutputPath true args.saveStats,
          TEvent.ClearTempFiles]).countP TEvent.isStreamStart
      = if HasAdditiveMetric metrics && (env.Blocks plotParams.ReadBlockSize).isEmpty then 2
        else 1 := by
  have hstream : ∀ perBlock : TPool τ → List (TEvent τ),
      (∀ poolPart, ∀ event ∈ perBlock poolPart, TEvent.isStreamStart event = false) →
      (streamPlan env plotParams.ReadBlockSize perBlock).countP TEvent.isStreamStart = 1 := by
    intro perBlock hper
    rw [countP_streamPlan env _ perBlock _ (fun _ => rfl) hper]
    rfl
  have hA : (additivePlan env plotParams metrics labelConverter).countP TEvent.isStreamStart
      = if HasAdditiveMetric metrics then 1 else 0 := by
    unfold additivePlan
    split
    · rw [List.countP_append, hstream _ (fun _ event h => by
        simp only [List.mem_singleton] at h
        subst h
        rfl)]
      rfl
    · rfl
  have hW : (calcOnWholePlan env plotParams args.calcOnParts metrics labelConverter
      (retainedParts env plotParams args.calcOnParts metrics labelConverter)).countP
        TEvent.isStreamStart
      = if (retainedParts env plotParams args.calcOnParts metrics labelConverter).isEmpty
        then 1 else 0 := by
    unfold calcOnWholePlan
    rw [hsel]
    simp only [if_true]
    split
    · rw [List.countP_append, hstream _ (fun _ event h => by simp at h)]
      rfl
    · rfl
  rw [List.countP_append, List.countP_append, hA, hW]
  have hR := retainedParts_eq_nil_iff env plotParams args.calcOnParts metrics labelConverter hsel
  cases hadd : HasAdditiveMetric metrics
  · have : retainedParts env plotParams args.calcOnParts metrics labelConverter = [] :=
      hR.mpr (Or.inl hadd)
    simp [this, List.countP_cons, TEvent.isStreamStart]
  · cases hblocks : env.Blocks plotParams.ReadBlockSize with
    | nil =>
      have : retainedParts env plotParams args.calcOnParts metrics labelConverter = [] :=
        hR.mpr (Or.inr hblocks)
      simp [this, List.countP_cons, TEvent.isStreamStart]
    | cons block rest =>
      have hne : retainedParts env plotParams args.calcOnParts metrics labelConverter ≠ [] := by
        intro h
        rcases hR.mp h with h1 | h1
        · rw [hadd] at h1
          cases h1
        · rw [hblocks] at h1
          cases h1
      have hE : (retainedParts env plotParams args.calcOnParts metrics labelConverter).isEmpty
          = false := by
        cases hr : retainedParts env plotParams args.calcOnParts metrics labelConverter with
        | nil => exact absurd hr hne
        | cons _ _ => rfl
      simp [hE, List.countP_cons, TEvent.isStreamStart]

/-- C13 as stated fails on a dataset without blocks: with the metrics "Logloss,AUC" (one
additive, one not) and `calcOnParts` false, nothing is retained in the additive pass, so
`ReadDatasetParts` reads the dataset again and the dataset is streamed twice. -/
theorem dataset_reread_counterexample :
    (mode_eval_metrics (emptyDatasetEnvironment (exampleModel 10 0))
        (exampleArguments 0 0 false false) []).trace
      = [.ReadModel, .CreateMetricsFromDescription ["Logloss", "AUC"] 1,
          .CreateMetricCalcer 0 10 1 50 "tmp" [⟨"Logloss", true⟩, ⟨"AUC", false⟩],
          .ReadAndProceedPoolInBlocks 2, .FinishProceedDataSetForAdditiveMetrics,
          .ReadAndProceedPoolInBlocks 2, .ComputeNonAdditiveMetrics [],
          .SaveResult "res" "out" true false, .ClearTempFiles]
    ∧ HasAdditiveMetric [⟨"Logloss", true⟩, ⟨"AUC", false⟩] = true
    ∧ (mode_eval_metrics (emptyDatasetEnvironment (exampleModel 10 0))
        (exampleArguments 0 0 false false) []).trace.countP TEvent.isStreamStart = 2 := by
  decide

/-- C13 as amended: in calc-on-whole mode nothing is retained by the additive pass exactly
when the metric set has no additive metric or the dataset has no block, and only then
`ReadDatasetParts` reads the dataset again: the dataset is streamed at most twice when
there is an additive metric and the dataset has no block and at most once otherwise, and
exactly that often in a run that returns. -/
theorem dataset_reread (env : TEnvironment τ) (args : TArguments) (model : TFullModel)
    (metrics : List TMetric) (hmodel : env.ReadModel = .ok model)
    (hmetrics : env.CreateMetricsFromDescription
      (metricsDescriptionOf args.plotParams.MetricsDescription)
      model.ObliviousTrees.ApproxDimension = .ok metrics)
    (hsel : (HasNonAdditiveMetric metrics && !args.calcOnParts) = true) :
    (retainedParts env (resolvePlotParams env model args.plotParams) args.calcOnParts metrics
        (env.BuildLabelsHelper model) = []
      ↔ (HasAdditiveMetric metrics = false ∨ env.Blocks args.plotParams.ReadBlockSize = []))
    ∧ (mode_eval_metrics env args []).trace.countP TEvent.isStreamStart
      ≤ (if HasAdditiveMetric metrics && (env.Blocks args.plotParams.ReadBlockSize).isEmpty
        then 2 else 1)
    ∧ ∀ trace value, mode_eval_metrics env args [] = .ok trace value →
      trace.countP TEvent.isStreamStart
        = if HasAdditiveMetric metrics && (env.Blocks args.plotParams.ReadBlockSize).isEmpty
          then 2 else 1 := by
  have hiff := retainedParts_eq_nil_iff env (resolvePlotParams env model args.plotParams)
    args.calcOnParts metrics (env.BuildLabelsHelper model) hsel
  rw [resolvePlotParams_ReadBlockSize] at hiff
  refine ⟨hiff, ?_⟩
  rcases mode_eval_metrics_passes env args with ⟨trace, message, hrun, hnone⟩ |
    ⟨model1, metrics1, hmodel1, hmetrics1, hrun⟩
  · rw [hrun]
    have h0 : trace.countP TEvent.isStreamStart = 0 := by
      rw [List.countP_eq_zero]
      intro event hevent
      have := hnone event hevent
      cases event <;> simp [TEvent.isPassEvent, TEvent.isStreamStart] at this ⊢
    refine ⟨?_, fun t v h => by cases h⟩
    simp only [TOutcome.trace, h0]
    split <;> omega
  · rw [hmodel] at hmodel1
    injection hmodel1 with hmodel1
    subst hmodel1
    rw [hmetrics] at hmetrics1
    injection hmetrics1 with hmetrics1
    subst hmetrics1
    have hloop : (HasNonAdditiveMetric metrics && args.calcOnParts) = false := by
      cases hc : args.calcOnParts
      · simp
      · rw [hc] at hsel
        simp at hsel
    have hcount := Follows_countP TEvent.isStreamStart _ _ _
      (Follows_metricPasses env args (resolvePlotParams env model args.plotParams) metrics
        (env.BuildLabelsHelper model) hloop)
      [.ReadModel, .CreateMetricsFromDescription
        (metricsDescriptionOf args.plotParams.MetricsDescription)
        model.ObliviousTrees.ApproxDimension,
        .CreateMetricCalcer (resolvePlotParams env model args.plotParams).FirstIteration
          (resolvePlotParams env model args.plotParams).EndIteration
          (resolvePlotParams env model args.plotParams).Step 50
          (resolvePlotParams env model args.plotParams).TmpDir metrics]
    rw [countP_streamStart_plan env args _ metrics _ hsel,
      resolvePlotParams_ReadBlockSize] at hcount
    rw [hrun]
    have h0 : ([.ReadModel, .CreateMetricsFromDescription
        (metricsDescriptionOf args.plotParams.MetricsDescription)
        model.ObliviousTrees.ApproxDimension,
        .CreateMetricCalcer (resolvePlotParams env model args.plotParams).FirstIteration
          (resolvePlotParams env model args.plotParams).EndIteration
          (resolvePlotParams env model args.plotParams).Step 50
          (resolvePlotParams env model args.plotParams).TmpDir metrics] :
          List (TEvent τ)).countP TEvent.isStreamStart = 0 := by
      simp [List.countP_cons, TEvent.isStreamStart]
    rw [h0, Nat.zero_add] at hcount
    exact hcount

/-- C13 as amended on the run with the two-block dataset and the metrics "Logloss,AUC":
the dataset is streamed once. -/
theorem dataset_reread_witness :
    (mode_eval_metrics (exampleEnvironment (exampleModel 10 0))
        (exampleArguments 0 0 false false) []).trace.countP TEvent.isStreamStart
      ≤ (if HasAdditiveMetric [⟨"Logloss", true⟩, ⟨"AUC", false⟩]
          && ((exampleEnvironment (exampleModel 10 0)).Blocks
            (exampleArguments 0 0 false false).plotParams.ReadBlockSize).isEmpty
        then 2 else 1) :=
  (dataset_reread (exampleEnvironment (exampleModel 10 0)) (exampleArguments 0 0 false false)
    (exampleModel 10 0) [⟨"Logloss", true⟩, ⟨"AUC", false⟩] rfl rfl (by decide)).2.1

theorem bind_ok_inv {ε α β : Type} (m : TRun ε α) (f : α → TRun ε β) {trace trace2 : List ε}
    {value2 : β} (h : (m >>= f) trace = .ok trace2 value2) :
    ∃ trace1 value1, m trace = .ok trace1 value1 ∧ f value1 trace1 = .ok trace2 value2 := by
  cases hm : m trace with
  | ok trace1 value1 =>
    rw [bind_apply_ok m f hm] at h
    exact ⟨trace1, value1, rfl, h⟩
  | failed trace1 message =>
    rw [bind_apply_failed m f hm] at h
    cases h
  | unfinished trace1 =>
    rw [bind_apply_unfinished m f hm] at h
    cases h

/-- The calc-on-parts loop returns only when all iterations are processed. -/
theorem calcOnPartsLoop_ok (env : TEnvironment τ) (plotParams : TModeEvalMetricsParams)
    (labelConverter : TLabelConverter τ) (rounds : Nat) (trace trace1 : List (TEvent τ))
    (value : Unit)
    (h : calcOnPartsLoop env plotParams labelConverter rounds trace = .ok trace1 value) :
    env.AreAllIterationsProcessed trace1 = true := by
  induction rounds generalizing trace with
  | zero =>
    unfold calcOnPartsLoop at h
    split at h
    · rename_i hdone
      injection h with h1 _
      rw [← h1]
      exact hdone
    · cases h
  | succ rounds ih =>
    unfold calcOnPartsLoop at h
    split at h
    · rename_i hdone
      injection h with h1 _
      rw [← h1]
      exact hdone
    · obtain ⟨t1, v1, -, h1⟩ := bind_ok_inv _ _ h
      obtain ⟨t2, v2, -, h2⟩ := bind_ok_inv _ _ h1
      exact ih t2 h2

theorem Emits_calcOnPartsLoop_of (Q : TEvent τ → Prop) (env : TEnvironment τ)
    (plotParams : TModeEvalMetricsParams) (labelConverter : TLabelConverter τ)
    (hstart : ∀ blockSize, Q (.ReadAndProceedPoolInBlocks blockSize))
    (hblock : ∀ poolPart, Q (.BlockRead poolPart))
    (hproceed : ∀ poolPart, Q (.ProceedDataSetForNonAdditiveMetrics poolPart))
    (hfinish : Q .FinishProceedDataSetForNonAdditiveMetrics) (rounds : Nat) :
    TRun.Emits Q (calcOnPartsLoop env plotParams labelConverter rounds) := by
  induction rounds with
  | zero =>
    intro trace
    refine ⟨[], ?_, by simp⟩
    unfold calcOnPartsLoop
    split <;> simp [TOutcome.trace]
  | succ rounds ih =>
    intro trace
    unfold calcOnPartsLoop
    split
    · exact ⟨[], by simp [TOutcome.trace], by simp⟩
    · refine Emits_bind _ _ _ ?_ (fun _ => ?_) trace
      · exact Emits_ReadAndProceedPoolInBlocks _ env _ _ _ (hstart _) hblock
          (fun p s => Emits_call _ env _ (hproceed _))
      · exact Emits_bind _ _ _ (Emits_call _ env _ hfinish) (fun _ => ih)

theorem additivePlan_kinds (env : TEnvironment τ) (plotParams : TModeEvalMetricsParams)
    (metrics : List TMetric) (labelConverter : TLabelConverter τ) :
    ∀ event ∈ additivePlan env plotParams metrics labelConverter,
      event.isCalcOnPartsCall = false ∧ event.isComputeNonAdditiveMetrics = false := by
  intro event hevent
  unfold additivePlan at hevent
  split at hevent
  · rcases List.mem_append.mp hevent with h | h
    · rcases mem_streamPlan env _ _ event h with h | ⟨poolPart, -, h | h⟩
      · subst h
        exact ⟨rfl, rfl⟩
      · subst h
        exact ⟨rfl, rfl⟩
      · simp only [List.mem_singleton] at h
        subst h
        exact ⟨rfl, rfl⟩
    · simp only [List.mem_singleton] at h
      subst h
      exact ⟨rfl, rfl⟩
  · simp at hevent

theorem calcOnWholePlan_kinds (env : TEnvironment τ) (plotParams : TModeEvalMetricsParams)
    (calcOnParts : Bool) (metrics : List TMetric) (labelConverter : TLabelConverter τ)
    (datasetParts : List (TPool τ)) :
    ∀ event ∈ calcOnWholePlan env plotParams calcOnParts metrics labelConverter datasetParts,
      event.isAdditiveCall = false := by
  intro event hevent
  unfold calcOnWholePlan at hevent
  split at hevent
  · split at hevent
    · rcases List.mem_append.mp hevent with h | h
      · rcases mem_streamPlan env _ _ event h with h | ⟨poolPart, -, h | h⟩
        · subst h
          rfl
        · subst h
          rfl
        · simp at h
      · simp only [List.mem_singleton] at h
        subst h
        rfl
    · simp only [List.mem_singleton] at hevent
      subst hevent
      rfl
  · simp at hevent

theorem countP_compute_plan (env : TEnvironment τ) (args : TArguments)
    (plotParams : TModeEvalMetricsParams) (metrics : List TMetric)
    (labelConverter : TLabelConverter τ)
    (hsel : (HasNonAdditiveMetric metrics && !args.calcOnParts) = true) :
    ((additivePlan env plotParams metrics labelConverter
        ++ calcOnWholePlan env plotParams args.calcOnParts metrics labelConverter
          (retainedParts env plotParams args.calcOnParts metrics labelConverter))
        ++ [TEvent.SaveResult plotParams.ResultDirectory args.OutputPath true args.saveStats,
          TEvent.ClearTempFiles]).countP TEvent.isComputeNonAdditiveMetrics = 1 := by
  have hA : (additivePlan env plotParams metrics labelConverter).countP
      TEvent.isComputeNonAdditiveMetrics = 0 := by
    rw [List.countP_eq_zero]
    intro event hevent
    simp [(additivePlan_kinds env plotParams metrics labelConverter event hevent).2]
  have hstream : (streamPlan env plotParams.ReadBlockSize (fun _ => [])).countP
      TEvent.isComputeNonAdditiveMetrics = 0 := by
    rw [countP_streamPlan env _ _ _ (fun _ => rfl) (fun _ event h => by simp at h)]
    rfl
  have hW : (calcOnWholePlan env plotParams args.calcOnParts metrics labelConverter
      (retainedParts env plotParams args.calcOnParts metrics labelConverter)).countP
        TEvent.isComputeNonAdditiveMetrics = 1 := by
    unfold calcOnWholePlan
    rw [hsel]
    simp only [if_true]
    split
    · rw [List.countP_append, hstream]
      rfl
    · rfl
  rw [List.countP_append, List.countP_append, hA, hW]
  rfl

/-- A strategy call met in a run tells which strategy was selected. -/
theorem strategy_call_selected (env : TEnvironment τ) (args : TArguments) (model : TFullModel)
    (metrics : List TMetric) (hmodel : env.ReadModel = .ok model)
    (hmetrics : env.CreateMetricsFromDescription
      (metricsDescriptionOf args.plotParams.MetricsDescription)
      model.ObliviousTrees.ApproxDimension = .ok metrics)
    (event : TEvent τ) (hevent : event ∈ (mode_eval_metrics env args []).trace) :
    (event.isCalcOnPartsCall = true → (HasNonAdditiveMetric metrics && args.calcOnParts) = true)
    ∧ (event.isComputeNonAdditiveMetrics = true →
        (HasNonAdditiveMetric metrics && !args.calcOnParts) = true) := by
  cases hpass : event.isPassEvent
  · cases event <;>
      simp [TEvent.isPassEvent, TEvent.isCalcOnPartsCall,
        TEvent.isComputeNonAdditiveMetrics] at hpass ⊢
  · obtain ⟨metrics1, hmetrics1, h⟩ :=
      mode_eval_metrics_calls env args model hmodel event hevent hpass
    rw [hmetrics] at hmetrics1
    injection hmetrics1 with hmetrics1
    subst hmetrics1
    rcases h with h | h | h
    · cases event <;>
        simp_all [TEvent.expected, TEvent.isCalcOnPartsCall,
          TEvent.isComputeNonAdditiveMetrics]
    · cases event <;>
        simp [TEvent.isSaveResult, TEvent.isCalcOnPartsCall,
          TEvent.isComputeNonAdditiveMetrics] at h ⊢
    · cases event <;>
        simp [TEvent.isClearTempFiles, TEvent.isCalcOnPartsCall,
          TEvent.isComputeNonAdditiveMetrics] at h ⊢

/-- The calls of the passes split into those of the additive pass, without a strategy call,
and those made after it, without a call of the additive pass; something follows the
additive pass only when that pass has finished. -/
theorem metricPasses_order (env : TEnvironment τ) (args : TArguments)
    (plotParams : TModeEvalMetricsParams) (metrics : List TMetric)
    (labelConverter : TLabelConverter τ) (trace : List (TEvent τ)) :
    ∃ additive later,
      (metricPasses env args plotParams metrics labelConverter trace).trace
        = trace ++ additive ++ later
      ∧ (∀ event ∈ additive, event.isCalcOnPartsCall = false
          ∧ event.isComputeNonAdditiveMetrics = false)
      ∧ (∀ event ∈ later, event.isAdditiveCall = false)
      ∧ (later ≠ [] → HasAdditiveMetric metrics = true →
          TEvent.FinishProceedDataSetForAdditiveMetrics ∈ additive) := by
  have hF := Follows_additivePass env plotParams args.calcOnParts metrics labelConverter []
  have hkinds := additivePlan_kinds env plotParams metrics labelConverter
  unfold metricPasses
  cases hA : additivePass env plotParams args.calcOnParts metrics labelConverter [] trace with
  | ok trace1 datasetParts =>
    obtain ⟨htrace1, -⟩ := (hF trace).2 trace1 datasetParts hA
    rw [bind_apply_ok _ _ hA]
    have hrest : TRun.Emits (fun e : TEvent τ => e.isAdditiveCall = false)
        ((if (HasNonAdditiveMetric metrics && args.calcOnParts) = true then
            calcOnPartsLoop env plotParams labelConverter env.Rounds
          else TRun.pure ()) >>= fun _ =>
          calcOnWhole env plotParams args.calcOnParts metrics labelConverter datasetParts
            >>= fun _ =>
          call env (.SaveResult plotParams.ResultDirectory args.OutputPath true args.saveStats)
            >>= fun _ => call env .ClearTempFiles >>= fun _ =>
              (TRun.pure 0 : TRun (TEvent τ) Int)) := by
      refine Emits_bind _ _ _ ?_ (fun _ => ?_)
      · split
        · exact Emits_calcOnPartsLoop_of (fun e : TEvent τ => e.isAdditiveCall = false) env
            plotParams labelConverter (fun _ => rfl) (fun _ => rfl) (fun _ => rfl) rfl _
        · exact Emits_pure _ _
      · refine Emits_bind _ _ _ (Emits_of_Follows _ _ _ _
          (Follows_calcOnWhole env plotParams args.calcOnParts metrics labelConverter _)
          (calcOnWholePlan_kinds env plotParams args.calcOnParts metrics labelConverter _))
          (fun _ => ?_)
        refine Emits_bind _ _ _ (Emits_call _ env _ rfl) (fun _ => ?_)
        exact Emits_bind _ _ _ (Emits_call _ env _ rfl) (fun _ => Emits_pure _ _)
    obtain ⟨later, hlater, hQ⟩ := hrest trace1
    refine ⟨additivePlan env plotParams metrics labelConverter, later, ?_, hkinds, hQ, ?_⟩
    · rw [hlater, htrace1]
    · intro _ hadd
      unfold additivePlan
      rw [if_pos hadd]
      simp
  | failed trace1 message =>
    obtain ⟨⟨done, rest, hplan, htrace⟩, -⟩ := hF trace
    rw [hA] at htrace
    rw [bind_apply_failed _ _ hA]
    refine ⟨done, [], by simpa using htrace, ?_, by simp, fun h => absurd rfl h⟩
    intro event hevent
    exact hkinds event (by rw [hplan]; exact List.mem_append_left _ hevent)
  | unfinished trace1 =>
    obtain ⟨⟨done, rest, hplan, htrace⟩, -⟩ := hF trace
    rw [hA] at htrace
    rw [bind_apply_unfinished _ _ hA]
    refine ⟨done, [], by simpa using htrace, ?_, by simp, fun h => absurd rfl h⟩
    intro event hevent
    exact hkinds event (by rw [hplan]; exact List.mem_append_left _ hevent)

/-- When the calc-on-parts strategy is selected and the passes return, all iterations are
processed at the point where `SaveResult` is called. -/
theorem metricPasses_calcOnParts_ok (env : TEnvironment τ) (args : TArguments)
    (plotParams : TModeEvalMetricsParams) (metrics : List TMetric)
    (labelConverter : TLabelConverter τ)
    (hsel : (HasNonAdditiveMetric metrics && args.calcOnParts) = true)
    (trace trace2 : List (TEvent τ)) (value : Int)
    (h : metricPasses env args plotParams metrics labelConverter trace = .ok trace2 value) :
    ∃ trace1, trace2 = trace1 ++ [.SaveResult plotParams.ResultDirectory args.OutputPath true
        args.saveStats, .ClearTempFiles]
      ∧ env.AreAllIterationsProcessed trace1 = true := by
  rw [metricPasses_eq] at h
  obtain ⟨trace1, v1, hstrategy, hsave⟩ := bind_ok_inv _ _ h
  refine ⟨trace1, ?_, ?_⟩
  · have hF : TRun.Follows
        (call env (.SaveResult plotParams.ResultDirectory args.OutputPath true args.saveStats)
          >>= fun _ => call env .ClearTempFiles >>= fun _ =>
            (TRun.pure 0 : TRun (TEvent τ) Int))
        ([.SaveResult plotParams.ResultDirectory args.OutputPath true args.saveStats]
          ++ ([.ClearTempFiles] ++ [])) 0 :=
      Follows_bind _ _ _ _ _ _ (Follows_call env _)
        (Follows_bind _ _ _ _ _ _ (Follows_call env _) (Follows_pure _))
    simpa using ((hF trace1).2 trace2 value hsave).1
  · unfold strategyPasses at hstrategy
    obtain ⟨ta, parts, -, h1⟩ := bind_ok_inv _ _ hstrategy
    obtain ⟨tl, vl, hloop, h2⟩ := bind_ok_inv _ _ h1
    rw [if_pos hsel] at hloop
    have hcop : args.calcOnParts = true := by
      cases hc : args.calcOnParts
      · rw [hc] at hsel
        simp at hsel
      · rfl
    have hwhole : calcOnWhole env plotParams args.calcOnParts metrics labelConverter parts
        = TRun.pure () := by
      unfold calcOnWhole
      rw [hcop]
      simp
    rw [hwhole] at h2
    simp only [TRun.pure] at h2
    injection h2 with h3 _
    rw [← h3]
    exact calcOnPartsLoop_ok env plotParams labelConverter _ _ _ _ hloop

theorem Terminates_pure {ε α : Type} (value : α) :
    (TRun.pure value : TRun ε α).Terminates :=
  fun trace => ⟨trace, value, rfl⟩

theorem Terminates_call (env : TEnvironment τ) (hquiet : env.Quiet) (event : TEvent τ) :
    (call env event).Terminates :=
  fun trace => ⟨trace ++ [event], (), call_returns env event trace (hquiet _)⟩

theorem Terminates_bind {ε α β : Type} (m : TRun ε α) (f : α → TRun ε β)
    (hm : m.Terminates) (hf : ∀ value, (f value).Terminates) : (m >>= f).Terminates := by
  intro trace
  obtain ⟨trace1, value1, h1⟩ := hm trace
  obtain ⟨trace2, value2, h2⟩ := hf value1 trace1
  exact ⟨trace2, value2, by rw [bind_apply_ok m f h1]; exact h2⟩

theorem Terminates_foldlM {ε σ β : Type} (f : σ → β → TRun ε σ)
    (hf : ∀ s x, (f s x).Terminates) (xs : List β) (s : σ) : (xs.foldlM f s).Terminates := by
  induction xs generalizing s with
  | nil => exact Terminates_pure s
  | cons x rest ih =>
    rw [List.foldlM_cons]
    exact Terminates_bind _ _ (hf s x) (fun s1 => ih s1)

theorem Terminates_ReadAndProceedPoolInBlocks {σ : Type} (env : TEnvironment τ)
    (hquiet : env.Quiet) (blockSize : Int) (callback : TPool τ → σ → TRun (TEvent τ) σ)
    (hcallback : ∀ poolPart s, (callback poolPart s).Terminates) (s : σ) :
    (ReadAndProceedPoolInBlocks env blockSize callback s).Terminates := by
  unfold ReadAndProceedPoolInBlocks
  refine Terminates_bind _ _ (Terminates_call env hquiet _) (fun _ => ?_)
  refine Terminates_foldlM _ (fun s poolPart => ?_) _ _
  exact Terminates_bind _ _ (Terminates_call env hquiet _) (fun _ => hcallback poolPart s)

theorem Terminates_additivePass (env : TEnvironment τ) (hquiet : env.Quiet)
    (plotParams : TModeEvalMetricsParams) (calcOnParts : Bool) (metrics : List TMetric)
    (labelConverter : TLabelConverter τ) (datasetParts : List (TPool τ)) :
    (additivePass env plotParams calcOnParts metrics labelConverter datasetParts).Terminates := by
  rw [additivePass_eq]
  split
  · refine Terminates_bind _ _ (Terminates_ReadAndProceedPoolInBlocks env hquiet _ _
      (fun poolPart s => ?_) _) (fun _ => ?_)
    · unfold additiveCallback
      refine Terminates_bind _ _ (Terminates_call env hquiet _) (fun _ => ?_)
      split <;> exact Terminates_pure _
    · exact Terminates_bind _ _ (Terminates_call env hquiet _) (fun _ => Terminates_pure _)
  · exact Terminates_pure _

theorem Terminates_calcOnWhole (env : TEnvironment τ) (hquiet : env.Quiet)
    (plotParams : TModeEvalMetricsParams) (calcOnParts : Bool) (metrics : List TMetric)
    (labelConverter : TLabelConverter τ) (datasetParts : List (TPool τ)) :
    (calcOnWhole env plotParams calcOnParts metrics labelConverter datasetParts).Terminates := by
  unfold calcOnWhole
  split
  · refine Terminates_bind _ _ ?_ (fun _ => Terminates_call env hquiet _)
    split
    · unfold ReadDatasetParts
      exact Terminates_ReadAndProceedPoolInBlocks env hquiet _ _
        (fun _ _ => Terminates_pure _) _
    · exact Terminates_pure _
  · exact Terminates_pure _

/-- A computation that follows a plan and returns makes exactly the calls of the plan. -/
theorem runs_of_Follows {ε α : Type} (m : TRun ε α) (plan : List ε) (value : α)
    (h : TRun.Follows m plan value) (ht : m.Terminates) (trace : List ε) :
    m trace = .ok (trace ++ plan) value := by
  obtain ⟨trace1, value1, hm⟩ := ht trace
  obtain ⟨h1, h2⟩ := (h trace).2 trace1 value1 hm
  rw [hm, h1, h2]

/-- One round of the calc-on-parts loop follows its plan. -/
theorem Follows_calcOnPartsRound (env : TEnvironment τ) (plotParams : TModeEvalMetricsParams)
    (labelConverter : TLabelConverter τ) :
    TRun.Follows
      (ReadAndProceedPoolInBlocks env plotParams.ReadBlockSize
          (fun poolPart (_ : Unit) =>
            call env (.ProceedDataSetForNonAdditiveMetrics
              (preprocessPool labelConverter poolPart))) ()
        >>= fun _ => call env .FinishProceedDataSetForNonAdditiveMetrics)
      (calcOnPartsRound env plotParams labelConverter) () := by
  unfold calcOnPartsRound
  exact Follows_bind _ _ _ [_] _ () (Follows_ReadAndProceedPoolInBlocks env
    plotParams.ReadBlockSize _ (fun poolPart =>
      [.ProceedDataSetForNonAdditiveMetrics (preprocessPool labelConverter poolPart)])
    (fun _ _ => ()) (fun poolPart _ => Follows_call env _) ()) (Follows_call env _)

theorem calcOnPartsLoop_succ (env : TEnvironment τ) (plotParams : TModeEvalMetricsParams)
    (labelConverter : TLabelConverter τ) (rounds : Nat) (trace : List (TEvent τ)) :
    calcOnPartsLoop env plotParams labelConverter (rounds + 1) trace
      = if env.AreAllIterationsProcessed trace then .ok trace ()
        else ((ReadAndProceedPoolInBlocks env plotParams.ReadBlockSize
            (fun poolPart (_ : Unit) =>
              call env (.ProceedDataSetForNonAdditiveMetrics
                (preprocessPool labelConverter poolPart))) ()
          >>= fun _ => call env .FinishProceedDataSetForNonAdditiveMetrics)
          >>= fun _ => calcOnPartsLoop env plotParams labelConverter rounds) trace := by
  rw [TRun_bind_assoc]
  rfl

theorem calcOnPartsRounds_succ (env : TEnvironment τ) (plotParams : TModeEvalMetricsParams)
    (labelConverter : TLabelConverter τ) (k : Nat) :
    calcOnPartsRounds env plotParams labelConverter (k + 1)
      = calcOnPartsRound env plotParams labelConverter
        ++ calcOnPartsRounds env plotParams labelConverter k := by
  unfold calcOnPartsRounds
  rw [List.replicate_succ, List.flatten_cons]

/-- When nothing throws, a calc-on-parts loop that ends after `k` rounds, with `k` rounds
allowed, returns after making exactly the calls of `k` rounds. -/
theorem calcOnPartsLoop_rounds (env : TEnvironment τ) (hquiet : env.Quiet)
    (plotParams : TModeEvalMetricsParams) (labelConverter : TLabelConverter τ) (k : Nat) :
    ∀ (fuel : Nat) (trace : List (TEvent τ)), k ≤ fuel →
      EndsAfter env plotParams labelConverter trace k →
      calcOnPartsLoop env plotParams labelConverter fuel trace
        = .ok (trace ++ calcOnPartsRounds env plotParams labelConverter k) () := by
  induction k with
  | zero =>
    intro fuel trace _ hends
    have hdone : env.AreAllIterationsProcessed trace = true := by
      simpa [calcOnPartsRounds] using hends.2
    cases fuel with
    | zero =>
      unfold calcOnPartsLoop
      simp [hdone, calcOnPartsRounds]
    | succ fuel =>
      rw [calcOnPartsLoop_succ, if_pos hdone]
      simp [calcOnPartsRounds]
  | succ k ih =>
    intro fuel trace hfuel hends
    cases fuel with
    | zero => omega
    | succ fuel =>
      have hnot : env.AreAllIterationsProcessed trace = false := by
        simpa [calcOnPartsRounds] using hends.1 0 (Nat.succ_pos k)
      rw [calcOnPartsLoop_succ, hnot]
      simp only [Bool.false_eq_true, if_false]
      have hround := runs_of_Follows _ _ _
        (Follows_calcOnPartsRound env plotParams labelConverter)
        (Terminates_bind _ _ (Terminates_ReadAndProceedPoolInBlocks env hquiet _ _
          (fun _ _ => Terminates_call env hquiet _) _)
          (fun _ => Terminates_call env hquiet _)) trace
      rw [bind_apply_ok _ _ hround, calcOnPartsRounds_succ, ← List.append_assoc]
      refine ih fuel _ (Nat.le_of_succ_le_succ hfuel) ⟨?_, ?_⟩
      · intro j hj
        have := hends.1 (j + 1) (Nat.succ_lt_succ hj)
        rwa [calcOnPartsRounds_succ, ← List.append_assoc] at this
      · have := hends.2
        rwa [calcOnPartsRounds_succ, ← List.append_assoc] at this

/-- The calls of a calc-on-parts loop are an initial part of some number of rounds, within
the number allowed, and all of them when the loop returns. -/
theorem calcOnPartsLoop_initial (env : TEnvironment τ) (plotParams : TModeEvalMetricsParams)
    (labelConverter : TLabelConverter τ) :
    ∀ (fuel : Nat) (trace : List (TEvent τ)), ∃ k done, k ≤ fuel
      ∧ done <+: calcOnPartsRounds env plotParams labelConverter k
      ∧ (calcOnPartsLoop env plotParams labelConverter fuel trace).trace = trace ++ done
      ∧ ∀ trace1 value, calcOnPartsLoop env plotParams labelConverter fuel trace
          = .ok trace1 value →
        done = calcOnPartsRounds env plotParams labelConverter k := by
  intro fuel
  induction fuel with
  | zero =>
    intro trace
    refine ⟨0, [], Nat.le_refl _, ⟨_, rfl⟩, ?_, fun _ _ _ => rfl⟩
    unfold calcOnPartsLoop
    split <;> simp [TOutcome.trace]
  | succ fuel ih =>
    intro trace
    rw [calcOnPartsLoop_succ]
    split
    · exact ⟨0, [], Nat.zero_le _, ⟨_, rfl⟩, by simp [TOutcome.trace],
        fun _ _ _ => rfl⟩
    · have hF := Follows_calcOnPartsRound env plotParams labelConverter trace
      obtain ⟨⟨done, rest, hplan, htrace⟩, hok⟩ := hF
      cases hbody : (ReadAndProceedPoolInBlocks env plotParams.ReadBlockSize
          (fun poolPart (_ : Unit) =>
            call env (.ProceedDataSetForNonAdditiveMetrics
              (preprocessPool labelConverter poolPart))) ()
        >>= fun _ => call env .FinishProceedDataSetForNonAdditiveMetrics) trace with
      | ok trace1 value1 =>
        obtain ⟨h1, -⟩ := hok trace1 value1 hbody
        subst h1
        rw [bind_apply_ok _ _ hbody]
        obtain ⟨k, done1, hk, hinitial, htrace1, hok1⟩ :=
          ih (trace ++ calcOnPartsRound env plotParams labelConverter)
        refine ⟨k + 1, calcOnPartsRound env plotParams labelConverter ++ done1,
          Nat.succ_le_succ hk, ?_, by rw [htrace1, List.append_assoc], ?_⟩
        · rw [calcOnPartsRounds_succ]
          obtain ⟨rest1, hrest1⟩ := hinitial
          exact ⟨rest1, by rw [List.append_assoc, hrest1]⟩
        · intro trace2 value2 h
          rw [calcOnPartsRounds_succ, hok1 trace2 value2 h]
      | failed trace1 message =>
        rw [hbody] at htrace
        rw [bind_apply_failed _ _ hbody]
        refine ⟨1, done, Nat.succ_le_succ (Nat.zero_le _), ?_, htrace,
          fun _ _ h => by cases h⟩
        rw [calcOnPartsRounds_succ, hplan]
        exact ⟨rest ++ calcOnPartsRounds env plotParams labelConverter 0,
          by rw [List.append_assoc]⟩
      | unfinished trace1 =>
        rw [hbody] at htrace
        rw [bind_apply_unfinished _ _ hbody]
        refine ⟨1, done, Nat.succ_le_succ (Nat.zero_le _), ?_, htrace,
          fun _ _ h => by cases h⟩
        rw [calcOnPartsRounds_succ, hplan]
        exact ⟨rest ++ calcOnPartsRounds env plotParams labelConverter 0,
          by rw [List.append_assoc]⟩

/-- A run whose model is read and whose metrics are created either fails before the metric
passes, having made an initial part of the setup calls, or goes on with the metric passes
after the setup calls. -/
theorem mode_eval_metrics_setup (env : TEnvironment τ) (args : TArguments) (model : TFullModel)
    (metrics : List TMetric) (hmodel : env.ReadModel = .ok model)
    (hmetrics : env.CreateMetricsFromDescription
      (metricsDescriptionOf args.plotParams.MetricsDescription)
      model.ObliviousTrees.ApproxDimension = .ok metrics) :
    (∃ trace message, mode_eval_metrics env args [] = .failed trace message
      ∧ trace <+: setupCalls env args model metrics)
    ∨ mode_eval_metrics env args [] =
        metricPasses env args (resolvePlotParams env model args.plotParams) metrics
          (env.BuildLabelsHelper model) (setupCalls env args model metrics) := by
  rw [mode_eval_metrics_eq env args model hmodel]
  split
  · have hCM := CreateMetrics_eq env (resolvePlotParams env model args.plotParams)
      model.ObliviousTrees.ApproxDimension [.ReadModel]
    rw [resolvePlotParams_MetricsDescription] at hCM
    by_cases hE : (metricsDescriptionOf args.plotParams.MetricsDescription).isEmpty = true
    · rw [if_pos hE] at hCM
      rw [bind_apply_failed _ _ hCM]
      left
      exact ⟨_, _, rfl, ⟨_, rfl⟩⟩
    · rw [if_neg hE, hmetrics] at hCM
      rw [bind_apply_ok _ _ hCM]
      cases hT : env.Throws (setupCalls env args model metrics) with
      | some message =>
        rw [bind_apply_failed _ _ (call_throws env _ _ message hT)]
        left
        exact ⟨_, _, rfl, ⟨[], List.append_nil _⟩⟩
      | none =>
        rw [bind_apply_ok _ _ (call_returns env _ _ hT)]
        right
        rfl
  · left
    exact ⟨_, _, rfl, ⟨_, rfl⟩⟩

/-- A run whose model is read without missing a column description, whose metrics
description has a metric and whose metrics and plot calcer are created goes on with the
metric passes. -/
theorem mode_eval_metrics_reaches (env : TEnvironment τ) (args : TArguments)
    (model : TFullModel) (metrics : List TMetric) (hmodel : env.ReadModel = .ok model)
    (hmetrics : env.CreateMetricsFromDescription
      (metricsDescriptionOf args.plotParams.MetricsDescription)
      model.ObliviousTrees.ApproxDimension = .ok metrics)
    (hcat : (model.UsedCatFeaturesCount == 0 || args.CdFilePathInited) = true)
    (hdesc : (metricsDescriptionOf args.plotParams.MetricsDescription).isEmpty = false)
    (hcalcer : env.Throws (setupCalls env args model metrics) = none) :
    mode_eval_metrics env args [] =
      metricPasses env args (resolvePlotParams env model args.plotParams) metrics
        (env.BuildLabelsHelper model) (setupCalls env args model metrics) := by
  rw [mode_eval_metrics_eq env args model hmodel, if_pos hcat]
  have hCM := CreateMetrics_eq env (resolvePlotParams env model args.plotParams)
    model.ObliviousTrees.ApproxDimension [.ReadModel]
  rw [resolvePlotParams_MetricsDescription, hdesc, hmetrics] at hCM
  simp only [Bool.false_eq_true, if_false] at hCM
  rw [bind_apply_ok _ _ hCM, bind_apply_ok _ _ (call_returns env _ _ hcalcer)]
  rfl

theorem calcOnWhole_of_calcOnParts (env : TEnvironment τ) (plotParams : TModeEvalMetricsParams)
    (metrics : List TMetric) (labelConverter : TLabelConverter τ)
    (datasetParts : List (TPool τ)) :
    calcOnWhole env plotParams true metrics labelConverter datasetParts = TRun.pure () := by
  unfold calcOnWhole
  simp

/-- In calc-on-parts mode the calls of the passes are an initial part of the additive pass,
some number of rounds of the loop within the number allowed, `SaveResult` and
`ClearTempFiles`. -/
theorem metricPasses_calcOnParts_initial (env : TEnvironment τ) (args : TArguments)
    (plotParams : TModeEvalMetricsParams) (metrics : List TMetric)
    (labelConverter : TLabelConverter τ)
    (hnon : HasNonAdditiveMetric metrics = true) (hcop : args.calcOnParts = true)
    (trace : List (TEvent τ)) :
    ∃ k, k ≤ env.Rounds
      ∧ (metricPasses env args plotParams metrics labelConverter trace).trace
        <+: trace ++ (additivePlan env plotParams metrics labelConverter
          ++ (calcOnPartsRounds env plotParams labelConverter k
            ++ [.SaveResult plotParams.ResultDirectory args.OutputPath true args.saveStats,
              .ClearTempFiles])) := by
  have hF := Follows_additivePass env plotParams args.calcOnParts metrics labelConverter []
  unfold metricPasses
  cases hA : additivePass env plotParams args.calcOnParts metrics labelConverter [] trace with
  | ok trace1 datasetParts =>
    obtain ⟨htrace1, -⟩ := (hF trace).2 trace1 datasetParts hA
    subst htrace1
    rw [bind_apply_ok _ _ hA, hnon, hcop]
    simp only [Bool.and_self, if_true]
    obtain ⟨k, done, hk, hinitial, htrace, hok⟩ :=
      calcOnPartsLoop_initial env plotParams labelConverter env.Rounds
        (trace ++ additivePlan env plotParams metrics labelConverter)
    refine ⟨k, hk, ?_⟩
    cases hL : calcOnPartsLoop env plotParams labelConverter env.Rounds
        (trace ++ additivePlan env plotParams metrics labelConverter) with
    | ok trace2 value2 =>
      have hdone := hok trace2 value2 hL
      rw [hL] at htrace
      simp only [TOutcome.trace] at htrace
      subst htrace
      rw [bind_apply_ok _ _ hL, calcOnWhole_of_calcOnParts, TRun_pure_bind]
      have hS : TRun.Follows
          (call env (.SaveResult plotParams.ResultDirectory args.OutputPath true
              args.saveStats)
            >>= fun _ => call env .ClearTempFiles >>= fun _ =>
              (TRun.pure 0 : TRun (TEvent τ) Int))
          ([.SaveResult plotParams.ResultDirectory args.OutputPath true args.saveStats]
            ++ ([.ClearTempFiles] ++ [])) 0 :=
        Follows_bind _ _ _ _ _ _ (Follows_call env _)
          (Follows_bind _ _ _ _ _ _ (Follows_call env _) (Follows_pure _))
      obtain ⟨⟨done2, rest2, hplan2, htrace2⟩, -⟩ :=
        hS (trace ++ additivePlan env plotParams metrics labelConverter ++ done)
      rw [htrace2, hdone]
      refine ⟨rest2, ?_⟩
      simp only [List.append_assoc]
      simp only [List.append_nil, List.singleton_append] at hplan2
      rw [← hplan2]
    | failed trace2 message =>
      rw [hL] at htrace
      simp only [TOutcome.trace] at htrace
      rw [bind_apply_failed _ _ hL]
      simp only [TOutcome.trace, htrace]
      obtain ⟨rest, hrest⟩ := hinitial
      refine ⟨rest ++ [.SaveResult plotParams.ResultDirectory args.OutputPath true
        args.saveStats, .ClearTempFiles], ?_⟩
      rw [← hrest]
      simp only [List.append_assoc]
    | unfinished trace2 =>
      rw [hL] at htrace
      simp only [TOutcome.trace] at htrace
      rw [bind_apply_unfinished _ _ hL]
      simp only [TOutcome.trace, htrace]
      obtain ⟨rest, hrest⟩ := hinitial
      refine ⟨rest ++ [.SaveResult plotParams.ResultDirectory args.OutputPath true
        args.saveStats, .ClearTempFiles], ?_⟩
      rw [← hrest]
      simp only [List.append_assoc]
  | failed trace1 message =>
    obtain ⟨⟨done, rest, hplan, htrace⟩, -⟩ := hF trace
    rw [hA] at htrace
    simp only [TOutcome.trace] at htrace
    rw [bind_apply_failed _ _ hA]
    refine ⟨0, Nat.zero_le _, ?_⟩
    simp only [TOutcome.trace, htrace, hplan]
    exact ⟨rest ++ (calcOnPartsRounds env plotParams labelConverter 0
      ++ [.SaveResult plotParams.ResultDirectory args.OutputPath true args.saveStats,
        .ClearTempFiles]), by simp only [List.append_assoc]⟩
  | unfinished trace1 =>
    obtain ⟨⟨done, rest, hplan, htrace⟩, -⟩ := hF trace
    rw [hA] at htrace
    simp only [TOutcome.trace] at htrace
    rw [bind_apply_unfinished _ _ hA]
    refine ⟨0, Nat.zero_le _, ?_⟩
    simp only [TOutcome.trace, htrace, hplan]
    exact ⟨rest ++ (calcOnPartsRounds env plotParams labelConverter 0
      ++ [.SaveResult plotParams.ResultDirectory args.OutputPath true args.saveStats,
        .ClearTempFiles]), by simp only [List.append_assoc]⟩

/-- In calc-on-parts mode, when nothing throws and the loop ends after `k` rounds, with `k`
rounds allowed, the passes return after exactly the calls of the additive pass, `k` rounds
of the loop, `SaveResult` and `ClearTempFiles`. -/
theorem metricPasses_calcOnParts_runs (env : TEnvironment τ) (hquiet : env.Quiet)
    (args : TArguments) (plotParams : TModeEvalMetricsParams) (metrics : List TMetric)
    (labelConverter : TLabelConverter τ)
    (hnon : HasNonAdditiveMetric metrics = true) (hcop : args.calcOnParts = true)
    (trace : List (TEvent τ)) (k : Nat) (hk : k ≤ env.Rounds)
    (hends : EndsAfter env plotParams labelConverter
      (trace ++ additivePlan env plotParams metrics labelConverter) k) :
    metricPasses env args plotParams metrics labelConverter trace
      = .ok (trace ++ (additivePlan env plotParams metrics labelConverter
          ++ (calcOnPartsRounds env plotParams labelConverter k
            ++ [.SaveResult plotParams.ResultDirectory args.OutputPath true args.saveStats,
              .ClearTempFiles]))) 0 := by
  unfold metricPasses
  rw [bind_apply_ok _ _ (runs_of_Follows _ _ _
    (Follows_additivePass env plotParams args.calcOnParts metrics labelConverter [])
    (Terminates_additivePass env hquiet plotParams args.calcOnParts metrics labelConverter [])
    trace), hnon, hcop]
  simp only [Bool.and_self, if_true]
  rw [bind_apply_ok _ _ (calcOnPartsLoop_rounds env hquiet plotParams labelConverter k
    env.Rounds _ hk hends), calcOnWhole_of_calcOnParts, TRun_pure_bind,
    bind_apply_ok _ _ (call_returns env _ _ (hquiet _)),
    bind_apply_ok _ _ (call_returns env _ _ (hquiet _))]
  simp [TRun.pure]

/-- Without the calc-on-parts loop, when nothing throws, the passes return after exactly
the calls of the additive pass, of the calc-on-whole strategy, `SaveResult` and
`ClearTempFiles`. -/
theorem metricPasses_runs (env : TEnvironment τ) (hquiet : env.Quiet)
    (args : TArguments) (plotParams : TModeEvalMetricsParams) (metrics : List TMetric)
    (labelConverter : TLabelConverter τ)
    (hloop : (HasNonAdditiveMetric metrics && args.calcOnParts) = false)
    (trace : List (TEvent τ)) :
    metricPasses env args plotParams metrics labelConverter trace
      = .ok (trace ++ ((additivePlan env plotParams metrics labelConverter
          ++ calcOnWholePlan env plotParams args.calcOnParts metrics labelConverter
            (retainedParts env plotParams args.calcOnParts metrics labelConverter))
          ++ [.SaveResult plotParams.ResultDirectory args.OutputPath true args.saveStats,
            .ClearTempFiles])) 0 := by
  refine runs_of_Follows _ _ _
    (Follows_metricPasses env args plotParams metrics labelConverter hloop) ?_ trace
  unfold metricPasses
  rw [hloop]
  refine Terminates_bind _ _ (Terminates_additivePass env hquiet _ _ _ _ _) (fun _ => ?_)
  refine Terminates_bind _ _ (Terminates_pure _) (fun _ => ?_)
  refine Terminates_bind _ _ (Terminates_calcOnWhole env hquiet _ _ _ _ _) (fun _ => ?_)
  refine Terminates_bind _ _ (Terminates_call env hquiet _) (fun _ => ?_)
  exact Terminates_bind _ _ (Terminates_call env hquiet _) (fun _ => Terminates_pure _)

/-- C15, strategy selection, in a run whose model is read and whose metrics are created.
Without a non-additive metric no call of either strategy is made.  With one and
`calcOnParts` true, `ComputeNonAdditiveMetrics` is never called, the calls of every run are
an initial part of the setup, the additive pass, some rounds of the calc-on-parts loop,
`SaveResult` and `ClearTempFiles`, a run that returns has all iterations processed when
`SaveResult` is called, and a run that reaches the passes in which nothing throws and the
loop ends after `k` rounds, `k` within the rounds followed, returns after exactly these
calls with `k` rounds, each round a streaming with
`ProceedDataSetForNonAdditiveMetrics` on every block and then
`FinishProceedDataSetForNonAdditiveMetrics`.  With one and `calcOnParts` false no
calc-on-parts call is made, `ComputeNonAdditiveMetrics` is called at most once, exactly once
in a run that returns, and a run that reaches the passes in which nothing throws returns
after exactly the setup, the additive pass, the calc-on-whole calls, `SaveResult` and
`ClearTempFiles`.  The calls of a run split into a first part without strategy calls and a
second part without calls of the additive pass, and if there is a second part and an
additive metric, the first part contains `FinishProceedDataSetForAdditiveMetrics`. -/
theorem strategy_selection (env : TEnvironment τ) (args : TArguments) (model : TFullModel)
    (metrics : List TMetric) (hmodel : env.ReadModel = .ok model)
    (hmetrics : env.CreateMetricsFromDescription
      (metricsDescriptionOf args.plotParams.MetricsDescription)
      model.ObliviousTrees.ApproxDimension = .ok metrics) :
    (HasNonAdditiveMetric metrics = false →
      (∀ event ∈ (mode_eval_metrics env args []).trace,
        event.isCalcOnPartsCall = false ∧ event.isComputeNonAdditiveMetrics = false)
      ∧ ((model.UsedCatFeaturesCount == 0 || args.CdFilePathInited) = true →
        (metricsDescriptionOf args.plotParams.MetricsDescription).isEmpty = false →
        env.Quiet →
        mode_eval_metrics env args [] = .ok (setupCalls env args model metrics
          ++ (additivePlan env (resolvePlotParams env model args.plotParams) metrics
              (env.BuildLabelsHelper model)
            ++ [.SaveResult (resolvePlotParams env model args.plotParams).ResultDirectory
              args.OutputPath true args.saveStats, .ClearTempFiles])) 0))
    ∧ (HasNonAdditiveMetric metrics = true → args.calcOnParts = true →
      (∀ event ∈ (mode_eval_metrics env args []).trace,
        event.isComputeNonAdditiveMetrics = false)
      ∧ (∀ trace value, mode_eval_metrics env args [] = .ok trace value →
        ∃ trace1, trace = trace1 ++ [.SaveResult
            (resolvePlotParams env model args.plotParams).ResultDirectory args.OutputPath
            true args.saveStats, .ClearTempFiles]
          ∧ env.AreAllIterationsProcessed trace1 = true)
      ∧ (∃ k, k ≤ env.Rounds
        ∧ (mode_eval_metrics env args []).trace <+: setupCalls env args model metrics
          ++ (additivePlan env (resolvePlotParams env model args.plotParams) metrics
              (env.BuildLabelsHelper model)
            ++ (calcOnPartsRounds env (resolvePlotParams env model args.plotParams)
                (env.BuildLabelsHelper model) k
              ++ [.SaveResult (resolvePlotParams env model args.plotParams).ResultDirectory
                args.OutputPath true args.saveStats, .ClearTempFiles])))
      ∧ ∀ k, (model.UsedCatFeaturesCount == 0 || args.CdFilePathInited) = true →
        (metricsDescriptionOf args.plotParams.MetricsDescription).isEmpty = false →
        env.Quiet → k ≤ env.Rounds →
        EndsAfter env (resolvePlotParams env model args.plotParams)
          (env.BuildLabelsHelper model)
          (setupCalls env args model metrics
            ++ additivePlan env (resolvePlotParams env model args.plotParams) metrics
              (env.BuildLabelsHelper model)) k →
        mode_eval_metrics env args [] = .ok (setupCalls env args model metrics
          ++ (additivePlan env (resolvePlotParams env model args.plotParams) metrics
              (env.BuildLabelsHelper model)
            ++ (calcOnPartsRounds env (resolvePlotParams env model args.plotParams)
                (env.BuildLabelsHelper model) k
              ++ [.SaveResult (resolvePlotParams env model args.plotParams).ResultDirectory
                args.OutputPath true args.saveStats, .ClearTempFiles]))) 0)
    ∧ (HasNonAdditiveMetric metrics = true → args.calcOnParts = false →
      (∀ event ∈ (mode_eval_metrics env args []).trace, event.isCalcOnPartsCall = false)
      ∧ (mode_eval_metrics env args []).trace.countP TEvent.isComputeNonAdditiveMetrics ≤ 1
      ∧ (∀ trace value, mode_eval_metrics env args [] = .ok trace value →
        trace.countP TEvent.isComputeNonAdditiveMetrics = 1)
      ∧ ((model.UsedCatFeaturesCount == 0 || args.CdFilePathInited) = true →
        (metricsDescriptionOf args.plotParams.MetricsDescription).isEmpty = false →
        env.Quiet →
        mode_eval_metrics env args [] = .ok (setupCalls env args model metrics
          ++ ((additivePlan env (resolvePlotParams env model args.plotParams) metrics
              (env.BuildLabelsHelper model)
            ++ calcOnWholePlan env (resolvePlotParams env model args.plotParams)
              args.calcOnParts metrics (env.BuildLabelsHelper model)
              (retainedParts env (resolvePlotParams env model args.plotParams)
                args.calcOnParts metrics (env.BuildLabelsHelper model)))
            ++ [.SaveResult (resolvePlotParams env model args.plotParams).ResultDirectory
              args.OutputPath true args.saveStats, .ClearTempFiles])) 0))
    ∧ ∃ first second, (mode_eval_metrics env args []).trace = first ++ second
      ∧ (∀ event ∈ first, event.isCalcOnPartsCall = false
          ∧ event.isComputeNonAdditiveMetrics = false)
      ∧ (∀ event ∈ second, event.isAdditiveCall = false)
      ∧ (second ≠ [] → HasAdditiveMetric metrics = true →
          TEvent.FinishProceedDataSetForAdditiveMetrics ∈ first) := by
  have hkind := strategy_call_selected env args model metrics hmodel hmetrics
  have hfalse : ∀ b : Bool, ¬ b = true → b = false := by
    intro b hb
    cases b
    · rfl
    · exact absurd rfl hb
  refine ⟨?_, ?_, ?_, ?_⟩
  · intro hnon
    constructor
    · intro event hevent
      obtain ⟨h1, h2⟩ := hkind event hevent
      constructor
      · apply hfalse
        intro h
        have := h1 h
        rw [hnon] at this
        simp at this
      · apply hfalse
        intro h
        have := h2 h
        rw [hnon] at this
        simp at this
    · intro hcat hdesc hquiet
      rw [mode_eval_metrics_reaches env args model metrics hmodel hmetrics hcat hdesc
        (hquiet _), metricPasses_runs env hquiet args _ metrics _ (by rw [hnon]; rfl)]
      have hwhole : calcOnWholePlan env (resolvePlotParams env model args.plotParams)
          args.calcOnParts metrics (env.BuildLabelsHelper model)
          (retainedParts env (resolvePlotParams env model args.plotParams)
            args.calcOnParts metrics (env.BuildLabelsHelper model)) = [] := by
        unfold calcOnWholePlan
        rw [hnon]
        rfl
      rw [hwhole]
      simp only [List.append_nil]
  · intro hnon hcop
    refine ⟨?_, ?_, ?_, ?_⟩
    · intro event hevent
      apply hfalse
      intro h
      have := (hkind event hevent).2 h
      rw [hcop] at this
      simp at this
    rotate_left
    · rcases mode_eval_metrics_setup env args model metrics hmodel hmetrics with
        ⟨t, message, hfail, hinitial⟩ | hpasses
      · refine ⟨0, Nat.zero_le _, ?_⟩
        rw [hfail]
        obtain ⟨rest, hrest⟩ := hinitial
        rw [← hrest, List.append_assoc]
        exact ⟨_, rfl⟩
      · rw [hpasses]
        exact metricPasses_calcOnParts_initial env args _ metrics _ hnon hcop _
    · intro k hcat hdesc hquiet hk hends
      rw [mode_eval_metrics_reaches env args model metrics hmodel hmetrics hcat hdesc
        (hquiet _)]
      exact metricPasses_calcOnParts_runs env hquiet args _ metrics _ hnon hcop _ k hk hends
    · intro trace value hrun
      rcases mode_eval_metrics_passes env args with ⟨t, message, hfail, -⟩ |
        ⟨model1, metrics1, hmodel1, hmetrics1, hpasses⟩
      · rw [hfail] at hrun
        cases hrun
      · rw [hmodel] at hmodel1
        injection hmodel1 with hmodel1
        subst hmodel1
        rw [hmetrics] at hmetrics1
        injection hmetrics1 with hmetrics1
        subst hmetrics1
        rw [hpasses] at hrun
        exact metricPasses_calcOnParts_ok env args _ metrics _ (by rw [hnon, hcop]; rfl)
          _ trace value hrun
  · intro hnon hcop
    refine ⟨?_, ?_⟩
    · intro event hevent
      apply hfalse
      intro h
      have := (hkind event hevent).1 h
      rw [hcop] at this
      simp at this
    rw [← and_assoc]
    refine ⟨?_, ?_⟩
    rotate_left
    · intro hcat hdesc hquiet
      rw [mode_eval_metrics_reaches env args model metrics hmodel hmetrics hcat hdesc
        (hquiet _)]
      exact metricPasses_runs env hquiet args _ metrics _ (by rw [hcop]; simp) _
    · rcases mode_eval_metrics_passes env args with ⟨t, message, hfail, hnone⟩ |
        ⟨model1, metrics1, hmodel1, hmetrics1, hpasses⟩
      · rw [hfail]
        have h0 : t.countP TEvent.isComputeNonAdditiveMetrics = 0 := by
          rw [List.countP_eq_zero]
          intro event hevent
          have := hnone event hevent
          cases event <;>
            simp [TEvent.isPassEvent, TEvent.isComputeNonAdditiveMetrics] at this ⊢
        refine ⟨?_, fun trace value h => by cases h⟩
        simp only [TOutcome.trace, h0]
        omega
      · rw [hmodel] at hmodel1
        injection hmodel1 with hmodel1
        subst hmodel1
        rw [hmetrics] at hmetrics1
        injection hmetrics1 with hmetrics1
        subst hmetrics1
        have hcount := Follows_countP TEvent.isComputeNonAdditiveMetrics _ _ _
          (Follows_metricPasses env args (resolvePlotParams env model args.plotParams) metrics
            (env.BuildLabelsHelper model) (by rw [hcop]; simp))
          [.ReadModel, .CreateMetricsFromDescription
            (metricsDescriptionOf args.plotParams.MetricsDescription)
            model.ObliviousTrees.ApproxDimension,
            .CreateMetricCalcer (resolvePlotParams env model args.plotParams).FirstIteration
              (resolvePlotParams env model args.plotParams).EndIteration
              (resolvePlotParams env model args.plotParams).Step 50
              (resolvePlotParams env model args.plotParams).TmpDir metrics]
        rw [countP_compute_plan env args _ metrics _ (by rw [hnon, hcop]; rfl)] at hcount
        rw [hpasses]
        have h0 : ([.ReadModel, .CreateMetricsFromDescription
            (metricsDescriptionOf args.plotParams.MetricsDescription)
            model.ObliviousTrees.ApproxDimension,
            .CreateMetricCalcer (resolvePlotParams env model args.plotParams).FirstIteration
              (resolvePlotParams env model args.plotParams).EndIteration
              (resolvePlotParams env model args.plotParams).Step 50
              (resolvePlotParams env model args.plotParams).TmpDir metrics] :
              List (TEvent τ)).countP TEvent.isComputeNonAdditiveMetrics = 0 := by
          simp [List.countP_cons, TEvent.isComputeNonAdditiveMetrics]
        rw [h0, Nat.zero_add] at hcount
        exact hcount
  · rcases mode_eval_metrics_passes env args with ⟨t, message, hfail, hnone⟩ |
      ⟨model1, metrics1, hmodel1, hmetrics1, hpasses⟩
    · refine ⟨t, [], by rw [hfail]; simp [TOutcome.trace], ?_, by simp,
        fun h => absurd rfl h⟩
      intro event hevent
      have := hnone event hevent
      cases event <;>
        simp [TEvent.isPassEvent, TEvent.isCalcOnPartsCall,
          TEvent.isComputeNonAdditiveMetrics] at this ⊢
    · rw [hmodel] at hmodel1
      injection hmodel1 with hmodel1
      subst hmodel1
      rw [hmetrics] at hmetrics1
      injection hmetrics1 with hmetrics1
      subst hmetrics1
      obtain ⟨additive, later, htrace, hadd, hlater, hfinish⟩ :=
        metricPasses_order env args (resolvePlotParams env model args.plotParams) metrics
          (env.BuildLabelsHelper model)
          [.ReadModel, .CreateMetricsFromDescription
            (metricsDescriptionOf args.plotParams.MetricsDescription)
            model.ObliviousTrees.ApproxDimension,
            .CreateMetricCalcer (resolvePlotParams env model args.plotParams).FirstIteration
              (resolvePlotParams env model args.plotParams).EndIteration
              (resolvePlotParams env model args.plotParams).Step 50
              (resolvePlotParams env model args.plotParams).TmpDir metrics]
      refine ⟨_ ++ additive, later, by rw [hpasses, htrace], ?_, hlater, ?_⟩
      · intro event hevent
        rcases List.mem_append.mp hevent with h | h
        · simp only [List.mem_cons, List.mem_singleton, List.not_mem_nil, or_false] at h
          rcases h with h | h | h <;> subst h <;> exact ⟨rfl, rfl⟩
        · exact hadd event h
      · intro hne hhas
        exact List.mem_append_right _ (hfinish hne hhas)

/-- C15 on the run with the metrics "Logloss,AUC" and `calcOnParts` true, on a dataset of
two blocks, in which the plot calcer has all iterations processed after one round: the run
returns after the setup, the additive pass, one round of the calc-on-parts loop,
`SaveResult` and `ClearTempFiles`. -/
theorem strategy_selection_witness :
    mode_eval_metrics (exampleEnvironment (exampleModel 10 0))
        (exampleArguments 0 0 false true) []
      = .ok [.ReadModel, .CreateMetricsFromDescription ["Logloss", "AUC"] 1,
          .CreateMetricCalcer 0 10 1 50 "tmp" [⟨"Logloss", true⟩, ⟨"AUC", false⟩],
          .ReadAndProceedPoolInBlocks 2,
          .BlockRead ⟨[0, 1], [], []⟩,
          .ProceedDataSetForAdditiveMetrics ⟨[0, 1], [], []⟩ false,
          .BlockRead ⟨[1], [], []⟩,
          .ProceedDataSetForAdditiveMetrics ⟨[1], [], []⟩ false,
          .FinishProceedDataSetForAdditiveMetrics,
          .ReadAndProceedPoolInBlocks 2,
          .BlockRead ⟨[0, 1], [], []⟩,
          .ProceedDataSetForNonAdditiveMetrics ⟨[0, 1], [], []⟩,
          .BlockRead ⟨[1], [], []⟩,
          .ProceedDataSetForNonAdditiveMetrics ⟨[1], [], []⟩,
          .FinishProceedDataSetForNonAdditiveMetrics,
          .SaveResult "res" "out" true false, .ClearTempFiles] 0 :=
  (((strategy_selection (exampleEnvironment (exampleModel 10 0))
    (exampleArguments 0 0 false true) (exampleModel 10 0)
    [⟨"Logloss", true⟩, ⟨"AUC", false⟩] rfl rfl).2.1 (by decide) rfl).2.2.2 1
    (by decide) (by decide) (fun _ => rfl) (by decide) ⟨by decide, by decide⟩).trans
    (by decide)

/-- C16, memory-bounded retention: the callback of the additive pass first calls
`ProceedDataSetForAdditiveMetrics` on the block and, only when that call has returned,
appends the block to `datasetParts` exactly when there is a non-additive metric and
`calcOnParts` is false; so a completed additive pass started on an empty `datasetParts`
leaves all blocks in it in that case and leaves it empty otherwise, and in calc-on-parts
mode and in additive-only runs the calc-on-whole step, the only other place that fills
`datasetParts`, does nothing. -/
theorem memory_bounded_retention (env : TEnvironment τ) (plotParams : TModeEvalMetricsParams)
    (calcOnParts : Bool) (metrics : List TMetric) (labelConverter : TLabelConverter τ) :
    (∀ (poolPart : TPool τ) (datasetParts : List (TPool τ)) (trace : List (TEvent τ)),
      additiveCallback env calcOnParts metrics labelConverter poolPart datasetParts trace =
        match env.Throws (trace ++ [.ProceedDataSetForAdditiveMetrics
            (preprocessPool labelConverter poolPart)
            (!(preprocessPool labelConverter poolPart).QueryId.isEmpty)]) with
        | some message =>
          .failed (trace ++ [.ProceedDataSetForAdditiveMetrics
            (preprocessPool labelConverter poolPart)
            (!(preprocessPool labelConverter poolPart).QueryId.isEmpty)]) message
        | none =>
          .ok (trace ++ [.ProceedDataSetForAdditiveMetrics
            (preprocessPool labelConverter poolPart)
            (!(preprocessPool labelConverter poolPart).QueryId.isEmpty)])
            (if HasNonAdditiveMetric metrics && !calcOnParts then
              datasetParts ++ [preprocessPool labelConverter poolPart]
            else datasetParts))
    ∧ (∀ (trace trace1 : List (TEvent τ)) (datasetParts : List (TPool τ)),
      additivePass env plotParams calcOnParts metrics labelConverter [] trace
          = .ok trace1 datasetParts →
        datasetParts =
          if HasAdditiveMetric metrics && (HasNonAdditiveMetric metrics && !calcOnParts) then
            (env.Blocks plotParams.ReadBlockSize).map (preprocessPool labelConverter)
          else [])
    ∧ ((HasNonAdditiveMetric metrics && !calcOnParts) = false →
      (∀ (trace trace1 : List (TEvent τ)) (datasetParts : List (TPool τ)),
        additivePass env plotParams calcOnParts metrics labelConverter [] trace
            = .ok trace1 datasetParts → datasetParts = [])
      ∧ ∀ datasetParts : List (TPool τ),
        calcOnWhole env plotParams calcOnParts metrics labelConverter datasetParts
          = TRun.pure ()) := by
  have hpass : ∀ (trace trace1 : List (TEvent τ)) (datasetParts : List (TPool τ)),
      additivePass env plotParams calcOnParts metrics labelConverter [] trace
          = .ok trace1 datasetParts →
        datasetParts =
          if HasAdditiveMetric metrics && (HasNonAdditiveMetric metrics && !calcOnParts) then
            (env.Blocks plotParams.ReadBlockSize).map (preprocessPool labelConverter)
          else [] := by
    intro trace trace1 datasetParts h
    have hF := Follows_additivePass env plotParams calcOnParts metrics labelConverter []
    have := ((hF trace).2 trace1 datasetParts h).2
    rw [List.nil_append] at this
    exact this
  refine ⟨?_, hpass, ?_⟩
  · intro poolPart datasetParts trace
    show (call env (.ProceedDataSetForAdditiveMetrics (preprocessPool labelConverter poolPart)
        (!(preprocessPool labelConverter poolPart).QueryId.isEmpty)) >>= fun _ =>
        if HasNonAdditiveMetric metrics && !calcOnParts then
          (TRun.pure (datasetParts ++ [preprocessPool labelConverter poolPart]) :
            TRun (TEvent τ) (List (TPool τ)))
        else TRun.pure datasetParts) trace = _
    cases hT : env.Throws (trace ++ [.ProceedDataSetForAdditiveMetrics
        (preprocessPool labelConverter poolPart)
        (!(preprocessPool labelConverter poolPart).QueryId.isEmpty)]) with
    | some message => rw [bind_apply_failed _ _ (call_throws env _ _ message hT)]
    | none =>
      rw [bind_apply_ok _ _ (call_returns env _ _ hT)]
      split <;> rfl
  · intro hsel
    constructor
    · intro trace trace1 datasetParts h
      have := hpass trace trace1 datasetParts h
      rw [hsel] at this
      simpa using this
    · intro datasetParts
      unfold calcOnWhole
      rw [hsel]
      rfl

/-- C16 on the two-block dataset with the metrics "Logloss,AUC": without calc-on-parts the
additive pass retains both blocks, with calc-on-parts it retains none. -/
theorem memory_bounded_retention_witness :
    additivePass (exampleEnvironment (exampleModel 10 0))
        (exampleArguments 0 0 false false).plotParams false
        [⟨"Logloss", true⟩, ⟨"AUC", false⟩] ⟨false, fun targets => targets⟩ [] []
      = .ok [.ReadAndProceedPoolInBlocks 2, .BlockRead ⟨[0, 1], [], []⟩,
          .ProceedDataSetForAdditiveMetrics ⟨[0, 1], [], []⟩ false,
          .BlockRead ⟨[1], [], []⟩, .ProceedDataSetForAdditiveMetrics ⟨[1], [], []⟩ false,
          .FinishProceedDataSetForAdditiveMetrics]
        [⟨[0, 1], [], []⟩, ⟨[1], [], []⟩]
    ∧ ([⟨[0, 1], [], []⟩, ⟨[1], [], []⟩] : List (TPool Int)) =
        if HasAdditiveMetric [⟨"Logloss", true⟩, ⟨"AUC", false⟩]
            && (HasNonAdditiveMetric [⟨"Logloss", true⟩, ⟨"AUC", false⟩] && !false) then
          ((exampleEnvironment (exampleModel 10 0)).Blocks
            (exampleArguments 0 0 false false).plotParams.ReadBlockSize).map
            (preprocessPool ⟨false, fun targets => targets⟩)
        else [] :=
  ⟨by decide,
    (memory_bounded_retention (exampleEnvironment (exampleModel 10 0))
      (exampleArguments 0 0 false false).plotParams false
      [⟨"Logloss", true⟩, ⟨"AUC", false⟩] ⟨false, fun targets => targets⟩).2.1 []
      [.ReadAndProceedPoolInBlocks 2, .BlockRead ⟨[0, 1], [], []⟩,
        .ProceedDataSetForAdditiveMetrics ⟨[0, 1], [], []⟩ false,
        .BlockRead ⟨[1], [], []⟩, .ProceedDataSetForAdditiveMetrics ⟨[1], [], []⟩ false,
        .FinishProceedDataSetForAdditiveMetrics]
      [⟨[0, 1], [], []⟩, ⟨[1], [], []⟩] (by decide)⟩

end PassProperties

end CatBoost
